import Mathlib

/-!
# libbldcm: register cache and motor facade

A shallow embedding of `src/register_map.cpp`, `src/include/libbldcm/register_map.hpp`,
`src/libbldcm.cpp` and `src/include/libbldcm.hpp`.

Conventions of the embedding:

* `uint32_t`, `uint16_t`, `uint8_t` values are natural numbers; every operation that can leave
  the range of its C++ type is followed by an explicit `% 2 ^ w`.
* `int64_t` values (`std::chrono` representations, `std::ratio` constants) are integers wrapped
  by `wrap64`.
* The one `double` computation, in `_calcPwmDutyFromRegister`, has integer operands that are
  exact doubles; its division is embedded as IEEE 754 binary64 division (`f64Div`) and its
  `round` as `f64Round`.
* A member function that can throw returns `Except Exn α` together with the state it leaves
  behind, because in C++ the side effects made before a `throw` persist.
* Overloads are told apart by a suffix: the setter keeps the source name, the getter is
  suffixed `Read` (registers) or `Get` (motor).
* A run of the facade is a list of `Motor.Op`, the public member functions with their
  arguments; `Motor.exec` gives the state a call leaves behind, whether it returns or throws.
-/

deriving instance DecidableEq for Except

namespace bldcm

/-! ## Exceptions and the external bus accessor -/

/-- The exception classes that occur in the sources: `std::range_error` (the class the register
layer catches around bus accesses, i.e. the transport failure of the bus accessor),
`std::runtime_error` and `std::out_of_range` (thrown by `Motor`). -/
inductive Exn where
  | range_error
  | runtime_error
  | out_of_range
  deriving DecidableEq

/-- One call of the bus accessor. -/
inductive BusOp where
  | read32 (addr : Nat)
  | write32 (addr : Nat) (val : Nat)
  deriving DecidableEq

/-- The external bus accessor `Fpgasoc` (library libfpgasoc, outside this repository). Its
behaviour is a parameter of the embedding: `readResp` and `writeResp` decide, from the calls
made so far, whether the next call succeeds and what a read returns (`none` and `false` are a
bus fault). `log` is the sequence of calls made so far, oldest first. -/
structure Fpgasoc where
  readResp : List BusOp → Nat → Option Nat
  writeResp : List BusOp → Nat → Nat → Bool
  log : List BusOp

/-- The call `Fpgasoc::read32(addr)`: returns a `uint32_t` or throws. -/
def Fpgasoc.read32 (f : Fpgasoc) (addr : Nat) : Except Exn Nat × Fpgasoc :=
  let f1 : Fpgasoc := { f with log := f.log ++ [BusOp.read32 addr] }
  match f.readResp f.log addr with
  | some v => (Except.ok (v % 2 ^ 32), f1)
  | none => (Except.error Exn.range_error, f1)

/-- The call `Fpgasoc::write32(addr, val)`: returns or throws. -/
def Fpgasoc.write32 (f : Fpgasoc) (addr val : Nat) : Except Exn Unit × Fpgasoc :=
  let f1 : Fpgasoc := { f with log := f.log ++ [BusOp.write32 addr val] }
  if f.writeResp f.log addr val then (Except.ok (), f1)
  else (Except.error Exn.range_error, f1)

/-- The word last written to `addr` in a call log, or `dflt` when there is none. -/
def lastWritten (dflt : Nat) (addr : Nat) : List BusOp → Nat
  | [] => dflt
  | BusOp.write32 a v :: rest => lastWritten (if a = addr then v else dflt) addr rest
  | BusOp.read32 _ :: rest => lastWritten dflt addr rest

/-- A bus that behaves as a memory: no call fails and `read32` returns the word last written
to the address, or the initial content `init addr` when nothing was written there. -/
def memBus (init : Nat → Nat) (log : List BusOp) : Fpgasoc :=
  { readResp := fun l a => some (lastWritten (init a) a l)
    writeResp := fun _ _ _ => true
    log := log }

/-! ## Bit-field codec (`register_map.cpp`, lines 15-23) -/

/-- The operator `~x` on `uint32_t`. -/
def not32 (x : Nat) : Nat := 2 ^ 32 - 1 - x % 2 ^ 32

/-- The operator `x << k` on `uint32_t`. -/
def shl32 (x k : Nat) : Nat := (x <<< k) % 2 ^ 32

/-- The function `pickupValue(value, bitPos, bitMask)`. -/
def pickupValue (value bitPos bitMask : Nat) : Nat :=
  (value &&& bitMask) >>> bitPos

/-- The function `insertValue(updatedValue, insertedValue, bitPos, bitMask)`; the result is the
new content of the reference parameter `updatedValue`. -/
def insertValue (updatedValue insertedValue bitPos bitMask : Nat) : Nat :=
  (updatedValue &&& not32 bitMask) ||| (shl32 insertedValue bitPos &&& bitMask)

/-! ## Register (`register_map.hpp`, lines 12-50; `register_map.cpp`, lines 26-92) -/

/-- The enumeration `Register::CacheState`. -/
inductive CacheState where
  | initialized
  | sync
  | modified
  deriving DecidableEq

/-- The dynamic type of a register object; it selects the override of the virtual
`_flushCacheCallBack`. -/
inductive RegKind where
  | freqtgt
  | pwmCmp
  | ctrl
  | stat
  deriving DecidableEq

/-- The data members of `Register`. The reference `_fpgaObj` is passed to each operation
instead, because the four registers of a map share one bus accessor. -/
structure Register where
  kind : RegKind
  _addr : Nat
  _regCache : Nat
  _cacheStatus : CacheState

/-- The constructor `Register(addr, resetVal, obj)`. -/
def Register.new (kind : RegKind) (addr resetVal : Nat) : Register :=
  { kind := kind, _addr := addr, _regCache := resetVal, _cacheStatus := CacheState.initialized }

/-- The accessor `Register::cacheStatus()`. -/
def Register.cacheStatus (r : Register) : CacheState := r._cacheStatus

/-- The member `Register::_forceSetCacheStatus(newState)`. -/
def Register._forceSetCacheStatus (r : Register) (newState : CacheState) : Register :=
  { r with _cacheStatus := newState }

/-- The effect of `reg(val, true)`: the branch of `Register::reg(const uint32_t&, bool)` taken
when `isOnlyWriteCache` holds. It touches no bus and cannot throw
(see `Register.reg_cacheOnly`). -/
def Register.regCacheOnly (r : Register) (val : Nat) : Register :=
  { r with _regCache := val, _cacheStatus := CacheState.modified }

namespace CtrlReg
namespace PwmMaxcnt
def Mask : Nat := 0x0FFFF000
def Pos : Nat := 12
def Width : Nat := 16
end PwmMaxcnt
namespace PwmPrsc
def Mask : Nat := 0x00000FC0
def Pos : Nat := 6
def Width : Nat := 6
end PwmPrsc
namespace WPhase
def Mask : Nat := 0x00000020
def Pos : Nat := 5
def Width : Nat := 1
def NotWrite : Nat := 0x00
def Write : Nat := 0x01
end WPhase
namespace Phase
def Mask : Nat := 0x0000001C
def Pos : Nat := 2
def Width : Nat := 3
end Phase
namespace En
def Mask : Nat := 0x00000001
def Pos : Nat := 0
def Width : Nat := 1
def Disable : Nat := 0x00
def Enable : Nat := 0x01
end En
def _Offset : Nat := 0x00000008
def _ResetVal : Nat := 0x0FFFF000
end CtrlReg

namespace FreqtgtReg
namespace Freqtgt
def Mask : Nat := 0xFFFFFFFF
def Pos : Nat := 0
def Width : Nat := 32
end Freqtgt
def _Offset : Nat := 0x00000000
def _ResetVal : Nat := 0x00000000
end FreqtgtReg

namespace PwmCmpReg
namespace PwmCmp
def Mask : Nat := 0x0001FFFF
def Pos : Nat := 0
def Width : Nat := 17
end PwmCmp
def _Offset : Nat := 0x00000004
def _ResetVal : Nat := 0x00000000
end PwmCmpReg

namespace StatReg
namespace RelCnt
def Mask : Nat := 0xFF000000
def Pos : Nat := 24
def Width : Nat := 8
def MaxVal : Nat := 1
end RelCnt
namespace Deadtime
def Mask : Nat := 0x00F00000
def Pos : Nat := 20
def Width : Nat := 4
end Deadtime
namespace Reflectedfreq
def Mask : Nat := 0x00000002
def Pos : Nat := 1
def Width : Nat := 1
def NotReflected : Nat := 0x00
def Reflected : Nat := 0x01
end Reflectedfreq
namespace Stop
def Mask : Nat := 0x00000001
def Pos : Nat := 0
def Width : Nat := 1
def Rotating : Nat := 0x00
def Stopping : Nat := 0x01
end Stop
def _Offset : Nat := 0x0000000C
def _ResetVal : Nat := 0x00000000
end StatReg

/-- The override `CtrlReg::_flushCacheCallBack()`: `reg(true)` reads the cache,
`reg(regValue, true)` is the cache-only write. -/
def CtrlReg._flushCacheCallBack (r : Register) : Register :=
  let regValue := r._regCache
  let regValue := insertValue regValue CtrlReg.WPhase.NotWrite CtrlReg.WPhase.Pos
    CtrlReg.WPhase.Mask
  let r := r.regCacheOnly regValue
  r._forceSetCacheStatus CacheState.sync

/-- Virtual dispatch of `_flushCacheCallBack`: only `CtrlReg` overrides the empty default. -/
def Register._flushCacheCallBack (r : Register) : Register :=
  match r.kind with
  | RegKind.ctrl => CtrlReg._flushCacheCallBack r
  | _ => r

/-- The member `Register::flushCache()`. -/
def Register.flushCache (r : Register) (f : Fpgasoc) : Except Exn Unit × Register × Fpgasoc :=
  match f.write32 r._addr r._regCache with
  | (Except.error e, f1) => (Except.error e, r, f1)
  | (Except.ok _, f1) =>
    let r := { r with _cacheStatus := CacheState.sync }
    (Except.ok (), r._flushCacheCallBack, f1)

/-- The member `Register::updateCache()`. -/
def Register.updateCache (r : Register) (f : Fpgasoc) : Except Exn Unit × Register × Fpgasoc :=
  match f.read32 r._addr with
  | (Except.error e, f1) => (Except.error e, r, f1)
  | (Except.ok v, f1) =>
    (Except.ok (), { r with _regCache := v, _cacheStatus := CacheState.sync }, f1)

/-- The member `Register::reg(const uint32_t &val, bool isOnlyWriteCache)`. -/
def Register.reg (r : Register) (f : Fpgasoc) (val : Nat) (isOnlyWriteCache : Bool) :
    Except Exn Unit × Register × Fpgasoc :=
  let origCache := r._regCache
  let r := { r with _regCache := val }
  if isOnlyWriteCache then
    (Except.ok (), { r with _cacheStatus := CacheState.modified }, f)
  else
    match r.flushCache f with
    | (Except.error Exn.range_error, r1, f1) =>
      (Except.error Exn.range_error, { r1 with _regCache := origCache }, f1)
    | res => res

/-- The member `Register::reg(bool isReadFromCache)`. -/
def Register.regRead (r : Register) (f : Fpgasoc) (isReadFromCache : Bool) :
    Except Exn Nat × Register × Fpgasoc :=
  if !isReadFromCache then
    match r.updateCache f with
    | (Except.error e, r1, f1) => (Except.error e, r1, f1)
    | (Except.ok _, r1, f1) => (Except.ok r1._regCache, r1, f1)
  else
    (Except.ok r._regCache, r, f)

/-! ## Typed registers (`register_map.hpp`, lines 52-243; `register_map.cpp`, lines 94-221) -/

/-- The constructor `FreqtgtReg(obj, baseAddr)`. -/
def FreqtgtReg.new (baseAddr : Nat) : Register :=
  Register.new RegKind.freqtgt ((baseAddr + FreqtgtReg._Offset) % 2 ^ 32) FreqtgtReg._ResetVal

/-- The constructor `PwmCmpReg(obj, baseAddr)`. -/
def PwmCmpReg.new (baseAddr : Nat) : Register :=
  Register.new RegKind.pwmCmp ((baseAddr + PwmCmpReg._Offset) % 2 ^ 32) PwmCmpReg._ResetVal

/-- The constructor `CtrlReg(obj, baseAddr)`. -/
def CtrlReg.new (baseAddr : Nat) : Register :=
  Register.new RegKind.ctrl ((baseAddr + CtrlReg._Offset) % 2 ^ 32) CtrlReg._ResetVal

/-- The constructor `StatReg(obj, baseAddr)`. -/
def StatReg.new (baseAddr : Nat) : Register :=
  Register.new RegKind.stat ((baseAddr + StatReg._Offset) % 2 ^ 32) StatReg._ResetVal

/-- The setter `FreqtgtReg::freqtgt(val, isOnlyWriteCache)`. -/
def FreqtgtReg.freqtgt (r : Register) (f : Fpgasoc) (val : Nat) (isOnlyWriteCache : Bool) :
    Except Exn Unit × Register × Fpgasoc :=
  r.reg f val isOnlyWriteCache

/-- The getter `FreqtgtReg::freqtgt(isReadFromCache)`. -/
def FreqtgtReg.freqtgtRead (r : Register) (f : Fpgasoc) (isReadFromCache : Bool) :
    Except Exn Nat × Register × Fpgasoc :=
  r.regRead f isReadFromCache

/-- The setter `PwmCmpReg::pwmCmp(val, isOnlyWriteCache)`. -/
def PwmCmpReg.pwmCmp (r : Register) (f : Fpgasoc) (val : Nat) (isOnlyWriteCache : Bool) :
    Except Exn Unit × Register × Fpgasoc :=
  match r.regRead f isOnlyWriteCache with
  | (Except.error e, r1, f1) => (Except.error e, r1, f1)
  | (Except.ok regValue, r1, f1) =>
    let regValue := insertValue regValue val PwmCmpReg.PwmCmp.Pos PwmCmpReg.PwmCmp.Mask
    r1.reg f1 regValue isOnlyWriteCache

/-- The getter `PwmCmpReg::pwmCmp(isReadFromCache)`. -/
def PwmCmpReg.pwmCmpRead (r : Register) (f : Fpgasoc) (isReadFromCache : Bool) :
    Except Exn Nat × Register × Fpgasoc :=
  match r.regRead f isReadFromCache with
  | (Except.error e, r1, f1) => (Except.error e, r1, f1)
  | (Except.ok v, r1, f1) =>
    (Except.ok (pickupValue v PwmCmpReg.PwmCmp.Pos PwmCmpReg.PwmCmp.Mask), r1, f1)

/-- The setter `CtrlReg::pwmMaxcnt(val, isOnlyWriteCache)`; `val` is a `uint16_t`. -/
def CtrlReg.pwmMaxcnt (r : Register) (f : Fpgasoc) (val : Nat) (isOnlyWriteCache : Bool) :
    Except Exn Unit × Register × Fpgasoc :=
  match r.regRead f isOnlyWriteCache with
  | (Except.error e, r1, f1) => (Except.error e, r1, f1)
  | (Except.ok regValue, r1, f1) =>
    let regValue := insertValue regValue (val % 2 ^ 16) CtrlReg.PwmMaxcnt.Pos
      CtrlReg.PwmMaxcnt.Mask
    r1.reg f1 regValue isOnlyWriteCache

/-- The getter `CtrlReg::pwmMaxcnt(isReadFromCache)`, returning a `uint16_t`. -/
def CtrlReg.pwmMaxcntRead (r : Register) (f : Fpgasoc) (isReadFromCache : Bool) :
    Except Exn Nat × Register × Fpgasoc :=
  match r.regRead f isReadFromCache with
  | (Except.error e, r1, f1) => (Except.error e, r1, f1)
  | (Except.ok v, r1, f1) =>
    (Except.ok (pickupValue v CtrlReg.PwmMaxcnt.Pos CtrlReg.PwmMaxcnt.Mask % 2 ^ 16), r1, f1)

/-- The setter `CtrlReg::pwmPrsc(val, isOnlyWriteCache)`; `val` is a `uint8_t`. -/
def CtrlReg.pwmPrsc (r : Register) (f : Fpgasoc) (val : Nat) (isOnlyWriteCache : Bool) :
    Except Exn Unit × Register × Fpgasoc :=
  match r.regRead f isOnlyWriteCache with
  | (Except.error e, r1, f1) => (Except.error e, r1, f1)
  | (Except.ok regValue, r1, f1) =>
    let regValue := insertValue regValue (val % 2 ^ 8) CtrlReg.PwmPrsc.Pos CtrlReg.PwmPrsc.Mask
    r1.reg f1 regValue isOnlyWriteCache

/-- The getter `CtrlReg::pwmPrsc(isReadFromCache)`, returning a `uint8_t`. -/
def CtrlReg.pwmPrscRead (r : Register) (f : Fpgasoc) (isReadFromCache : Bool) :
    Except Exn Nat × Register × Fpgasoc :=
  match r.regRead f isReadFromCache with
  | (Except.error e, r1, f1) => (Except.error e, r1, f1)
  | (Except.ok v, r1, f1) =>
    (Except.ok (pickupValue v CtrlReg.PwmPrsc.Pos CtrlReg.PwmPrsc.Mask % 2 ^ 8), r1, f1)

/-- The setter `CtrlReg::phase(val, isOnlyWriteCache)`; `val` is a `uint8_t`. -/
def CtrlReg.phase (r : Register) (f : Fpgasoc) (val : Nat) (isOnlyWriteCache : Bool) :
    Except Exn Unit × Register × Fpgasoc :=
  match r.regRead f isOnlyWriteCache with
  | (Except.error e, r1, f1) => (Except.error e, r1, f1)
  | (Except.ok regValue, r1, f1) =>
    let regValue := insertValue regValue (val % 2 ^ 8) CtrlReg.Phase.Pos CtrlReg.Phase.Mask
    let regValue := insertValue regValue CtrlReg.WPhase.Write CtrlReg.WPhase.Pos
      CtrlReg.WPhase.Mask
    r1.reg f1 regValue isOnlyWriteCache

/-- The getter `CtrlReg::phase(isReadFromCache)`, returning a `uint8_t`. -/
def CtrlReg.phaseRead (r : Register) (f : Fpgasoc) (isReadFromCache : Bool) :
    Except Exn Nat × Register × Fpgasoc :=
  match r.regRead f isReadFromCache with
  | (Except.error e, r1, f1) => (Except.error e, r1, f1)
  | (Except.ok v, r1, f1) =>
    (Except.ok (pickupValue v CtrlReg.Phase.Pos CtrlReg.Phase.Mask % 2 ^ 8), r1, f1)

/-- The setter `CtrlReg::en(val, isOnlyWriteCache)`; `val` is a `uint8_t`. -/
def CtrlReg.en (r : Register) (f : Fpgasoc) (val : Nat) (isOnlyWriteCache : Bool) :
    Except Exn Unit × Register × Fpgasoc :=
  match r.regRead f isOnlyWriteCache with
  | (Except.error e, r1, f1) => (Except.error e, r1, f1)
  | (Except.ok regValue, r1, f1) =>
    let regValue := insertValue regValue (val % 2 ^ 8) CtrlReg.En.Pos CtrlReg.En.Mask
    r1.reg f1 regValue isOnlyWriteCache

/-- The getter `CtrlReg::en(isReadFromCache)`, returning a `uint8_t`. -/
def CtrlReg.enRead (r : Register) (f : Fpgasoc) (isReadFromCache : Bool) :
    Except Exn Nat × Register × Fpgasoc :=
  match r.regRead f isReadFromCache with
  | (Except.error e, r1, f1) => (Except.error e, r1, f1)
  | (Except.ok v, r1, f1) =>
    (Except.ok (pickupValue v CtrlReg.En.Pos CtrlReg.En.Mask % 2 ^ 8), r1, f1)

/-- The table `StatReg::RelCnt::VerTbl`. -/
def StatReg.RelCnt.VerTbl : List String := ["UNDR 2.10", "2.10"]

/-- The getter `StatReg::relCnt(isReadFromCache)`, returning a `uint8_t`. -/
def StatReg.relCnt (r : Register) (f : Fpgasoc) (isReadFromCache : Bool) :
    Except Exn Nat × Register × Fpgasoc :=
  match r.regRead f isReadFromCache with
  | (Except.error e, r1, f1) => (Except.error e, r1, f1)
  | (Except.ok v, r1, f1) =>
    (Except.ok (pickupValue v StatReg.RelCnt.Pos StatReg.RelCnt.Mask % 2 ^ 8), r1, f1)

/-- The getter `StatReg::deadtime(isReadFromCache)`, returning a `uint8_t`. -/
def StatReg.deadtime (r : Register) (f : Fpgasoc) (isReadFromCache : Bool) :
    Except Exn Nat × Register × Fpgasoc :=
  match r.regRead f isReadFromCache with
  | (Except.error e, r1, f1) => (Except.error e, r1, f1)
  | (Except.ok v, r1, f1) =>
    (Except.ok (pickupValue v StatReg.Deadtime.Pos StatReg.Deadtime.Mask % 2 ^ 8), r1, f1)

/-- The getter `StatReg::reflectedfreq(isReadFromCache)`, returning a `uint8_t`. -/
def StatReg.reflectedfreq (r : Register) (f : Fpgasoc) (isReadFromCache : Bool) :
    Except Exn Nat × Register × Fpgasoc :=
  match r.regRead f isReadFromCache with
  | (Except.error e, r1, f1) => (Except.error e, r1, f1)
  | (Except.ok v, r1, f1) =>
    (Except.ok (pickupValue v StatReg.Reflectedfreq.Pos StatReg.Reflectedfreq.Mask % 2 ^ 8),
      r1, f1)

/-- The getter `StatReg::stop(isReadFromCache)`, returning a `uint8_t`. -/
def StatReg.stop (r : Register) (f : Fpgasoc) (isReadFromCache : Bool) :
    Except Exn Nat × Register × Fpgasoc :=
  match r.regRead f isReadFromCache with
  | (Except.error e, r1, f1) => (Except.error e, r1, f1)
  | (Except.ok v, r1, f1) =>
    (Except.ok (pickupValue v StatReg.Stop.Pos StatReg.Stop.Mask % 2 ^ 8), r1, f1)

/-- The class `RegMap`: the four registers and the bus accessor they share. -/
structure RegMap where
  _fpgaObjPtr : Fpgasoc
  freqtgt : Register
  pwmCmp : Register
  ctrl : Register
  stat : Register

/-- The constructor `RegMap(ptr, baseAddr)`. -/
def RegMap.new (ptr : Fpgasoc) (baseAddr : Nat) : RegMap :=
  { _fpgaObjPtr := ptr
    freqtgt := FreqtgtReg.new baseAddr
    pwmCmp := PwmCmpReg.new baseAddr
    ctrl := CtrlReg.new baseAddr
    stat := StatReg.new baseAddr }

/-! ## 64-bit signed arithmetic -/

/-- Two's-complement wrap-around of an integer into the range of `int64_t`. -/
def wrap64 (x : Int) : Int := (x + 2 ^ 63) % 2 ^ 64 - 2 ^ 63

/-- The operator `x << k` on `int64_t` with an `int` shift count. The C++ result is undefined
for a negative count, a count of 64 or more, or an overflowing result; the embedding wraps the
exact product and treats a negative count as zero. -/
def shl64 (x k : Int) : Int := wrap64 (x * 2 ^ k.toNat)

/-- The operator `x >> k` on `int64_t` (arithmetic shift); a negative count is treated as
zero. -/
def sar64 (x k : Int) : Int := x / 2 ^ k.toNat

/-- The operator `x / y` on `int64_t`: truncation toward zero. The C++ result is undefined for
`y = 0`; the embedding then yields `0`, the value of `Int.tdiv`. -/
def div64 (x y : Int) : Int := wrap64 (Int.tdiv x y)

/-- The constant `std::nano::num`. -/
def nano_num : Int := 1

/-- The constant `std::nano::den`. -/
def nano_den : Int := 1000000000

/-! ## Motor (`libbldcm.hpp`, lines 42-100; `libbldcm.cpp`) -/

/-- The data members of `Motor`. -/
structure Motor where
  _regmap : RegMap
  _clkFq : Int
  _hwIpVersion : Bool × String
  _deadtime : Bool × Int
  _pwmDuty : Bool × Int

namespace Motor

def _InvalidHwIpVerStr : String := "UNKNOWN"
def _InvalidDeadtime : Int := -1
def _InvalidPwmDuty : Int := -1
def _MinPrscSel : Int := 0
def _MaxPrscSel : Int := 32
def _MaxPwmMaxcnt : Int := 0xFFFF
def _MinPhase : Int := 0
def _MaxPhase : Int := 5

/-- Store back the Ctrl register and the bus accessor after a call on `_regmap.ctrl`. -/
def withCtrl (mo : Motor) (r : Register) (f : Fpgasoc) : Motor :=
  { mo with _regmap := { mo._regmap with ctrl := r, _fpgaObjPtr := f } }

/-- Store back the PwmCmp register and the bus accessor after a call on `_regmap.pwmCmp`. -/
def withPwmCmp (mo : Motor) (r : Register) (f : Fpgasoc) : Motor :=
  { mo with _regmap := { mo._regmap with pwmCmp := r, _fpgaObjPtr := f } }

/-- Store back the FreqTgt register and the bus accessor after a call on `_regmap.freqtgt`. -/
def withFreqtgt (mo : Motor) (r : Register) (f : Fpgasoc) : Motor :=
  { mo with _regmap := { mo._regmap with freqtgt := r, _fpgaObjPtr := f } }

/-- Store back the Stat register and the bus accessor after a call on `_regmap.stat`. -/
def withStat (mo : Motor) (r : Register) (f : Fpgasoc) : Motor :=
  { mo with _regmap := { mo._regmap with stat := r, _fpgaObjPtr := f } }

/-- The member `Motor::_fetchHwIpVersion(fromCache)`. -/
def _fetchHwIpVersion (mo : Motor) (fromCache : Bool) : Motor :=
  match StatReg.relCnt mo._regmap.stat mo._regmap._fpgaObjPtr fromCache with
  | (Except.error _, r1, f1) => mo.withStat r1 f1
  | (Except.ok relCnt, r1, f1) =>
    let mo := mo.withStat r1 f1
    if relCnt ≤ StatReg.RelCnt.MaxVal then
      { mo with _hwIpVersion := (true, StatReg.RelCnt.VerTbl.getD relCnt "") }
    else mo

/-- The member `Motor::_fetchDeadtime(fromCache)`. -/
def _fetchDeadtime (mo : Motor) (fromCache : Bool) : Motor :=
  match StatReg.deadtime mo._regmap.stat mo._regmap._fpgaObjPtr fromCache with
  | (Except.error _, r1, f1) => mo.withStat r1 f1
  | (Except.ok deadtime, r1, f1) =>
    let mo := mo.withStat r1 f1
    { mo with _deadtime := (true, (deadtime : Int)) }

/-- The least shift `s`, searched upward from the second argument with the fuel of the first,
for which `num * 2 ^ s ≥ den * 2 ^ 52`: the scaling that gives the quotient `num / den` a
53-bit significand. -/
def f64Shift (num den : Nat) : Nat → Nat → Nat
  | 0, s => s
  | fuel + 1, s => if den * 2 ^ 52 ≤ num * 2 ^ s then s else f64Shift num den fuel (s + 1)

/-- The quotient `a / b` rounded to the nearest integer, ties to the even one. -/
def roundNearestEven (a b : Nat) : Nat :=
  let q := a / b
  let r := a % b
  if 2 * r < b then q
  else if 2 * r > b then q + 1
  else if q % 2 = 0 then q
  else q + 1

/-- The IEEE 754 binary64 quotient `double(num) / double(den)` of two positive integers that
are exact doubles, for a quotient below `2 ^ 52` in the normal range: the pair `(m, s)` stands
for the double `m / 2 ^ s`, where `s` scales the exact quotient into `[2 ^ 52, 2 ^ 53)` and
`m` is the scaled quotient rounded to nearest, ties to even. A zero numerator gives `0`. -/
def f64Div (num den : Nat) : Nat × Nat :=
  if num = 0 then (0, 0)
  else
    let s := f64Shift num den 128 0
    (roundNearestEven (num * 2 ^ s) den, s)

/-- The function `round` of `<cmath>` on the non-negative double `m / 2 ^ s`, converted to
`int`: the nearest integer, halves away from zero. -/
def f64Round (x : Nat × Nat) : Int :=
  ((2 * x.1 + 2 ^ x.2) / 2 ^ (x.2 + 1) : Nat)

/-- The value of `static_cast<int>(round((double(pwmCmp) * 100.) / double(pwmMaxcnt)))`. The
conversions to `double` and the product `pwmCmp * 100` are exact (all values are integers
below `2 ^ 24`); the division is the binary64 division `f64Div`. -/
def roundDuty (pwmCmp pwmMaxcnt : Nat) : Int :=
  f64Round (f64Div (pwmCmp * 100) pwmMaxcnt)

/-- The member `Motor::_calcPwmDutyFromRegister()`. -/
def _calcPwmDutyFromRegister (mo : Motor) : Motor :=
  let cacheStatusCtrl := mo._regmap.ctrl.cacheStatus
  let cacheStatusPwmCmp := mo._regmap.pwmCmp.cacheStatus
  if cacheStatusCtrl ≠ CacheState.modified ∧ cacheStatusPwmCmp ≠ CacheState.modified then
    match PwmCmpReg.pwmCmpRead mo._regmap.pwmCmp mo._regmap._fpgaObjPtr false with
    | (Except.error _, r1, f1) => mo.withPwmCmp r1 f1
    | (Except.ok pwmCmp, r1, f1) =>
      let mo := mo.withPwmCmp r1 f1
      match CtrlReg.pwmMaxcntRead mo._regmap.ctrl mo._regmap._fpgaObjPtr false with
      | (Except.error _, r2, f2) => mo.withCtrl r2 f2
      | (Except.ok pwmMaxcnt, r2, f2) =>
        let mo := mo.withCtrl r2 f2
        if pwmCmp > pwmMaxcnt then
          { mo with _pwmDuty := (true, 100) }
        else if pwmMaxcnt > 0 then
          { mo with _pwmDuty := (true, roundDuty pwmCmp pwmMaxcnt) }
        else
          { mo with _pwmDuty := (false, _InvalidPwmDuty) }
  else mo

/-- The clock-frequency types `Hz`, `KHz` and `MHz`, given by their ratio to `Hz`. -/
inductive ClkFqType where
  | Hz
  | KHz
  | MHz
  deriving DecidableEq

/-- The function `clockFreq_cast<Hz>`: a `duration_cast` to the unit ratio, in `int64_t`. -/
def clockFreq_cast (u : ClkFqType) (clkFq : Int) : Int :=
  match u with
  | ClkFqType.Hz => clkFq
  | ClkFqType.KHz => wrap64 (clkFq * 1000)
  | ClkFqType.MHz => wrap64 (clkFq * 1000000)

/-- The constructor `Motor::Motor(ptr, clkFq, baseAddr)`. When it throws, no object exists and
only the bus accessor is left. -/
def new (ptr : Fpgasoc) (u : ClkFqType) (clkFq : Int) (baseAddr : Nat) :
    Except Exn Motor × Fpgasoc :=
  let mo : Motor :=
    { _regmap := RegMap.new ptr baseAddr
      _clkFq := clockFreq_cast u clkFq
      _hwIpVersion := (false, _InvalidHwIpVerStr)
      _deadtime := (false, _InvalidDeadtime)
      _pwmDuty := (false, _InvalidPwmDuty) }
  match mo._regmap.stat.updateCache mo._regmap._fpgaObjPtr with
  | (Except.error e, _, f1) => (Except.error e, f1)
  | (Except.ok _, r1, f1) =>
    let mo := mo.withStat r1 f1
    let mo := mo._fetchHwIpVersion true
    let mo := mo._fetchDeadtime true
    let mo := mo._calcPwmDutyFromRegister
    (Except.ok mo, mo._regmap._fpgaObjPtr)

/-- The rotational-speed types `Rps` and `Rpm`. -/
inductive RotationalSpeedType where
  | Rps
  | Rpm
  deriving DecidableEq

/-- The setter `Motor::rotationalSpeed(speed)`; `rotationalSpeed_cast<Rps>` of an `Rpm` count
divides by 60, truncating toward zero. -/
def rotationalSpeed (mo : Motor) (u : RotationalSpeedType) (speed : Int) :
    Except Exn Unit × Motor :=
  let count : Int :=
    match u with
    | RotationalSpeedType.Rps => speed
    | RotationalSpeedType.Rpm => Int.tdiv speed 60
  let rps : Nat := (count % 2 ^ 32).toNat
  match FreqtgtReg.freqtgt mo._regmap.freqtgt mo._regmap._fpgaObjPtr rps false with
  | (res, r1, f1) => (res, mo.withFreqtgt r1 f1)

/-- The getter `Motor::rotationalSpeed<RotationalSpeedType>()`. -/
def rotationalSpeedGet (mo : Motor) (u : RotationalSpeedType) : Except Exn Int × Motor :=
  match FreqtgtReg.freqtgtRead mo._regmap.freqtgt mo._regmap._fpgaObjPtr false with
  | (Except.error e, r1, f1) => (Except.error e, mo.withFreqtgt r1 f1)
  | (Except.ok rpstmp, r1, f1) =>
    let rps : Int := rpstmp
    let res : Int :=
      match u with
      | RotationalSpeedType.Rps => rps
      | RotationalSpeedType.Rpm => wrap64 (rps * 60)
    (Except.ok res, mo.withFreqtgt r1 f1)

/-- The setter `Motor::pwmDuty(duty)`. -/
def pwmDuty (mo : Motor) (duty : Int) : Except Exn Unit × Motor :=
  let cacheStatus := mo._regmap.ctrl.cacheStatus
  let fetched : Except Exn Nat × Register × Fpgasoc :=
    if cacheStatus = CacheState.initialized then
      CtrlReg.pwmMaxcntRead mo._regmap.ctrl mo._regmap._fpgaObjPtr false
    else if cacheStatus = CacheState.sync then
      CtrlReg.pwmMaxcntRead mo._regmap.ctrl mo._regmap._fpgaObjPtr true
    else
      (Except.error Exn.runtime_error, mo._regmap.ctrl, mo._regmap._fpgaObjPtr)
  match fetched with
  | (Except.error e, r1, f1) => (Except.error e, mo.withCtrl r1 f1)
  | (Except.ok pwmMaxcnt, r1, f1) =>
    let mo := mo.withCtrl r1 f1
    let computed : Except Exn Nat :=
      if duty = 100 then
        Except.ok ((pwmMaxcnt + 1) % 2 ^ 32)
      else if duty ≥ 0 ∧ duty < 100 then
        Except.ok ((pwmMaxcnt * (duty % 2 ^ 32).toNat) % 2 ^ 32 / 100)
      else
        Except.error Exn.out_of_range
    match computed with
    | Except.error e => (Except.error e, mo)
    | Except.ok pwmCmp =>
      match PwmCmpReg.pwmCmp mo._regmap.pwmCmp mo._regmap._fpgaObjPtr pwmCmp false with
      | (Except.error e, r2, f2) => (Except.error e, mo.withPwmCmp r2 f2)
      | (Except.ok _, r2, f2) =>
        let mo := mo.withPwmCmp r2 f2
        (Except.ok (), { mo with _pwmDuty := (true, duty) })

/-- The getter `Motor::pwmDuty()`. -/
def pwmDutyGet (mo : Motor) : Except Exn Int × Motor :=
  let mo := if !mo._pwmDuty.1 then mo._calcPwmDutyFromRegister else mo
  if !mo._pwmDuty.1 then (Except.error Exn.runtime_error, mo)
  else (Except.ok mo._pwmDuty.2, mo)

/-- The setter `Motor::outputEnable(isEnable)`. -/
def outputEnable (mo : Motor) (isEnable : Bool) : Except Exn Unit × Motor :=
  if mo._regmap.ctrl.cacheStatus ≠ CacheState.modified then
    let writeVal := if isEnable then CtrlReg.En.Enable else CtrlReg.En.Disable
    match CtrlReg.en mo._regmap.ctrl mo._regmap._fpgaObjPtr writeVal false with
    | (res, r1, f1) => (res, mo.withCtrl r1 f1)
  else
    (Except.error Exn.runtime_error, mo)

/-- The getter `Motor::outputEnable()`. -/
def outputEnableGet (mo : Motor) : Except Exn Bool × Motor :=
  if mo._regmap.ctrl.cacheStatus ≠ CacheState.modified then
    match CtrlReg.enRead mo._regmap.ctrl mo._regmap._fpgaObjPtr false with
    | (Except.error e, r1, f1) => (Except.error e, mo.withCtrl r1 f1)
    | (Except.ok readVal, r1, f1) =>
      let mo := mo.withCtrl r1 f1
      if readVal = CtrlReg.En.Enable then (Except.ok true, mo)
      else if readVal = CtrlReg.En.Disable then (Except.ok false, mo)
      else (Except.error Exn.runtime_error, mo)
  else
    (Except.ok false, mo)

/-- The period types `nanoseconds`, `microseconds`, `milliseconds` and `seconds`. -/
inductive PeriodType where
  | nanoseconds
  | microseconds
  | milliseconds
  | seconds
  deriving DecidableEq

/-- The number of nanoseconds in one tick of a period type. -/
def PeriodType.nanos : PeriodType → Int
  | PeriodType.nanoseconds => 1
  | PeriodType.microseconds => 1000
  | PeriodType.milliseconds => 1000000
  | PeriodType.seconds => 1000000000

/-- The setter `Motor::pwmPeriod(period, prsc)`. -/
def pwmPeriod (mo : Motor) (u : PeriodType) (period : Int) (prsc : Int) :
    Except Exn Unit × Motor :=
  let periodNs : Int := wrap64 (period * u.nanos)
  let periodMaxCountNs : Int :=
    div64 (shl64 (wrap64 (_MaxPwmMaxcnt * nano_den)) (prsc + 1)) (wrap64 (nano_num * mo._clkFq))
  if prsc > _MaxPrscSel ∨ prsc < _MinPrscSel then
    (Except.error Exn.out_of_range, mo)
  else if periodNs > periodMaxCountNs then
    (Except.error Exn.out_of_range, mo)
  else
    let pwmMaxcnt : Nat :=
      ((sar64 (div64 (wrap64 (wrap64 (periodNs * mo._clkFq) * nano_num)) nano_den) (prsc + 1))
        % 2 ^ 16).toNat
    if mo._regmap.ctrl.cacheStatus ≠ CacheState.modified then
      match CtrlReg.pwmMaxcnt mo._regmap.ctrl mo._regmap._fpgaObjPtr pwmMaxcnt true with
      | (Except.error e, r1, f1) => (Except.error e, mo.withCtrl r1 f1)
      | (Except.ok _, r1, f1) =>
        let mo := mo.withCtrl r1 f1
        match CtrlReg.pwmPrsc mo._regmap.ctrl mo._regmap._fpgaObjPtr (prsc % 2 ^ 8).toNat true with
        | (Except.error e, r2, f2) => (Except.error e, mo.withCtrl r2 f2)
        | (Except.ok _, r2, f2) =>
          let mo := mo.withCtrl r2 f2
          match mo._regmap.ctrl.flushCache mo._regmap._fpgaObjPtr with
          | (Except.error e, r3, f3) => (Except.error e, mo.withCtrl r3 f3)
          | (Except.ok _, r3, f3) =>
            let mo := mo.withCtrl r3 f3
            match mo.pwmDutyGet with
            | (Except.error e, mo) => (Except.error e, mo)
            | (Except.ok duty, mo) => mo.pwmDuty duty
    else
      (Except.error Exn.runtime_error, mo)

/-- The getter `Motor::pwmPeriod<PeriodType>()`; `duration_cast<PeriodType>` of a nanosecond
count divides by the tick length, truncating toward zero. -/
def pwmPeriodGet (mo : Motor) (u : PeriodType) : Except Exn (Int × Int) × Motor :=
  if mo._regmap.ctrl.cacheStatus ≠ CacheState.modified then
    match mo._regmap.ctrl.updateCache mo._regmap._fpgaObjPtr with
    | (Except.error e, r1, f1) => (Except.error e, mo.withCtrl r1 f1)
    | (Except.ok _, r1, f1) =>
      let mo := mo.withCtrl r1 f1
      match CtrlReg.pwmPrscRead mo._regmap.ctrl mo._regmap._fpgaObjPtr true with
      | (Except.error e, r2, f2) => (Except.error e, mo.withCtrl r2 f2)
      | (Except.ok pwmPrsc, r2, f2) =>
        let mo := mo.withCtrl r2 f2
        match CtrlReg.pwmMaxcntRead mo._regmap.ctrl mo._regmap._fpgaObjPtr true with
        | (Except.error e, r3, f3) => (Except.error e, mo.withCtrl r3 f3)
        | (Except.ok pwmMaxcnt, r3, f3) =>
          let mo := mo.withCtrl r3 f3
          let countNs : Int :=
            div64 (shl64 (wrap64 ((pwmMaxcnt : Int) * nano_den)) ((pwmPrsc : Int) + 1))
              (wrap64 (nano_num * mo._clkFq))
          (Except.ok (Int.tdiv countNs u.nanos, (pwmPrsc : Int)), mo)
  else
    (Except.error Exn.runtime_error, mo)

/-- The setter `Motor::phase(phase)`. -/
def phase (mo : Motor) (phase : Int) : Except Exn Unit × Motor :=
  if phase < _MinPhase ∨ phase > _MaxPhase then
    (Except.error Exn.out_of_range, mo)
  else
    match CtrlReg.phase mo._regmap.ctrl mo._regmap._fpgaObjPtr (phase % 2 ^ 8).toNat false with
    | (res, r1, f1) => (res, mo.withCtrl r1 f1)

/-- The getter `Motor::phase()`. -/
def phaseGet (mo : Motor) : Except Exn Int × Motor :=
  match CtrlReg.phaseRead mo._regmap.ctrl mo._regmap._fpgaObjPtr false with
  | (Except.error e, r1, f1) => (Except.error e, mo.withCtrl r1 f1)
  | (Except.ok v, r1, f1) => (Except.ok (v : Int), mo.withCtrl r1 f1)

/-- The member `Motor::hwIpVersion()`. -/
def hwIpVersion (mo : Motor) : Except Exn String × Motor :=
  let fetched : Except Exn Unit × Motor :=
    if !mo._hwIpVersion.1 then
      if mo._regmap.stat.cacheStatus = CacheState.sync then
        (Except.ok (), mo._fetchHwIpVersion true)
      else if mo._regmap.stat.cacheStatus = CacheState.initialized then
        (Except.ok (), mo._fetchHwIpVersion false)
      else
        (Except.error Exn.runtime_error, mo)
    else (Except.ok (), mo)
  match fetched with
  | (Except.error e, mo) => (Except.error e, mo)
  | (Except.ok _, mo) =>
    if !mo._hwIpVersion.1 then (Except.error Exn.runtime_error, mo)
    else (Except.ok mo._hwIpVersion.2, mo)

/-- The member `Motor::deadtime()`. -/
def deadtime (mo : Motor) : Except Exn Int × Motor :=
  let fetched : Except Exn Unit × Motor :=
    if !mo._deadtime.1 then
      if mo._regmap.stat.cacheStatus = CacheState.sync then
        (Except.ok (), mo._fetchDeadtime true)
      else if mo._regmap.stat.cacheStatus = CacheState.initialized then
        (Except.ok (), mo._fetchDeadtime false)
      else
        (Except.error Exn.runtime_error, mo)
    else (Except.ok (), mo)
  match fetched with
  | (Except.error e, mo) => (Except.error e, mo)
  | (Except.ok _, mo) =>
    if !mo._deadtime.1 then (Except.error Exn.runtime_error, mo)
    else (Except.ok mo._deadtime.2, mo)

/-- The member `Motor::isReflectedFreq()`. -/
def isReflectedFreq (mo : Motor) : Except Exn Bool × Motor :=
  if mo._regmap.stat.cacheStatus ≠ CacheState.modified then
    match StatReg.reflectedfreq mo._regmap.stat mo._regmap._fpgaObjPtr false with
    | (Except.error e, r1, f1) => (Except.error e, mo.withStat r1 f1)
    | (Except.ok v, r1, f1) =>
      (Except.ok (decide (v = StatReg.Reflectedfreq.Reflected)), mo.withStat r1 f1)
  else
    (Except.error Exn.runtime_error, mo)

/-- The member `Motor::isStopping()`. -/
def isStopping (mo : Motor) : Except Exn Bool × Motor :=
  if mo._regmap.stat.cacheStatus ≠ CacheState.modified then
    match StatReg.stop mo._regmap.stat mo._regmap._fpgaObjPtr false with
    | (Except.error e, r1, f1) => (Except.error e, mo.withStat r1 f1)
    | (Except.ok v, r1, f1) =>
      (Except.ok (decide (v = StatReg.Stop.Stopping)), mo.withStat r1 f1)
  else
    (Except.error Exn.runtime_error, mo)

end Motor

/-! ## Named parts of `Motor::pwmPeriod` -/

/-- The local `periodMaxCountNs` of the setter `Motor::pwmPeriod(period, prsc)`
(`libbldcm.cpp`, line 146). -/
def Motor.periodMaxCountNs (mo : Motor) (prsc : Int) : Int :=
  div64 (shl64 (wrap64 (Motor._MaxPwmMaxcnt * nano_den)) (prsc + 1))
    (wrap64 (nano_num * mo._clkFq))

/-- The local `pwmMaxcnt` of the setter `Motor::pwmPeriod(period, prsc)`
(`libbldcm.cpp`, line 159), from the period in nanoseconds. -/
def Motor.pwmMaxcntOf (mo : Motor) (periodNs prsc : Int) : Nat :=
  ((sar64 (div64 (wrap64 (wrap64 (periodNs * mo._clkFq) * nano_num)) nano_den) (prsc + 1))
    % 2 ^ 16).toNat

/-- The local `countNs` of the getter `Motor::pwmPeriod()` (`libbldcm.cpp`, line 193). -/
def Motor.countNsOf (mo : Motor) (pwmMaxcnt pwmPrsc : Nat) : Int :=
  div64 (shl64 (wrap64 ((pwmMaxcnt : Int) * nano_den)) ((pwmPrsc : Int) + 1))
    (wrap64 (nano_num * mo._clkFq))

/-! ## Named part of `Motor::pwmDuty` -/

/-- The local `pwmCmp` of the setter `Motor::pwmDuty(duty)` (`libbldcm.cpp`, lines 83-89),
from the max-count fetched and the duty: the comparator, or the out-of-range error. -/
def Motor.pwmCmpOf (pwmMaxcnt : Nat) (duty : Int) : Except Exn Nat :=
  if duty = 100 then
    Except.ok ((pwmMaxcnt + 1) % 2 ^ 32)
  else if duty ≥ 0 ∧ duty < 100 then
    Except.ok ((pwmMaxcnt * (duty % 2 ^ 32).toNat) % 2 ^ 32 / 100)
  else
    Except.error Exn.out_of_range

/-! ## The declared bit fields (`register_map.hpp`, lines 64-232) -/

/-- One `struct Bit` of the header: the constants `Pos`, `Width` and `Mask` of a field. -/
structure Bit where
  Pos : Nat
  Width : Nat
  Mask : Nat
  deriving DecidableEq

/-- The field of `FreqtgtReg`: `Freqtgt`. -/
def FreqtgtReg.fields : List Bit :=
  [⟨FreqtgtReg.Freqtgt.Pos, FreqtgtReg.Freqtgt.Width, FreqtgtReg.Freqtgt.Mask⟩]

/-- The field of `PwmCmpReg`: `PwmCmp`. -/
def PwmCmpReg.fields : List Bit :=
  [⟨PwmCmpReg.PwmCmp.Pos, PwmCmpReg.PwmCmp.Width, PwmCmpReg.PwmCmp.Mask⟩]

/-- The fields of `CtrlReg`: `En`, `Phase`, `WPhase`, `PwmPrsc`, `PwmMaxcnt`. -/
def CtrlReg.fields : List Bit :=
  [⟨CtrlReg.En.Pos, CtrlReg.En.Width, CtrlReg.En.Mask⟩,
   ⟨CtrlReg.Phase.Pos, CtrlReg.Phase.Width, CtrlReg.Phase.Mask⟩,
   ⟨CtrlReg.WPhase.Pos, CtrlReg.WPhase.Width, CtrlReg.WPhase.Mask⟩,
   ⟨CtrlReg.PwmPrsc.Pos, CtrlReg.PwmPrsc.Width, CtrlReg.PwmPrsc.Mask⟩,
   ⟨CtrlReg.PwmMaxcnt.Pos, CtrlReg.PwmMaxcnt.Width, CtrlReg.PwmMaxcnt.Mask⟩]

/-- The fields of `StatReg`: `Stop`, `Reflectedfreq`, `Deadtime`, `RelCnt`. -/
def StatReg.fields : List Bit :=
  [⟨StatReg.Stop.Pos, StatReg.Stop.Width, StatReg.Stop.Mask⟩,
   ⟨StatReg.Reflectedfreq.Pos, StatReg.Reflectedfreq.Width, StatReg.Reflectedfreq.Mask⟩,
   ⟨StatReg.Deadtime.Pos, StatReg.Deadtime.Width, StatReg.Deadtime.Mask⟩,
   ⟨StatReg.RelCnt.Pos, StatReg.RelCnt.Width, StatReg.RelCnt.Mask⟩]

/-- All fields the header declares, register by register. -/
def declaredFields : List Bit :=
  FreqtgtReg.fields ++ PwmCmpReg.fields ++ CtrlReg.fields ++ StatReg.fields

/-! ## Runs of public operations and bus faults -/

/-- The public member functions of `Motor` (`libbldcm.hpp`, lines 50-73), each with its
arguments. -/
inductive Motor.Op where
  | rotationalSpeed (u : Motor.RotationalSpeedType) (speed : Int)
  | rotationalSpeedGet (u : Motor.RotationalSpeedType)
  | pwmDuty (duty : Int)
  | pwmDutyGet
  | outputEnable (isEnable : Bool)
  | outputEnableGet
  | pwmPeriod (u : Motor.PeriodType) (period : Int) (prsc : Int)
  | pwmPeriodGet (u : Motor.PeriodType)
  | phase (phase : Int)
  | phaseGet
  | hwIpVersion
  | deadtime
  | isReflectedFreq
  | isStopping

/-- The state in which a call of a public member function leaves the motor, whether the call
returns or throws. -/
def Motor.exec (mo : Motor) : Motor.Op → Motor
  | Motor.Op.rotationalSpeed u speed => (mo.rotationalSpeed u speed).2
  | Motor.Op.rotationalSpeedGet u => (mo.rotationalSpeedGet u).2
  | Motor.Op.pwmDuty duty => (mo.pwmDuty duty).2
  | Motor.Op.pwmDutyGet => (mo.pwmDutyGet).2
  | Motor.Op.outputEnable isEnable => (mo.outputEnable isEnable).2
  | Motor.Op.outputEnableGet => (mo.outputEnableGet).2
  | Motor.Op.pwmPeriod u period prsc => (mo.pwmPeriod u period prsc).2
  | Motor.Op.pwmPeriodGet u => (mo.pwmPeriodGet u).2
  | Motor.Op.phase phase => (mo.phase phase).2
  | Motor.Op.phaseGet => (mo.phaseGet).2
  | Motor.Op.hwIpVersion => (mo.hwIpVersion).2
  | Motor.Op.deadtime => (mo.deadtime).2
  | Motor.Op.isReflectedFreq => (mo.isReflectedFreq).2
  | Motor.Op.isStopping => (mo.isStopping).2

/-- The state after a sequence of calls of public member functions, made one after the
other. -/
def Motor.execAll (mo : Motor) (ops : List Motor.Op) : Motor :=
  ops.foldl Motor.exec mo

/-- Whether the bus accessor answers the call `op` with a fault when the calls `pre` have been
made before it. -/
def Fpgasoc.fails (f : Fpgasoc) (pre : List BusOp) : BusOp → Bool
  | BusOp.read32 addr => (f.readResp pre addr).isNone
  | BusOp.write32 addr val => !f.writeResp pre addr val

/-- Whether one of the calls `rest`, made in this order after the calls `pre`, is answered
with a fault. -/
def Fpgasoc.faultsIn (f : Fpgasoc) : List BusOp → List BusOp → Bool
  | _, [] => false
  | pre, op :: rest => f.fails pre op || f.faultsIn (pre ++ [op]) rest

/-- Whether one of the calls in the log of the accessor, the first `n` calls apart, was
answered with a fault. -/
def Fpgasoc.faultedSince (f : Fpgasoc) (n : Nat) : Bool :=
  f.faultsIn (f.log.take n) (f.log.drop n)

/-- The accessor `g` is the accessor `f` after further calls. -/
def Fpgasoc.Later (f g : Fpgasoc) : Prop :=
  g.readResp = f.readResp ∧ g.writeResp = f.writeResp ∧ ∃ ext : List BusOp, g.log = f.log ++ ext

/-- The accessor `g` is the accessor `f` after further calls, one of which was answered with a
fault. -/
def Fpgasoc.LaterFaulted (f g : Fpgasoc) : Prop :=
  g.readResp = f.readResp ∧ g.writeResp = f.writeResp ∧
    ∃ ext : List BusOp, g.log = f.log ++ ext ∧ f.faultsIn f.log ext = true

/-- What every operation of the register layer that accesses the bus guarantees about the
register and the accessor it leaves behind: the accessor has only made further calls, the
address is unchanged, the cache state is the old one or `sync`, and an error is the bus error
of a call that was answered with a fault. -/
def Register.Stepped {α : Type} (r : Register) (f : Fpgasoc)
    (res : Except Exn α × Register × Fpgasoc) : Prop :=
  f.Later res.2.2 ∧ res.2.1._addr = r._addr ∧
    (res.2.1._cacheStatus = r._cacheStatus ∨ res.2.1._cacheStatus = CacheState.sync) ∧
    ∀ e : Exn, res.1 = Except.error e → e = Exn.range_error ∧ f.LaterFaulted res.2.2

/-- None of the four registers of the motor is `modified`. -/
def Motor.Unmodified (mo : Motor) : Prop :=
  mo._regmap.freqtgt.cacheStatus ≠ CacheState.modified ∧
    mo._regmap.pwmCmp.cacheStatus ≠ CacheState.modified ∧
    mo._regmap.ctrl.cacheStatus ≠ CacheState.modified ∧
    mo._regmap.stat.cacheStatus ≠ CacheState.modified

/-- The duty cache of the motor, when marked valid, holds a value in 0..100. -/
def Motor.DutyIsPercentage (mo : Motor) : Prop :=
  mo._pwmDuty.1 = true → 0 ≤ mo._pwmDuty.2 ∧ mo._pwmDuty.2 ≤ 100

/-- The state `mo2` comes after the state `mo1` and no register was left `modified`: the
accessor has only made further calls, the addresses of PwmCmp and Ctrl and the clock are
unchanged, a valid duty cache stays a percentage, and registers that were all not `modified`
are still so. -/
def Motor.Keeps (mo1 mo2 : Motor) : Prop :=
  mo1._regmap._fpgaObjPtr.Later mo2._regmap._fpgaObjPtr ∧
    mo2._regmap.pwmCmp._addr = mo1._regmap.pwmCmp._addr ∧
    mo2._regmap.ctrl._addr = mo1._regmap.ctrl._addr ∧
    mo2._clkFq = mo1._clkFq ∧
    (mo1.DutyIsPercentage → mo2.DutyIsPercentage) ∧
    (mo1.Unmodified → mo2.Unmodified)

/-- The state `mo2` comes after the state `mo1`: as `Motor.Keeps`, except that registers that
were all not `modified` are still so unless a bus call was answered with a fault. -/
def Motor.Follows (mo1 mo2 : Motor) : Prop :=
  mo1._regmap._fpgaObjPtr.Later mo2._regmap._fpgaObjPtr ∧
    mo2._regmap.pwmCmp._addr = mo1._regmap.pwmCmp._addr ∧
    mo2._regmap.ctrl._addr = mo1._regmap.ctrl._addr ∧
    mo2._clkFq = mo1._clkFq ∧
    (mo1.DutyIsPercentage → mo2.DutyIsPercentage) ∧
    (mo1.Unmodified →
      mo2.Unmodified ∨ mo1._regmap._fpgaObjPtr.LaterFaulted mo2._regmap._fpgaObjPtr)

/-! ## Concrete buses and motors used as test inputs -/

/-- A memory bus at base address 0 whose Ctrl word is the reset value `0x0FFFF000` and whose
other words are 0. -/
def resetBus : Fpgasoc := memBus (fun a => if a = 8 then 0x0FFFF000 else 0) []

/-- The motor that `Motor(ptr, Hz(50000000), 0)` builds on `resetBus`
(see `demoMotor_constructed`): the three registers read are `sync`, max-count is `0xFFFF`,
the comparator is 0 and the derived duty is 0. -/
def demoMotor : Motor :=
  { _regmap :=
      { _fpgaObjPtr := { resetBus with log := [BusOp.read32 12, BusOp.read32 4, BusOp.read32 8] }
        freqtgt := FreqtgtReg.new 0
        pwmCmp := { PwmCmpReg.new 0 with _cacheStatus := CacheState.sync }
        ctrl := { CtrlReg.new 0 with _cacheStatus := CacheState.sync }
        stat := { StatReg.new 0 with _cacheStatus := CacheState.sync } }
    _clkFq := 50000000
    _hwIpVersion := (true, "UNDR 2.10")
    _deadtime := (true, 0)
    _pwmDuty := (true, 0) }

/-- A bus at base address 0 on which every read succeeds (Ctrl reads `0x0FFFF000`, the other
registers 0) and every write fails. -/
def writeFaultBus : Fpgasoc :=
  { readResp := fun _ a => some (if a = 8 then 0x0FFFF000 else 0)
    writeResp := fun _ _ _ => false
    log := [] }

/-- A bus at base address 0 on which only the Stat register (address 12) can be read; every
other call fails. -/
def statOnlyBus : Fpgasoc :=
  { readResp := fun _ a => if a = 12 then some 0 else none
    writeResp := fun _ _ _ => false
    log := [] }

/-- The state of `demoMotor` after a cache-only write put `0x00019000` into the Ctrl cache:
Ctrl is `modified`. -/
def staleMotor : Motor :=
  demoMotor.withCtrl (demoMotor._regmap.ctrl.regCacheOnly 0x00019000)
    demoMotor._regmap._fpgaObjPtr

/-- A memory bus at base address 0 whose Stat word `0x02000000` has the release counter 2,
a value outside the version table. -/
def relcnt2Bus : Fpgasoc := memBus (fun a => if a = 12 then 0x02000000 else 0) []

/-- A bus on which every call fails. -/
def deadBus : Fpgasoc :=
  { readResp := fun _ _ => none
    writeResp := fun _ _ _ => false
    log := [] }

/-- The motor `demoMotor` after `pwmDuty(50)`: Ctrl is `sync` with cache `0x0FFFF000` and the
cached duty is 50. -/
def halfDutyMotor : Motor := (demoMotor.pwmDuty 50).2

/-- A memory bus at base address 0 with the Ctrl reset word and the comparator `0x4000` in
PwmCmp. -/
def quarterBus : Fpgasoc :=
  memBus (fun a => if a = 8 then 0x0FFFF000 else if a = 4 then 0x4000 else 0) []

/-- A motor like `demoMotor` on `quarterBus` that has no cached duty. -/
def coldMotor : Motor :=
  { demoMotor with
    _regmap := { demoMotor._regmap with _fpgaObjPtr := quarterBus }
    _pwmDuty := (false, Motor._InvalidPwmDuty) }

/-- A motor like `demoMotor` that has no cached duty, on a memory bus whose words are all 0. -/
def zeroMotor : Motor :=
  { demoMotor with
    _regmap := { demoMotor._regmap with _fpgaObjPtr := memBus (fun _ => 0) [] }
    _pwmDuty := (false, Motor._InvalidPwmDuty) }

/-! ## Bit-level lemmas for the codec -/

theorem testBit_not32 (x i : Nat) :
    (not32 x).testBit i = (decide (i < 32) && !x.testBit i) := by
  unfold not32
  have h : x % 2 ^ 32 < 2 ^ 32 := Nat.mod_lt _ (by norm_num)
  have e : 2 ^ 32 - 1 - x % 2 ^ 32 = 2 ^ 32 - (x % 2 ^ 32 + 1) := by omega
  rw [e, Nat.testBit_two_pow_sub_succ h, Nat.testBit_mod_two_pow]
  by_cases hi : i < 32 <;> simp [hi]

theorem testBit_shl32 (x k i : Nat) :
    (shl32 x k).testBit i = (decide (i < 32) && decide (k ≤ i) && x.testBit (i - k)) := by
  unfold shl32
  rw [Nat.testBit_mod_two_pow, Nat.testBit_shiftLeft]
  simp [Bool.and_assoc]

theorem testBit_insertValue (w v pos mask i : Nat) :
    (insertValue w v pos mask).testBit i =
      ((w.testBit i && (decide (i < 32) && !mask.testBit i)) ||
        ((decide (i < 32) && decide (pos ≤ i) && v.testBit (i - pos)) && mask.testBit i)) := by
  unfold insertValue
  rw [Nat.testBit_or, Nat.testBit_and, Nat.testBit_and, testBit_not32, testBit_shl32]

theorem testBit_pickupValue (w pos mask i : Nat) :
    (pickupValue w pos mask).testBit i = (w.testBit (pos + i) && mask.testBit (pos + i)) := by
  unfold pickupValue
  rw [Nat.testBit_shiftRight, Nat.testBit_and]

theorem testBit_fieldMask (pos width i : Nat) (h : pos + width ≤ 32) :
    (((2 ^ width - 1) <<< pos) % 2 ^ 32).testBit i =
      (decide (pos ≤ i) && decide (i < pos + width)) := by
  rw [Nat.testBit_mod_two_pow, Nat.testBit_shiftLeft, Nat.testBit_two_pow_sub_one]
  by_cases h1 : pos ≤ i <;> by_cases h2 : i < pos + width <;> simp [h1, h2] <;> omega

theorem insertValue_lt (w v pos mask : Nat) : insertValue w v pos mask < 2 ^ 32 := by
  unfold insertValue
  apply Nat.or_lt_two_pow
  · exact Nat.and_lt_two_pow _ (by unfold not32; omega)
  · exact lt_of_le_of_lt Nat.and_le_left (by unfold shl32; exact Nat.mod_lt _ (by norm_num))

theorem testBit_eq_false_of_lt_two_pow {x n i : Nat} (hx : x < 2 ^ n) (hi : n ≤ i) :
    x.testBit i = false :=
  Nat.testBit_lt_two_pow (lt_of_lt_of_le hx (Nat.pow_le_pow_right (by norm_num) hi))

/-! ## C1: bit-field round trip -/

/-- C1 (counterexample): with position 30 and width 4 the mask computed as a 32-bit value is
`0xC0000000`; the value 15 fits the width, but inserting it into the word 0 and picking it up
again yields 3, not 15. -/
theorem pickupValue_insertValue_overhang :
    ((2 ^ 4 - 1) <<< 30) % 2 ^ 32 = 0xC0000000 ∧ 15 < 2 ^ 4 ∧
      pickupValue (insertValue 0 15 30 0xC0000000) 30 0xC0000000 = 3 ∧
      pickupValue (insertValue 0 15 30 0xC0000000) 30 0xC0000000 ≠ 15 := by
  decide

/-- C1 (amended): for every word, every position and width with `pos + width ≤ 32`, the mask
`((1 << width) - 1) << pos` and every value below `2 ^ width`, picking up the field after
inserting the value returns the value. -/
theorem pickupValue_insertValue (word value pos width mask : Nat) (hpw : pos + width ≤ 32)
    (hm : mask = ((2 ^ width - 1) <<< pos) % 2 ^ 32) (hv : value < 2 ^ width) :
    pickupValue (insertValue word value pos mask) pos mask = value := by
  apply Nat.eq_of_testBit_eq
  intro i
  rw [testBit_pickupValue, testBit_insertValue, hm, testBit_fieldMask _ _ _ hpw]
  by_cases hi : i < width
  · have : pos + i < 32 := by omega
    simp [hi, this]
  · have hv' : value.testBit i = false := testBit_eq_false_of_lt_two_pow hv (by omega)
    simp [hi, hv']

/-- C1 (witness): the PHASE field of Ctrl, position 2 and width 3, holding the value 5 in the
Ctrl reset word. -/
theorem pickupValue_insertValue_witness :
    pickupValue (insertValue 0x0FFFF000 5 2 0x1C) 2 0x1C = 5 :=
  pickupValue_insertValue 0x0FFFF000 5 2 3 0x1C (by decide) (by decide) (by decide)

/-! ## Basic facts about the register operations -/

theorem Register.reg_cacheOnly (r : Register) (f : Fpgasoc) (val : Nat) :
    r.reg f val true = (Except.ok (), r.regCacheOnly val, f) := rfl

theorem Register.regRead_cache (r : Register) (f : Fpgasoc) :
    r.regRead f true = (Except.ok r._regCache, r, f) := rfl

theorem Fpgasoc.write32_log (f : Fpgasoc) (addr val : Nat) :
    (f.write32 addr val).2.log = f.log ++ [BusOp.write32 addr val] := by
  unfold Fpgasoc.write32
  split <;> rfl

theorem Fpgasoc.read32_log (f : Fpgasoc) (addr : Nat) :
    (f.read32 addr).2.log = f.log ++ [BusOp.read32 addr] := by
  unfold Fpgasoc.read32
  split <;> rfl

theorem Fpgasoc.write32_error (f : Fpgasoc) (addr val : Nat) (e : Exn)
    (h : (f.write32 addr val).1 = Except.error e) : e = Exn.range_error := by
  unfold Fpgasoc.write32 at h
  split at h <;> simp at h
  exact h.symm

theorem Register.flushCache_ok (r : Register) (f : Fpgasoc)
    (h : (f.write32 r._addr r._regCache).1 = Except.ok ()) :
    r.flushCache f =
      (Except.ok (), ({ r with _cacheStatus := CacheState.sync })._flushCacheCallBack,
        (f.write32 r._addr r._regCache).2) := by
  unfold Register.flushCache
  rcases hw : f.write32 r._addr r._regCache with ⟨res, f1⟩
  rw [hw] at h
  simp only at h
  subst h
  rfl

theorem Register.flushCache_error (r : Register) (f : Fpgasoc) (e : Exn)
    (h : (f.write32 r._addr r._regCache).1 = Except.error e) :
    r.flushCache f = (Except.error e, r, (f.write32 r._addr r._regCache).2) := by
  unfold Register.flushCache
  rcases hw : f.write32 r._addr r._regCache with ⟨res, f1⟩
  rw [hw] at h
  simp only at h
  subst h
  rfl

theorem Register.flushCache_cases (r : Register) (f : Fpgasoc) :
    (f.write32 r._addr r._regCache).1 = Except.ok () ∨
      (f.write32 r._addr r._regCache).1 = Except.error Exn.range_error := by
  unfold Fpgasoc.write32
  split <;> simp

theorem Register.flushCallBack_status (r : Register) :
    ({ r with _cacheStatus := CacheState.sync } : Register)._flushCacheCallBack._cacheStatus =
      CacheState.sync := by
  unfold Register._flushCacheCallBack
  split <;> rfl

/-! ## C2: cache state transitions -/

/-- C2: for each of the four typed registers the cache state is `initialized` right after
construction; for a register of any of the four kinds (the Ctrl post-flush hook included) it
is `sync` after a successful `updateCache()`, `sync` after a successful `flushCache()`, and
`modified` after a cache-only write `reg(value, true)`, which always succeeds and touches no
bus, whatever the state was before. -/
theorem cacheStatus_transitions :
    (∀ baseAddr : Nat,
      (FreqtgtReg.new baseAddr).cacheStatus = CacheState.initialized ∧
      (PwmCmpReg.new baseAddr).cacheStatus = CacheState.initialized ∧
      (CtrlReg.new baseAddr).cacheStatus = CacheState.initialized ∧
      (StatReg.new baseAddr).cacheStatus = CacheState.initialized) ∧
    (∀ (r : Register) (f : Fpgasoc), (r.updateCache f).1 = Except.ok () →
      (r.updateCache f).2.1.cacheStatus = CacheState.sync) ∧
    (∀ (r : Register) (f : Fpgasoc), (r.flushCache f).1 = Except.ok () →
      (r.flushCache f).2.1.cacheStatus = CacheState.sync) ∧
    (∀ (r : Register) (f : Fpgasoc) (value : Nat),
      (r.reg f value true).1 = Except.ok () ∧
      (r.reg f value true).2.1.cacheStatus = CacheState.modified ∧
      (r.reg f value true).2.2 = f) := by
  refine ⟨fun _ => ⟨rfl, rfl, rfl, rfl⟩, ?_, ?_, fun _ _ _ => ⟨rfl, rfl, rfl⟩⟩
  · intro r f h
    unfold Register.updateCache at h ⊢
    split at h
    · simp at h
    · rename_i heq
      simp only [heq]
      rfl
  · intro r f h
    rcases Register.flushCache_cases r f with hw | hw
    · rw [Register.flushCache_ok r f hw]
      exact Register.flushCallBack_status r
    · rw [Register.flushCache_error r f _ hw] at h
      simp at h

/-- C2 (witness): a Ctrl register at base 0 that was written cache-only ends in the state
`sync` both when it is then flushed to a memory bus and when it is refreshed from it. -/
theorem cacheStatus_transitions_witness :
    ((((CtrlReg.new 0).reg (memBus (fun _ => 0) []) 0x20 true).2.1).flushCache
        (memBus (fun _ => 0) [])).2.1.cacheStatus = CacheState.sync ∧
      ((((CtrlReg.new 0).reg (memBus (fun _ => 0) []) 0x20 true).2.1).updateCache
        (memBus (fun _ => 0) [])).2.1.cacheStatus = CacheState.sync :=
  ⟨cacheStatus_transitions.2.2.1 _ _ (by decide), cacheStatus_transitions.2.1 _ _ (by decide)⟩

/-! ## C3: a failed whole-register write changes nothing -/

/-- C3: for every register (cache value `c`, cache state `s`) and every value `v`, when the bus
write of `reg(v, false)` fails with `e`, the call fails with the same `e` and the register is
left with cache value `c` and cache state `s`. -/
theorem reg_write_all_or_nothing (r : Register) (f : Fpgasoc) (v : Nat) (e : Exn)
    (hfail : (f.write32 r._addr v).1 = Except.error e) :
    (r.reg f v false).1 = Except.error e ∧
      (r.reg f v false).2.1._regCache = r._regCache ∧
      (r.reg f v false).2.1.cacheStatus = r.cacheStatus := by
  have he : e = Exn.range_error := Fpgasoc.write32_error f _ _ e hfail
  subst he
  have h1 := Register.flushCache_error { r with _regCache := v } f Exn.range_error hfail
  simp only [Register.reg, h1]
  exact ⟨rfl, rfl, rfl⟩

/-- C3 (witness): a Ctrl register in state `modified` with cache `0x20`, on a bus that rejects
every write, keeps cache and state when the write of `0x0FFFF001` fails. -/
theorem reg_write_all_or_nothing_witness :
    ((Register.mk RegKind.ctrl 8 0x20 CacheState.modified).reg
        ⟨fun _ _ => some 0, fun _ _ _ => false, []⟩ 0x0FFFF001 false).1
        = Except.error Exn.range_error ∧
      ((Register.mk RegKind.ctrl 8 0x20 CacheState.modified).reg
        ⟨fun _ _ => some 0, fun _ _ _ => false, []⟩ 0x0FFFF001 false).2.1._regCache = 0x20 ∧
      ((Register.mk RegKind.ctrl 8 0x20 CacheState.modified).reg
        ⟨fun _ _ => some 0, fun _ _ _ => false, []⟩ 0x0FFFF001 false).2.1.cacheStatus
        = CacheState.modified :=
  reg_write_all_or_nothing (Register.mk RegKind.ctrl 8 0x20 CacheState.modified)
    ⟨fun _ _ => some 0, fun _ _ _ => false, []⟩ 0x0FFFF001 Exn.range_error (by decide)

/-! ## C4: a failed flush inside `Motor::pwmPeriod` -/

/-- C4 (code at the failing input): the motor constructed with a 50 MHz clock on
`writeFaultBus` has Ctrl `sync` with cache `0x0FFFF000`; `pwmPeriod(1000 ns, 0)` is in range,
writes max-count 25 and prescaler 0 to the Ctrl cache, and the bus write of the flush fails.
The call propagates the bus error and leaves the Ctrl cache `0x00019000`, the word that never
reached the hardware, in state `modified`: neither the prior cache value nor the prior state
is restored. -/
theorem pwmPeriod_failed_flush_not_restored :
    ∃ mo : Motor, (Motor.new writeFaultBus Motor.ClkFqType.Hz 50000000 0).1 = Except.ok mo ∧
      mo._regmap.ctrl.cacheStatus = CacheState.sync ∧
      mo._regmap.ctrl._regCache = 0x0FFFF000 ∧
      (mo.pwmPeriod Motor.PeriodType.nanoseconds 1000 0).1 = Except.error Exn.range_error ∧
      (mo.pwmPeriod Motor.PeriodType.nanoseconds 1000 0).2._regmap.ctrl._regCache
        = 0x00019000 ∧
      (mo.pwmPeriod Motor.PeriodType.nanoseconds 1000 0).2._regmap.ctrl.cacheStatus
        = CacheState.modified ∧
      (mo.pwmPeriod Motor.PeriodType.nanoseconds 1000 0).2._regmap._fpgaObjPtr.log
        = mo._regmap._fpgaObjPtr.log ++ [BusOp.write32 8 0x00019000] := by
  refine ⟨_, rfl, ?_⟩
  decide

/-! ## Bits of the declared masks -/

theorem testBit_WPhase_Mask (i : Nat) : CtrlReg.WPhase.Mask.testBit i = decide (i = 5) := by
  have h : CtrlReg.WPhase.Mask = ((2 ^ 1 - 1) <<< 5) % 2 ^ 32 := by decide
  rw [h, testBit_fieldMask 5 1 i (by decide)]
  by_cases h5 : i = 5
  · simp [h5]
  · have : ¬ (5 ≤ i ∧ i < 6) := by omega
    simpa [h5] using fun h1 => by omega

theorem testBit_Phase_Mask (i : Nat) :
    CtrlReg.Phase.Mask.testBit i = (decide (2 ≤ i) && decide (i < 5)) := by
  have h : CtrlReg.Phase.Mask = ((2 ^ 3 - 1) <<< 2) % 2 ^ 32 := by decide
  rw [h, testBit_fieldMask 2 3 i (by decide)]

theorem testBit_PwmCmp_Mask (i : Nat) : PwmCmpReg.PwmCmp.Mask.testBit i = decide (i < 17) := by
  have h : PwmCmpReg.PwmCmp.Mask = ((2 ^ 17 - 1) <<< 0) % 2 ^ 32 := by decide
  rw [h, testBit_fieldMask 0 17 i (by decide)]
  simp

theorem testBit_PwmMaxcnt_Mask (i : Nat) :
    CtrlReg.PwmMaxcnt.Mask.testBit i = (decide (12 ≤ i) && decide (i < 28)) := by
  have h : CtrlReg.PwmMaxcnt.Mask = ((2 ^ 16 - 1) <<< 12) % 2 ^ 32 := by decide
  rw [h, testBit_fieldMask 12 16 i (by decide)]

theorem testBit_PwmPrsc_Mask (i : Nat) :
    CtrlReg.PwmPrsc.Mask.testBit i = (decide (6 ≤ i) && decide (i < 12)) := by
  have h : CtrlReg.PwmPrsc.Mask = ((2 ^ 6 - 1) <<< 6) % 2 ^ 32 := by decide
  rw [h, testBit_fieldMask 6 6 i (by decide)]

/-! ## C5: the Ctrl post-flush hook -/

/-- C5: a Ctrl register sits at `base + 8`, and for every cache word `w` and every prior cache
state a successful `flushCache()` on a Ctrl register makes exactly one bus call, the write of
`w` to the register's address; afterwards the cache is `w` with bit 5 (W_PHASE) cleared and
every other bit unchanged, and the state is `sync`, whether or not bit 5 was set in `w`. -/
theorem ctrl_flushCache_hook (r : Register) (f : Fpgasoc) (hk : r.kind = RegKind.ctrl)
    (hw : r._regCache < 2 ^ 32) (hok : (r.flushCache f).1 = Except.ok ()) :
    (∀ baseAddr : Nat, (CtrlReg.new baseAddr).kind = RegKind.ctrl ∧
      (CtrlReg.new baseAddr)._addr = (baseAddr + 8) % 2 ^ 32) ∧
    (r.flushCache f).2.2.log = f.log ++ [BusOp.write32 r._addr r._regCache] ∧
    (∀ i : Nat, (r.flushCache f).2.1._regCache.testBit i =
      (r._regCache.testBit i && decide (i ≠ 5))) ∧
    (r.flushCache f).2.1.cacheStatus = CacheState.sync := by
  rcases Register.flushCache_cases r f with hwr | hwr
  · rw [Register.flushCache_ok r f hwr]
    refine ⟨fun _ => ⟨rfl, rfl⟩, Fpgasoc.write32_log _ _ _, ?_, Register.flushCallBack_status r⟩
    intro i
    simp only [Register._flushCacheCallBack, hk, CtrlReg._flushCacheCallBack,
      Register.regCacheOnly, Register._forceSetCacheStatus, testBit_insertValue,
      testBit_WPhase_Mask, CtrlReg.WPhase.NotWrite, Nat.zero_testBit]
    by_cases h5 : i = 5
    · simp [h5]
    · by_cases h32 : i < 32
      · simp [h5, h32]
      · have : r._regCache.testBit i = false := testBit_eq_false_of_lt_two_pow hw (by omega)
        simp [this, h5]
  · rw [Register.flushCache_error r f _ hwr] at hok
    simp at hok

/-- C5 (witness): flushing a Ctrl register whose cache `0x0FFFF03D` has W_PHASE set sends that
word, strobe included, to the bus and ends in state `sync`. -/
theorem ctrl_flushCache_hook_witness :
    ((Register.mk RegKind.ctrl 8 0x0FFFF03D CacheState.modified).flushCache
        (memBus (fun _ => 0) [])).2.2.log = [BusOp.write32 8 0x0FFFF03D] ∧
      ((Register.mk RegKind.ctrl 8 0x0FFFF03D CacheState.modified).flushCache
        (memBus (fun _ => 0) [])).2.1.cacheStatus = CacheState.sync :=
  ⟨(ctrl_flushCache_hook (Register.mk RegKind.ctrl 8 0x0FFFF03D CacheState.modified)
      (memBus (fun _ => 0) []) rfl (by decide) (by decide)).2.1,
   (ctrl_flushCache_hook (Register.mk RegKind.ctrl 8 0x0FFFF03D CacheState.modified)
      (memBus (fun _ => 0) []) rfl (by decide) (by decide)).2.2.2⟩


/-- The word that `CtrlReg::phase` builds from a 32-bit word `h` and a phase `v ≤ 7`: PHASE is
`v`, W_PHASE is 1, every other bit is the bit of `h`. -/
theorem phase_word (h v : Nat) (hh : h < 2 ^ 32) (hv : v ≤ 7) :
    pickupValue (insertValue (insertValue h (v % 2 ^ 8) CtrlReg.Phase.Pos CtrlReg.Phase.Mask)
        CtrlReg.WPhase.Write CtrlReg.WPhase.Pos CtrlReg.WPhase.Mask)
        CtrlReg.Phase.Pos CtrlReg.Phase.Mask = v ∧
      pickupValue (insertValue (insertValue h (v % 2 ^ 8) CtrlReg.Phase.Pos CtrlReg.Phase.Mask)
        CtrlReg.WPhase.Write CtrlReg.WPhase.Pos CtrlReg.WPhase.Mask)
        CtrlReg.WPhase.Pos CtrlReg.WPhase.Mask = 1 ∧
      ∀ i : Nat, (i < 2 ∨ 5 < i) →
        (insertValue (insertValue h (v % 2 ^ 8) CtrlReg.Phase.Pos CtrlReg.Phase.Mask)
          CtrlReg.WPhase.Write CtrlReg.WPhase.Pos CtrlReg.WPhase.Mask).testBit i
          = h.testBit i := by
  have hv8 : v % 2 ^ 8 = v := Nat.mod_eq_of_lt (by omega)
  rw [hv8]
  refine ⟨?_, ?_, ?_⟩
  · apply Nat.eq_of_testBit_eq
    intro i
    simp only [testBit_pickupValue, testBit_insertValue, testBit_WPhase_Mask, testBit_Phase_Mask,
      CtrlReg.Phase.Pos, CtrlReg.WPhase.Pos, CtrlReg.WPhase.Write]
    by_cases hi : i < 3
    · have h1 : 2 + i < 32 := by omega
      have h2 : ¬ (2 + i = 5) := by omega
      have h4 : 2 + i < 5 := by omega
      simp [h1, h2, h4]
    · have h4 : ¬ (2 + i < 5) := by omega
      have hf : v.testBit i = false := testBit_eq_false_of_lt_two_pow (n := 3) (by omega) (by omega)
      simp [h4, hf]
  · apply Nat.eq_of_testBit_eq
    intro i
    simp only [testBit_pickupValue, testBit_insertValue, testBit_WPhase_Mask, testBit_Phase_Mask,
      CtrlReg.Phase.Pos, CtrlReg.WPhase.Pos, CtrlReg.WPhase.Write]
    by_cases hi : i = 0
    · subst hi
      simp
    · have h2 : ¬ (5 + i = 5) := by omega
      have hf : (1 : Nat).testBit i = false :=
        testBit_eq_false_of_lt_two_pow (n := 1) (by norm_num) (by omega)
      simp [h2, hf]
  · intro i hi
    simp only [testBit_insertValue, testBit_WPhase_Mask, testBit_Phase_Mask,
      CtrlReg.Phase.Pos, CtrlReg.WPhase.Pos, CtrlReg.WPhase.Write]
    have h5 : ¬ (i = 5) := by omega
    by_cases h32 : i < 32
    · rcases hi with hi | hi
      · have h2 : ¬ (2 ≤ i) := by omega
        simp [h5, h32, h2]
      · have h2 : ¬ (i < 5) := by omega
        simp [h5, h32, h2]
    · have hf : h.testBit i = false := testBit_eq_false_of_lt_two_pow hh (by omega)
      simp [h5, h32, hf]


theorem Fpgasoc.read32_ok_lt (f : Fpgasoc) (addr h : Nat)
    (hr : (f.read32 addr).1 = Except.ok h) : h < 2 ^ 32 := by
  unfold Fpgasoc.read32 at hr
  split at hr
  · simp only [Except.ok.injEq] at hr
    rw [← hr]
    exact Nat.mod_lt _ (by norm_num)
  · simp at hr

theorem Fpgasoc.read32_cases (f : Fpgasoc) (addr : Nat) :
    (∃ h, (f.read32 addr).1 = Except.ok h) ∨
      (f.read32 addr).1 = Except.error Exn.range_error := by
  unfold Fpgasoc.read32
  split
  · exact Or.inl ⟨_, rfl⟩
  · exact Or.inr rfl

theorem Register.updateCache_ok (r : Register) (f : Fpgasoc) (h : Nat)
    (hr : (f.read32 r._addr).1 = Except.ok h) :
    r.updateCache f =
      (Except.ok (), { r with _regCache := h, _cacheStatus := CacheState.sync },
        (f.read32 r._addr).2) := by
  unfold Register.updateCache
  rcases hw : f.read32 r._addr with ⟨res, f1⟩
  rw [hw] at hr
  simp only at hr
  subst hr
  rfl

theorem Register.updateCache_error (r : Register) (f : Fpgasoc) (e : Exn)
    (hr : (f.read32 r._addr).1 = Except.error e) :
    r.updateCache f = (Except.error e, r, (f.read32 r._addr).2) := by
  unfold Register.updateCache
  rcases hw : f.read32 r._addr with ⟨res, f1⟩
  rw [hw] at hr
  simp only at hr
  subst hr
  rfl

theorem Register.regRead_bus_ok (r : Register) (f : Fpgasoc) (h : Nat)
    (hr : (f.read32 r._addr).1 = Except.ok h) :
    r.regRead f false =
      (Except.ok h, { r with _regCache := h, _cacheStatus := CacheState.sync },
        (f.read32 r._addr).2) := by
  simp [Register.regRead, Register.updateCache_ok r f h hr]

theorem Register.regRead_bus_error (r : Register) (f : Fpgasoc) (e : Exn)
    (hr : (f.read32 r._addr).1 = Except.error e) :
    r.regRead f false = (Except.error e, r, (f.read32 r._addr).2) := by
  simp [Register.regRead, Register.updateCache_error r f e hr]

theorem Register.reg_bus_log (r : Register) (f : Fpgasoc) (v : Nat) :
    (r.reg f v false).2.2.log = f.log ++ [BusOp.write32 r._addr v] := by
  rcases Register.flushCache_cases { r with _regCache := v } f with hw | hw
  · have h1 := Register.flushCache_ok { r with _regCache := v } f hw
    simp only [Register.reg, h1]
    exact Fpgasoc.write32_log _ _ _
  · have h1 := Register.flushCache_error { r with _regCache := v } f _ hw
    simp only [Register.reg, h1]
    exact Fpgasoc.write32_log _ _ _

/-! ## C6: writing PHASE strobes W_PHASE in the same write -/

/-- C6: for every phase value `v` in 0..7, (a) whenever the bus read of `phase(v, false)`
returns the word `h`, the call makes exactly two bus calls, that read and one write to the
register's address, and the word written has PHASE (bits 2..4) equal to `v`, W_PHASE (bit 5)
equal to 1 and every other bit equal to the bit of `h`; (b) the cache-only `phase(v, true)`
succeeds without a bus call and leaves a cache with PHASE equal to `v`, W_PHASE equal to 1 and
every other bit unchanged. -/
theorem ctrl_phase_strobes (r : Register) (f : Fpgasoc) (v : Nat) (hv : v ≤ 7) :
    (∀ h : Nat, (f.read32 r._addr).1 = Except.ok h →
      ∃ word : Nat,
        (CtrlReg.phase r f v false).2.2.log =
          f.log ++ [BusOp.read32 r._addr, BusOp.write32 r._addr word] ∧
        pickupValue word CtrlReg.Phase.Pos CtrlReg.Phase.Mask = v ∧
        pickupValue word CtrlReg.WPhase.Pos CtrlReg.WPhase.Mask = 1 ∧
        ∀ i : Nat, (i < 2 ∨ 5 < i) → word.testBit i = h.testBit i) ∧
    (r._regCache < 2 ^ 32 →
      (CtrlReg.phase r f v true).1 = Except.ok () ∧
      (CtrlReg.phase r f v true).2.2 = f ∧
      pickupValue (CtrlReg.phase r f v true).2.1._regCache
        CtrlReg.Phase.Pos CtrlReg.Phase.Mask = v ∧
      pickupValue (CtrlReg.phase r f v true).2.1._regCache
        CtrlReg.WPhase.Pos CtrlReg.WPhase.Mask = 1 ∧
      ∀ i : Nat, (i < 2 ∨ 5 < i) →
        (CtrlReg.phase r f v true).2.1._regCache.testBit i = r._regCache.testBit i) := by
  constructor
  · intro h hr
    have hh := Fpgasoc.read32_ok_lt f _ h hr
    refine ⟨_, ?_, phase_word h v hh hv⟩
    simp only [CtrlReg.phase, Register.regRead_bus_ok r f h hr, Register.reg_bus_log,
      Fpgasoc.read32_log, List.append_assoc, List.singleton_append]
  · intro hc
    simp only [CtrlReg.phase, Register.regRead_cache, Register.reg_cacheOnly,
      Register.regCacheOnly]
    exact ⟨trivial, trivial, phase_word r._regCache v hc hv⟩

/-- C6 (witness): on a memory bus holding the Ctrl reset word, `phase(3, false)` reads the
word and writes one word back; and `phase(3, true)` on the fresh Ctrl register succeeds with
PHASE 3 in the cache. -/
theorem ctrl_phase_strobes_witness :
    (∃ word : Nat,
      (CtrlReg.phase (CtrlReg.new 0) resetBus 3 false).2.2.log =
        resetBus.log ++ [BusOp.read32 (CtrlReg.new 0)._addr,
          BusOp.write32 (CtrlReg.new 0)._addr word] ∧
      pickupValue word CtrlReg.Phase.Pos CtrlReg.Phase.Mask = 3 ∧
      pickupValue word CtrlReg.WPhase.Pos CtrlReg.WPhase.Mask = 1 ∧
      ∀ i : Nat, (i < 2 ∨ 5 < i) → word.testBit i = (0x0FFFF000 : Nat).testBit i) ∧
    ((CtrlReg.phase (CtrlReg.new 0) resetBus 3 true).1 = Except.ok () ∧
      pickupValue (CtrlReg.phase (CtrlReg.new 0) resetBus 3 true).2.1._regCache
        CtrlReg.Phase.Pos CtrlReg.Phase.Mask = 3) :=
  ⟨(ctrl_phase_strobes (CtrlReg.new 0) resetBus 3 (by decide)).1 0x0FFFF000 (by decide),
   ((ctrl_phase_strobes (CtrlReg.new 0) resetBus 3 (by decide)).2 (by decide)).1,
   ((ctrl_phase_strobes (CtrlReg.new 0) resetBus 3 (by decide)).2 (by decide)).2.2.1⟩

/-! ## Facts used for the duty setter -/

theorem pickupValue_le (w pos mask : Nat) : pickupValue w pos mask ≤ mask >>> pos := by
  unfold pickupValue
  rw [Nat.shiftRight_eq_div_pow, Nat.shiftRight_eq_div_pow]
  exact Nat.div_le_div_right Nat.and_le_right

theorem pickupValue_PwmMaxcnt_le (w : Nat) :
    pickupValue w CtrlReg.PwmMaxcnt.Pos CtrlReg.PwmMaxcnt.Mask ≤ 0xFFFF :=
  le_trans (pickupValue_le _ _ _) (by decide)

theorem CtrlReg.pwmMaxcntRead_cache (r : Register) (f : Fpgasoc) :
    CtrlReg.pwmMaxcntRead r f true =
      (Except.ok (pickupValue r._regCache CtrlReg.PwmMaxcnt.Pos CtrlReg.PwmMaxcnt.Mask),
        r, f) := by
  have h := pickupValue_PwmMaxcnt_le r._regCache
  simp only [CtrlReg.pwmMaxcntRead, Register.regRead_cache]
  rw [Nat.mod_eq_of_lt (by omega)]

theorem CtrlReg.pwmMaxcntRead_bus_ok (r : Register) (f : Fpgasoc) (h : Nat)
    (hr : (f.read32 r._addr).1 = Except.ok h) :
    CtrlReg.pwmMaxcntRead r f false =
      (Except.ok (pickupValue h CtrlReg.PwmMaxcnt.Pos CtrlReg.PwmMaxcnt.Mask),
        { r with _regCache := h, _cacheStatus := CacheState.sync }, (f.read32 r._addr).2) := by
  have hle := pickupValue_PwmMaxcnt_le h
  simp only [CtrlReg.pwmMaxcntRead, Register.regRead_bus_ok r f h hr]
  rw [Nat.mod_eq_of_lt (by omega)]

theorem CtrlReg.pwmMaxcntRead_bus_error (r : Register) (f : Fpgasoc) (e : Exn)
    (hr : (f.read32 r._addr).1 = Except.error e) :
    CtrlReg.pwmMaxcntRead r f false = (Except.error e, r, (f.read32 r._addr).2) := by
  simp only [CtrlReg.pwmMaxcntRead, Register.regRead_bus_error r f e hr]

theorem Register.reg_bus_ok_of_ok (r : Register) (f : Fpgasoc) (v : Nat)
    (h : (r.reg f v false).1 = Except.ok ()) : (f.write32 r._addr v).1 = Except.ok () := by
  rcases Register.flushCache_cases { r with _regCache := v } f with hw | hw
  · exact hw
  · have h1 := Register.flushCache_error { r with _regCache := v } f _ hw
    simp [Register.reg, h1] at h

theorem PwmCmpReg.pwmCmp_bus_ok (r : Register) (f : Fpgasoc) (val h : Nat)
    (hr : (f.read32 r._addr).1 = Except.ok h) :
    PwmCmpReg.pwmCmp r f val false =
      ({ r with _regCache := h, _cacheStatus := CacheState.sync } : Register).reg
        (f.read32 r._addr).2
        (insertValue h val PwmCmpReg.PwmCmp.Pos PwmCmpReg.PwmCmp.Mask) false := by
  simp only [PwmCmpReg.pwmCmp, Register.regRead_bus_ok r f h hr]

theorem PwmCmpReg.pwmCmp_bus_error (r : Register) (f : Fpgasoc) (val : Nat) (e : Exn)
    (hr : (f.read32 r._addr).1 = Except.error e) :
    PwmCmpReg.pwmCmp r f val false = (Except.error e, r, (f.read32 r._addr).2) := by
  simp only [PwmCmpReg.pwmCmp, Register.regRead_bus_error r f e hr]

theorem Register.reg_bus_cases (r : Register) (f : Fpgasoc) (v : Nat) :
    (r.reg f v false).1 = Except.ok () ∨
      (r.reg f v false).1 = Except.error Exn.range_error := by
  rcases Register.flushCache_cases { r with _regCache := v } f with hw | hw
  · have h1 := Register.flushCache_ok { r with _regCache := v } f hw
    left
    simp only [Register.reg, h1]
    rfl
  · have h1 := Register.flushCache_error { r with _regCache := v } f _ hw
    right
    simp only [Register.reg, h1]
    rfl

theorem PwmCmpReg.pwmCmp_cases (r : Register) (f : Fpgasoc) (val : Nat) :
    (PwmCmpReg.pwmCmp r f val false).1 = Except.ok () ∨
      (PwmCmpReg.pwmCmp r f val false).1 = Except.error Exn.range_error := by
  rcases Fpgasoc.read32_cases f r._addr with ⟨h, hr⟩ | hr
  · rw [PwmCmpReg.pwmCmp_bus_ok r f val h hr]
    exact Register.reg_bus_cases _ _ _
  · rw [PwmCmpReg.pwmCmp_bus_error r f val _ hr]
    exact Or.inr rfl

/-- What a successful `pwmCmp(val, false)` did on the bus: one read and one write of the word
read with `val` inserted into PWM_CMP. -/
theorem PwmCmpReg.pwmCmp_ok_log (r : Register) (f : Fpgasoc) (val : Nat)
    (hok : (PwmCmpReg.pwmCmp r f val false).1 = Except.ok ()) :
    ∃ h : Nat, (f.read32 r._addr).1 = Except.ok h ∧
      (PwmCmpReg.pwmCmp r f val false).2.2.log = f.log ++ [BusOp.read32 r._addr,
        BusOp.write32 r._addr (insertValue h val PwmCmpReg.PwmCmp.Pos PwmCmpReg.PwmCmp.Mask)] := by
  rcases Fpgasoc.read32_cases f r._addr with ⟨h, hr⟩ | hr
  · refine ⟨h, hr, ?_⟩
    rw [PwmCmpReg.pwmCmp_bus_ok r f val h hr, Register.reg_bus_log, Fpgasoc.read32_log]
    simp
  · rw [PwmCmpReg.pwmCmp_bus_error r f val _ hr] at hok
    simp at hok


/-- The comparator computed by `Motor::pwmDuty(duty)` from a max-count `m ≤ 0xFFFF` and a duty
in 0..100 fits the 17-bit PWM_CMP field and is `m + 1` or `floor(m * duty / 100)`. -/
theorem pwmDuty_computed (m : Nat) (d : Int) (hm : m ≤ 0xFFFF) (hd0 : 0 ≤ d) (hd1 : d ≤ 100) :
    ∃ c : Nat, c < 2 ^ 17 ∧
      (c : Int) = (if d = 100 then (m : Int) + 1 else (m : Int) * d / 100) ∧
      (if d = 100 then Except.ok ((m + 1) % 2 ^ 32)
        else if d ≥ 0 ∧ d < 100 then Except.ok ((m * (d % 2 ^ 32).toNat) % 2 ^ 32 / 100)
        else Except.error Exn.out_of_range : Except Exn Nat) = Except.ok c := by
  by_cases h100 : d = 100
  · refine ⟨m + 1, by omega, by simp [h100], ?_⟩
    rw [if_pos h100, Nat.mod_eq_of_lt (by omega)]
  · have hlt : d < 100 := lt_of_le_of_ne hd1 h100
    obtain ⟨n, rfl⟩ := Int.eq_ofNat_of_zero_le hd0
    have hn : n < 100 := by exact_mod_cast hlt
    have e1 : ((n : Int) % 2 ^ 32).toNat = n := by
      have : (n : Int) % 2 ^ 32 = n := Int.emod_eq_of_lt (by omega) (by omega)
      rw [this]
      exact Int.toNat_ofNat n
    have hmn : m * n < 2 ^ 32 := by
      have : m * n ≤ 0xFFFF * 100 := Nat.mul_le_mul hm (le_of_lt hn)
      omega
    refine ⟨m * n / 100, ?_, ?_, ?_⟩
    · have : m * n / 100 ≤ m * n := Nat.div_le_self _ _
      have : m * n ≤ 0xFFFF * 100 := Nat.mul_le_mul hm (le_of_lt hn)
      have : m * n / 100 ≤ 0xFFFF * 100 / 100 := Nat.div_le_div_right this
      omega
    · rw [if_neg h100]
      push_cast
      rfl
    · rw [if_neg h100, if_pos ⟨hd0, hlt⟩, e1, Nat.mod_eq_of_lt hmn]


theorem pickupValue_insertValue_PwmCmp (w c : Nat) (hc : c < 2 ^ 17) :
    pickupValue (insertValue w c PwmCmpReg.PwmCmp.Pos PwmCmpReg.PwmCmp.Mask)
      PwmCmpReg.PwmCmp.Pos PwmCmpReg.PwmCmp.Mask = c := by
  apply Nat.eq_of_testBit_eq
  intro i
  simp only [testBit_pickupValue, testBit_insertValue, testBit_PwmCmp_Mask,
    PwmCmpReg.PwmCmp.Pos]
  by_cases hi : i < 17
  · have h32 : i < 32 := by omega
    simp [hi, h32]
  · have hf : c.testBit i = false := testBit_eq_false_of_lt_two_pow hc (by omega)
    simp [hi, hf]

/-- After the max-count `m` was fetched, leaving the motor `mo1`, a successful
`Motor::pwmDuty(d)` reads PwmCmp and writes it back with the comparator in PWM_CMP. -/
theorem pwmDuty_tail (mo1 : Motor) (d : Int) (m : Nat) (hm : m ≤ 0xFFFF)
    (hd0 : 0 ≤ d) (hd1 : d ≤ 100) (res : Except Exn Unit × Motor)
    (hres : res =
      match (if d = 100 then Except.ok ((m + 1) % 2 ^ 32)
        else if d ≥ 0 ∧ d < 100 then Except.ok ((m * (d % 2 ^ 32).toNat) % 2 ^ 32 / 100)
        else Except.error Exn.out_of_range : Except Exn Nat) with
      | Except.error e => (Except.error e, mo1)
      | Except.ok pwmCmp =>
        match PwmCmpReg.pwmCmp mo1._regmap.pwmCmp mo1._regmap._fpgaObjPtr pwmCmp false with
        | (Except.error e, r2, f2) => (Except.error e, mo1.withPwmCmp r2 f2)
        | (Except.ok _, r2, f2) =>
          (Except.ok (), { mo1.withPwmCmp r2 f2 with _pwmDuty := (true, d) }))
    (hok : res.1 = Except.ok ()) :
    ∃ word : Nat,
      res.2._regmap._fpgaObjPtr.log = mo1._regmap._fpgaObjPtr.log ++
        [BusOp.read32 mo1._regmap.pwmCmp._addr, BusOp.write32 mo1._regmap.pwmCmp._addr word] ∧
      ((pickupValue word PwmCmpReg.PwmCmp.Pos PwmCmpReg.PwmCmp.Mask : Nat) : Int) =
        (if d = 100 then (m : Int) + 1 else (m : Int) * d / 100) ∧
      res.2._pwmDuty = (true, d) := by
  obtain ⟨c, hc, hcv, hce⟩ := pwmDuty_computed m d hm hd0 hd1
  rw [hce] at hres
  simp only at hres
  rcases hp : PwmCmpReg.pwmCmp mo1._regmap.pwmCmp mo1._regmap._fpgaObjPtr c false
    with ⟨r, r2, f2⟩
  rw [hp] at hres
  cases r with
  | error e =>
    simp only at hres
    rw [hres] at hok
    simp at hok
  | ok u =>
    simp only at hres
    have hpok : (PwmCmpReg.pwmCmp mo1._regmap.pwmCmp mo1._regmap._fpgaObjPtr c false).1
        = Except.ok () := by rw [hp]
    obtain ⟨h, _, hlog⟩ := PwmCmpReg.pwmCmp_ok_log _ _ _ hpok
    rw [hp] at hlog
    refine ⟨insertValue h c PwmCmpReg.PwmCmp.Pos PwmCmpReg.PwmCmp.Mask, ?_, ?_, ?_⟩
    · rw [hres]
      exact hlog
    · rw [pickupValue_insertValue_PwmCmp _ _ hc]
      exact hcv
    · rw [hres]


/-- After the max-count was fetched, `Motor::pwmDuty(d)` with `d` in 0..100 can fail only
with the bus error. -/
theorem pwmDuty_tail_cases (mo1 : Motor) (d : Int) (m : Nat) (hm : m ≤ 0xFFFF)
    (hd0 : 0 ≤ d) (hd1 : d ≤ 100) (res : Except Exn Unit × Motor)
    (hres : res =
      match (if d = 100 then Except.ok ((m + 1) % 2 ^ 32)
        else if d ≥ 0 ∧ d < 100 then Except.ok ((m * (d % 2 ^ 32).toNat) % 2 ^ 32 / 100)
        else Except.error Exn.out_of_range : Except Exn Nat) with
      | Except.error e => (Except.error e, mo1)
      | Except.ok pwmCmp =>
        match PwmCmpReg.pwmCmp mo1._regmap.pwmCmp mo1._regmap._fpgaObjPtr pwmCmp false with
        | (Except.error e, r2, f2) => (Except.error e, mo1.withPwmCmp r2 f2)
        | (Except.ok _, r2, f2) =>
          (Except.ok (), { mo1.withPwmCmp r2 f2 with _pwmDuty := (true, d) })) :
    res.1 = Except.ok () ∨ res.1 = Except.error Exn.range_error := by
  obtain ⟨c, _, _, hce⟩ := pwmDuty_computed m d hm hd0 hd1
  rw [hce] at hres
  simp only at hres
  have hcases := PwmCmpReg.pwmCmp_cases mo1._regmap.pwmCmp mo1._regmap._fpgaObjPtr c
  rcases hp : PwmCmpReg.pwmCmp mo1._regmap.pwmCmp mo1._regmap._fpgaObjPtr c false
    with ⟨r, r2, f2⟩
  rw [hp] at hres hcases
  cases r with
  | error e =>
    simp only at hres
    rw [hres]
    simpa using hcases
  | ok u =>
    simp only at hres
    rw [hres]
    exact Or.inl rfl

/-! ## C7: duty-to-comparator conversion -/

/-- C7: for every motor whose Ctrl state is `initialized` or `sync` and every duty `d` with
`0 ≤ d ≤ 100`, `pwmDuty(d)` either succeeds or fails with the bus error, so without a bus
failure it succeeds; and when it succeeds it took the max-count `m` from the Ctrl word read
from the bus (state `initialized`) or from the Ctrl cache (state `sync`), `m ≤ 0xFFFF`, then
read PwmCmp and wrote it back as its last bus call, and the PWM_CMP field (bits 0..16) of the
word written is `m + 1` when `d = 100` and `floor(m * d / 100)` otherwise. -/
theorem pwmDuty_comparator (mo : Motor) (d : Int) (hd0 : 0 ≤ d) (hd1 : d ≤ 100)
    (hst : mo._regmap.ctrl.cacheStatus ≠ CacheState.modified) :
    ((mo.pwmDuty d).1 = Except.ok () ∨ (mo.pwmDuty d).1 = Except.error Exn.range_error) ∧
    ((mo.pwmDuty d).1 = Except.ok () →
    ∃ (m word : Nat) (pre : List BusOp),
      ((mo._regmap.ctrl.cacheStatus = CacheState.initialized ∧
          pre = [BusOp.read32 mo._regmap.ctrl._addr] ∧
          ∃ h : Nat, (mo._regmap._fpgaObjPtr.read32 mo._regmap.ctrl._addr).1 = Except.ok h ∧
            m = pickupValue h CtrlReg.PwmMaxcnt.Pos CtrlReg.PwmMaxcnt.Mask) ∨
        (mo._regmap.ctrl.cacheStatus = CacheState.sync ∧ pre = [] ∧
          m = pickupValue mo._regmap.ctrl._regCache CtrlReg.PwmMaxcnt.Pos
            CtrlReg.PwmMaxcnt.Mask)) ∧
      m ≤ 0xFFFF ∧
      (mo.pwmDuty d).2._regmap._fpgaObjPtr.log = mo._regmap._fpgaObjPtr.log ++ pre ++
        [BusOp.read32 mo._regmap.pwmCmp._addr, BusOp.write32 mo._regmap.pwmCmp._addr word] ∧
      ((pickupValue word PwmCmpReg.PwmCmp.Pos PwmCmpReg.PwmCmp.Mask : Nat) : Int) =
        (if d = 100 then (m : Int) + 1 else (m : Int) * d / 100)) := by
  cases hs : mo._regmap.ctrl.cacheStatus with
  | modified => exact absurd hs hst
  | sync =>
    have hm := pickupValue_PwmMaxcnt_le mo._regmap.ctrl._regCache
    refine ⟨pwmDuty_tail_cases (mo.withCtrl mo._regmap.ctrl mo._regmap._fpgaObjPtr) d _ hm
      hd0 hd1 (mo.pwmDuty d)
      (by simp only [Motor.pwmDuty, hs, CtrlReg.pwmMaxcntRead_cache]; rfl), fun hok => ?_⟩
    obtain ⟨word, hlog, hval, _⟩ :=
      pwmDuty_tail (mo.withCtrl mo._regmap.ctrl mo._regmap._fpgaObjPtr) d _ hm hd0 hd1
        (mo.pwmDuty d)
        (by simp only [Motor.pwmDuty, hs, CtrlReg.pwmMaxcntRead_cache]; rfl) hok
    refine ⟨_, word, [], Or.inr ⟨rfl, rfl, rfl⟩, hm, ?_, hval⟩
    rw [hlog]
    simp [Motor.withCtrl]
  | initialized =>
    rcases Fpgasoc.read32_cases mo._regmap._fpgaObjPtr mo._regmap.ctrl._addr with ⟨h, hr⟩ | hr
    · have hm := pickupValue_PwmMaxcnt_le h
      refine ⟨pwmDuty_tail_cases (mo.withCtrl _ _) d _ hm hd0 hd1 (mo.pwmDuty d)
        (by simp only [Motor.pwmDuty, hs, CtrlReg.pwmMaxcntRead_bus_ok _ _ h hr]; rfl),
        fun hok => ?_⟩
      obtain ⟨word, hlog, hval, _⟩ :=
        pwmDuty_tail (mo.withCtrl _ _) d _ hm hd0 hd1 (mo.pwmDuty d)
          (by simp only [Motor.pwmDuty, hs, CtrlReg.pwmMaxcntRead_bus_ok _ _ h hr]; rfl) hok
      refine ⟨_, word, _, Or.inl ⟨rfl, rfl, h, hr, rfl⟩, hm, ?_, hval⟩
      rw [hlog]
      simp [Motor.withCtrl, Fpgasoc.read32_log]
    · have hfail : (mo.pwmDuty d).1 = Except.error Exn.range_error := by
        simp only [Motor.pwmDuty, hs, CtrlReg.pwmMaxcntRead_bus_error _ _ _ hr]
        rfl
      refine ⟨Or.inr hfail, fun hok => ?_⟩
      rw [hfail] at hok
      simp at hok

/-- C7 (witness): on `demoMotor` (Ctrl `sync`, max-count `0xFFFF`) `pwmDuty(100)` succeeds and
writes the PwmCmp word `0x10000`, that is `0xFFFF + 1` in the 17-bit field. -/
theorem pwmDuty_comparator_witness :
    (demoMotor.pwmDuty 100).2._regmap._fpgaObjPtr.log =
        demoMotor._regmap._fpgaObjPtr.log ++ [BusOp.read32 4, BusOp.write32 4 0x10000] ∧
    ∃ (m word : Nat) (pre : List BusOp),
      ((demoMotor._regmap.ctrl.cacheStatus = CacheState.initialized ∧
          pre = [BusOp.read32 demoMotor._regmap.ctrl._addr] ∧
          ∃ h : Nat, (demoMotor._regmap._fpgaObjPtr.read32 demoMotor._regmap.ctrl._addr).1
              = Except.ok h ∧
            m = pickupValue h CtrlReg.PwmMaxcnt.Pos CtrlReg.PwmMaxcnt.Mask) ∨
        (demoMotor._regmap.ctrl.cacheStatus = CacheState.sync ∧ pre = [] ∧
          m = pickupValue demoMotor._regmap.ctrl._regCache CtrlReg.PwmMaxcnt.Pos
            CtrlReg.PwmMaxcnt.Mask)) ∧
      m ≤ 0xFFFF ∧
      (demoMotor.pwmDuty 100).2._regmap._fpgaObjPtr.log =
        demoMotor._regmap._fpgaObjPtr.log ++ pre ++
        [BusOp.read32 demoMotor._regmap.pwmCmp._addr,
          BusOp.write32 demoMotor._regmap.pwmCmp._addr word] ∧
      ((pickupValue word PwmCmpReg.PwmCmp.Pos PwmCmpReg.PwmCmp.Mask : Nat) : Int) =
        (if (100 : Int) = 100 then (m : Int) + 1 else (m : Int) * 100 / 100) :=
  ⟨by decide,
   (pwmDuty_comparator demoMotor 100 (by decide) (by decide) (by decide)).2 (by decide)⟩

theorem pwmDuty_ok_duty (mo : Motor) (d : Int) (hok : (mo.pwmDuty d).1 = Except.ok ()) :
    (mo.pwmDuty d).2._pwmDuty = (true, d) := by
  unfold Motor.pwmDuty at hok ⊢
  simp only at hok ⊢
  split at hok
  · simp at hok
  · split at hok
    · simp at hok
    · split at hok
      · simp at hok
      · rfl

/-! ## C8: duty set/get round trip -/

/-- C8: for every motor and every duty `d` on which `pwmDuty(d)` succeeds (which needs
`0 ≤ d ≤ 100`), the getter `pwmDuty()` called next returns exactly `d` and leaves the motor,
bus call log included, as it was: it makes no bus access and does not look at the
max-count. -/
theorem pwmDuty_set_get (mo : Motor) (d : Int) (hok : (mo.pwmDuty d).1 = Except.ok ()) :
    (mo.pwmDuty d).2.pwmDutyGet = (Except.ok d, (mo.pwmDuty d).2) := by
  have h := pwmDuty_ok_duty mo d hok
  simp [Motor.pwmDutyGet, h]

/-- C8 (witness): on `demoMotor`, whose max-count is `0xFFFF`, `pwmDuty(37)` succeeds and the
getter then returns 37. -/
theorem pwmDuty_set_get_witness :
    (demoMotor.pwmDuty 37).1 = Except.ok () ∧
      (demoMotor.pwmDuty 37).2.pwmDutyGet = (Except.ok 37, (demoMotor.pwmDuty 37).2) :=
  ⟨by decide, pwmDuty_set_get demoMotor 37 (by decide)⟩

/-! ## C9: duty range validation -/

theorem Motor.withCtrl_self (mo : Motor) :
    mo.withCtrl mo._regmap.ctrl mo._regmap._fpgaObjPtr = mo := rfl

/-- C9 (counterexample): the motor constructed on `statOnlyBus` has Ctrl in state
`initialized`, not `modified`; `pwmDuty(101)` first reads the max-count from the bus, that read
fails, and the call fails with the bus error `range_error`, not with the out-of-range
error. -/
theorem pwmDuty_out_of_range_bus_fault :
    ∃ mo : Motor, (Motor.new statOnlyBus Motor.ClkFqType.Hz 50000000 0).1 = Except.ok mo ∧
      mo._regmap.ctrl.cacheStatus = CacheState.initialized ∧
      mo._regmap.ctrl.cacheStatus ≠ CacheState.modified ∧
      (mo.pwmDuty 101).1 = Except.error Exn.range_error ∧
      (mo.pwmDuty 101).1 ≠ Except.error Exn.out_of_range := by
  refine ⟨_, rfl, ?_⟩
  decide

/-- C9 (amended): for every motor whose Ctrl state is not `modified` and every duty `d` with
`d < 0` or `d > 100`, `pwmDuty(d)` fails with the out-of-range error when Ctrl is `sync` or the
bus read of Ctrl made for state `initialized` succeeds, and with the bus error when that read
fails; in every case its only bus call is that read (none for state `sync`), so it performs no
bus write, and it leaves the PwmCmp register (cache and state) and the cached duty
unchanged. -/
theorem pwmDuty_out_of_range (mo : Motor) (d : Int)
    (hst : mo._regmap.ctrl.cacheStatus ≠ CacheState.modified) (hd : d < 0 ∨ 100 < d) :
    ((mo._regmap.ctrl.cacheStatus = CacheState.sync ∨
        ∃ h : Nat, (mo._regmap._fpgaObjPtr.read32 mo._regmap.ctrl._addr).1 = Except.ok h) →
      (mo.pwmDuty d).1 = Except.error Exn.out_of_range) ∧
    ((mo._regmap.ctrl.cacheStatus = CacheState.initialized ∧
        (mo._regmap._fpgaObjPtr.read32 mo._regmap.ctrl._addr).1 =
          Except.error Exn.range_error) →
      (mo.pwmDuty d).1 = Except.error Exn.range_error) ∧
    (mo.pwmDuty d).2._regmap._fpgaObjPtr.log = mo._regmap._fpgaObjPtr.log ++
      (if mo._regmap.ctrl.cacheStatus = CacheState.initialized
        then [BusOp.read32 mo._regmap.ctrl._addr] else []) ∧
    (mo.pwmDuty d).2._regmap.pwmCmp = mo._regmap.pwmCmp ∧
    (mo.pwmDuty d).2._pwmDuty = mo._pwmDuty := by
  have h100 : ¬ d = 100 := by omega
  have hrange : ¬ (d ≥ 0 ∧ d < 100) := by omega
  cases hs : mo._regmap.ctrl.cacheStatus with
  | modified => exact absurd hs hst
  | sync =>
    have hres : mo.pwmDuty d = (Except.error Exn.out_of_range, mo) := by
      simp only [Motor.pwmDuty, hs, CtrlReg.pwmMaxcntRead_cache]
      simp [h100, hrange, Motor.withCtrl_self]
    rw [hres]
    simp
  | initialized =>
    rcases Fpgasoc.read32_cases mo._regmap._fpgaObjPtr mo._regmap.ctrl._addr with ⟨h, hr⟩ | hr
    · have hres : mo.pwmDuty d = (Except.error Exn.out_of_range,
          mo.withCtrl { mo._regmap.ctrl with _regCache := h, _cacheStatus := CacheState.sync }
            (mo._regmap._fpgaObjPtr.read32 mo._regmap.ctrl._addr).2) := by
        simp only [Motor.pwmDuty, hs, CtrlReg.pwmMaxcntRead_bus_ok _ _ h hr]
        simp [h100, hrange]
      rw [hres]
      simp [hr, Motor.withCtrl, Fpgasoc.read32_log]
    · have hres : mo.pwmDuty d = (Except.error Exn.range_error,
          mo.withCtrl mo._regmap.ctrl
            (mo._regmap._fpgaObjPtr.read32 mo._regmap.ctrl._addr).2) := by
        simp only [Motor.pwmDuty, hs, CtrlReg.pwmMaxcntRead_bus_error _ _ _ hr]
        simp
      rw [hres]
      simp [hr, Motor.withCtrl, Fpgasoc.read32_log]


/-- C9 (witness): on `demoMotor`, whose Ctrl is `sync`, `pwmDuty(101)` and `pwmDuty(-1)` fail
with the out-of-range error. -/
theorem pwmDuty_out_of_range_witness :
    (demoMotor.pwmDuty 101).1 = Except.error Exn.out_of_range ∧
      (demoMotor.pwmDuty (-1)).1 = Except.error Exn.out_of_range :=
  ⟨(pwmDuty_out_of_range demoMotor 101 (by decide) (by decide)).1 (Or.inl rfl),
   (pwmDuty_out_of_range demoMotor (-1) (by decide) (by decide)).1 (Or.inl rfl)⟩

/-! ## Facts about the memory bus and the demo motor -/

theorem demoMotor_constructed :
    Motor.new resetBus Motor.ClkFqType.Hz 50000000 0 =
      (Except.ok demoMotor, demoMotor._regmap._fpgaObjPtr) := by
  rfl

theorem lastWritten_append_write (l : List BusOp) (dflt addr w : Nat) :
    lastWritten dflt addr (l ++ [BusOp.write32 addr w]) = w := by
  induction l generalizing dflt with
  | nil => simp [lastWritten]
  | cons op rest ih =>
    cases op with
    | read32 a => simpa [lastWritten] using ih dflt
    | write32 a v => simpa [lastWritten] using ih _

theorem memBus_read32 (init : Nat → Nat) (log : List BusOp) (a : Nat) :
    (memBus init log).read32 a =
      (Except.ok (lastWritten (init a) a log % 2 ^ 32), memBus init (log ++ [BusOp.read32 a])) :=
  rfl

theorem memBus_write32 (init : Nat → Nat) (log : List BusOp) (a w : Nat) :
    (memBus init log).write32 a w =
      (Except.ok (), memBus init (log ++ [BusOp.write32 a w])) :=
  rfl

theorem Register.flushCallBack_addr (r : Register) : r._flushCacheCallBack._addr = r._addr := by
  unfold Register._flushCacheCallBack
  split <;> rfl

theorem Register.reg_memBus (r : Register) (init : Nat → Nat) (log : List BusOp) (v : Nat) :
    r.reg (memBus init log) v false =
      (Except.ok (),
        ({ r with _regCache := v, _cacheStatus := CacheState.sync } : Register)._flushCacheCallBack,
        memBus init (log ++ [BusOp.write32 r._addr v])) := by
  have h := Register.flushCache_ok { r with _regCache := v } (memBus init log) (by
    rw [memBus_write32])
  simp only [Register.reg, h, memBus_write32]
  rfl

theorem CtrlReg.phase_memBus (r : Register) (init : Nat → Nat) (log : List BusOp) (v : Nat) :
    ∃ (r1 : Register) (word : Nat), r1._addr = r._addr ∧
      word = insertValue (insertValue (lastWritten (init r._addr) r._addr log % 2 ^ 32)
            (v % 2 ^ 8) CtrlReg.Phase.Pos CtrlReg.Phase.Mask)
            CtrlReg.WPhase.Write CtrlReg.WPhase.Pos CtrlReg.WPhase.Mask ∧
      CtrlReg.phase r (memBus init log) v false =
        (Except.ok (), r1,
          memBus init (log ++ [BusOp.read32 r._addr] ++ [BusOp.write32 r._addr word])) := by
  refine ⟨({ r with
      _regCache := insertValue (insertValue (lastWritten (init r._addr) r._addr log % 2 ^ 32)
            (v % 2 ^ 8) CtrlReg.Phase.Pos CtrlReg.Phase.Mask)
            CtrlReg.WPhase.Write CtrlReg.WPhase.Pos CtrlReg.WPhase.Mask,
      _cacheStatus := CacheState.sync } : Register)._flushCacheCallBack, _,
    Register.flushCallBack_addr _, rfl, ?_⟩
  simp only [CtrlReg.phase, Register.regRead_bus_ok r (memBus init log) _
    (by rw [memBus_read32]), memBus_read32, Register.reg_memBus]

/-! ## C10: phase set/get -/

/-- C10: (a) on a bus that behaves as a memory, for every `p` in 0..5 `Motor::phase(p)`
succeeds and the `Motor::phase()` called next returns `p`; (b) on any bus, for every `p < 0`
or `p > 5`, `Motor::phase(p)` fails with the out-of-range error and leaves the motor as it
was: no bus call is logged and the Ctrl cache and state are unchanged. -/
theorem phase_set_get :
    (∀ (mo : Motor) (init : Nat → Nat) (log : List BusOp) (p : Int),
      mo._regmap._fpgaObjPtr = memBus init log → 0 ≤ p → p ≤ 5 →
        (mo.phase p).1 = Except.ok () ∧ ((mo.phase p).2.phaseGet).1 = Except.ok p) ∧
    (∀ (mo : Motor) (p : Int), p < 0 ∨ 5 < p →
      mo.phase p = (Except.error Exn.out_of_range, mo)) := by
  constructor
  · intro mo init log p hbus hp0 hp5
    obtain ⟨n, rfl⟩ := Int.eq_ofNat_of_zero_le hp0
    have hn : n ≤ 5 := by exact_mod_cast hp5
    have hv : ((n : Int) % 2 ^ 8).toNat = n := by
      have : (n : Int) % 2 ^ 8 = n := Int.emod_eq_of_lt (by omega) (by omega)
      rw [this]
      exact Int.toNat_ofNat n
    have hrange : ¬ ((n : Int) < Motor._MinPhase ∨ (n : Int) > Motor._MaxPhase) := by
      simp only [Motor._MinPhase, Motor._MaxPhase]
      omega
    obtain ⟨r1, word, ha, hw, hph⟩ := CtrlReg.phase_memBus mo._regmap.ctrl init log n
    have hres : mo.phase n = (Except.ok (), mo.withCtrl r1 (memBus init
        (log ++ [BusOp.read32 mo._regmap.ctrl._addr] ++
          [BusOp.write32 mo._regmap.ctrl._addr word]))) := by
      simp only [Motor.phase, hrange, if_false, hv, hbus, hph]
    rw [hres]
    refine ⟨rfl, ?_⟩
    have hword : word < 2 ^ 32 := by
      rw [hw]
      exact insertValue_lt _ _ _ _
    have hpw : pickupValue word CtrlReg.Phase.Pos CtrlReg.Phase.Mask = n := by
      rw [hw]
      exact (phase_word (lastWritten (init mo._regmap.ctrl._addr) mo._regmap.ctrl._addr log
        % 2 ^ 32) n (Nat.mod_lt _ (by norm_num)) (by omega)).1
    have hn8 : n % 2 ^ 8 = n := Nat.mod_eq_of_lt (by omega)
    have hrd : ((memBus init (log ++ [BusOp.read32 mo._regmap.ctrl._addr] ++
        [BusOp.write32 mo._regmap.ctrl._addr word])).read32 r1._addr).1 = Except.ok word := by
      rw [ha, memBus_read32, lastWritten_append_write, Nat.mod_eq_of_lt hword]
    simp only [Motor.phaseGet, Motor.withCtrl, CtrlReg.phaseRead,
      Register.regRead_bus_ok r1 _ word hrd, hpw, hn8]
  · intro mo p hp
    have hrange : p < Motor._MinPhase ∨ p > Motor._MaxPhase := by
      simp only [Motor._MinPhase, Motor._MaxPhase]
      omega
    simp only [Motor.phase, hrange, if_true]


/-- C10 (witness): on `demoMotor`, whose bus is a memory, `phase(3)` succeeds and `phase()`
then returns 3, while `phase(6)` fails with the out-of-range error and changes nothing. -/
theorem phase_set_get_witness :
    ((demoMotor.phase 3).1 = Except.ok () ∧
        ((demoMotor.phase 3).2.phaseGet).1 = Except.ok 3) ∧
      demoMotor.phase 6 = (Except.error Exn.out_of_range, demoMotor) :=
  ⟨phase_set_get.1 demoMotor (fun a => if a = 8 then 0x0FFFF000 else 0)
      [BusOp.read32 12, BusOp.read32 4, BusOp.read32 8] 3 rfl (by decide) (by decide),
   phase_set_get.2 demoMotor 6 (Or.inr (by decide))⟩


/-! ## C14: operations that need a non-modified Ctrl -/

theorem Motor.pwmDuty_modified (mo : Motor)
    (hm : mo._regmap.ctrl.cacheStatus = CacheState.modified) (d : Int) :
    mo.pwmDuty d = (Except.error Exn.runtime_error, mo) := by
  simp only [Motor.pwmDuty, hm]
  rfl

theorem Motor.pwmPeriod_modified (mo : Motor)
    (hm : mo._regmap.ctrl.cacheStatus = CacheState.modified)
    (u : Motor.PeriodType) (period prsc : Int) :
    mo.pwmPeriod u period prsc =
      (Except.error
        (if prsc > Motor._MaxPrscSel ∨ prsc < Motor._MinPrscSel then Exn.out_of_range
          else if wrap64 (period * u.nanos) > mo.periodMaxCountNs prsc then Exn.out_of_range
          else Exn.runtime_error), mo) := by
  unfold Motor.pwmPeriod Motor.periodMaxCountNs
  simp only [hm]
  split
  · rfl
  · split
    · rfl
    · simp

/-- C14: for every motor whose Ctrl cache state is `modified`, `pwmDuty(d)` for every `d`,
`outputEnable(b)` for both `b`, the setter `pwmPeriod(period, p)` for every period and
prescaler and the getter `pwmPeriod()` fail and return the motor exactly as it was, so no bus
call is made and no register cache, register state or facade cache changes. The error is the
inconsistent-state error (`runtime_error`), except that the setter `pwmPeriod` reports an
argument its own range checks reject as out of range first. -/
theorem modified_ctrl_rejected (mo : Motor)
    (hm : mo._regmap.ctrl.cacheStatus = CacheState.modified) :
    (∀ d : Int, mo.pwmDuty d = (Except.error Exn.runtime_error, mo)) ∧
    (∀ b : Bool, mo.outputEnable b = (Except.error Exn.runtime_error, mo)) ∧
    (∀ (u : Motor.PeriodType) (period prsc : Int),
      (∃ e : Exn, mo.pwmPeriod u period prsc = (Except.error e, mo)) ∧
      (Motor._MinPrscSel ≤ prsc → prsc ≤ Motor._MaxPrscSel →
        wrap64 (period * u.nanos) ≤ mo.periodMaxCountNs prsc →
        mo.pwmPeriod u period prsc = (Except.error Exn.runtime_error, mo))) ∧
    (∀ u : Motor.PeriodType, mo.pwmPeriodGet u = (Except.error Exn.runtime_error, mo)) := by
  refine ⟨Motor.pwmDuty_modified mo hm, ?_, ?_, ?_⟩
  · intro b
    simp [Motor.outputEnable, hm]
  · intro u period prsc
    refine ⟨⟨_, Motor.pwmPeriod_modified mo hm u period prsc⟩, ?_⟩
    intro h0 h1 h2
    rw [Motor.pwmPeriod_modified mo hm u period prsc]
    have h3 : ¬ (prsc > Motor._MaxPrscSel ∨ prsc < Motor._MinPrscSel) := by omega
    have h4 : ¬ (wrap64 (period * u.nanos) > mo.periodMaxCountNs prsc) := by omega
    simp [h3, h4]
  · intro u
    simp [Motor.pwmPeriodGet, hm]


/-- C14 (witness): on `staleMotor`, whose Ctrl is `modified`, `pwmDuty(50)`,
`outputEnable(true)`, `pwmPeriod(1000 ns, 0)` and `pwmPeriod()` fail with `runtime_error` and
return `staleMotor`. -/
theorem modified_ctrl_rejected_witness :
    staleMotor.pwmDuty 50 = (Except.error Exn.runtime_error, staleMotor) ∧
      staleMotor.outputEnable true = (Except.error Exn.runtime_error, staleMotor) ∧
      staleMotor.pwmPeriod Motor.PeriodType.nanoseconds 1000 0 =
        (Except.error Exn.runtime_error, staleMotor) ∧
      staleMotor.pwmPeriodGet Motor.PeriodType.nanoseconds =
        (Except.error Exn.runtime_error, staleMotor) :=
  ⟨(modified_ctrl_rejected staleMotor rfl).1 50,
   (modified_ctrl_rejected staleMotor rfl).2.1 true,
   ((modified_ctrl_rejected staleMotor rfl).2.2.1 Motor.PeriodType.nanoseconds 1000 0).2
     (by decide) (by decide) (by decide),
   (modified_ctrl_rejected staleMotor rfl).2.2.2 Motor.PeriodType.nanoseconds⟩

/-! ## C15: the output-enable getter -/

theorem pickupValue_En (h : Nat) :
    pickupValue h CtrlReg.En.Pos CtrlReg.En.Mask % 2 ^ 8 = h % 2 := by
  have h1 : pickupValue h CtrlReg.En.Pos CtrlReg.En.Mask = h % 2 := by
    simp [pickupValue, CtrlReg.En.Pos, CtrlReg.En.Mask, Nat.and_one_is_mod]
  rw [h1]
  omega

theorem CtrlReg.enRead_bus_ok (r : Register) (f : Fpgasoc) (h : Nat)
    (hr : (f.read32 r._addr).1 = Except.ok h) :
    CtrlReg.enRead r f false =
      (Except.ok (h % 2), { r with _regCache := h, _cacheStatus := CacheState.sync },
        (f.read32 r._addr).2) := by
  simp only [CtrlReg.enRead, Register.regRead_bus_ok r f h hr, pickupValue_En]

/-- C15: for every motor whose Ctrl cache state is `modified`, `outputEnable()` returns
`false` and leaves the motor as it was (no bus call, no error), whatever the EN bit of the
cache is; for every motor whose Ctrl state is `initialized` or `sync`, whenever the bus read of
Ctrl returns the word `h`, `outputEnable()` makes exactly that one bus call and returns `true`
when bit 0 of `h` is 1 and `false` when it is 0. -/
theorem outputEnableGet_spec (mo : Motor) :
    (mo._regmap.ctrl.cacheStatus = CacheState.modified →
      mo.outputEnableGet = (Except.ok false, mo)) ∧
    (mo._regmap.ctrl.cacheStatus ≠ CacheState.modified →
      ∀ h : Nat, (mo._regmap._fpgaObjPtr.read32 mo._regmap.ctrl._addr).1 = Except.ok h →
        (mo.outputEnableGet).1 = Except.ok (h.testBit 0) ∧
        (mo.outputEnableGet).2._regmap._fpgaObjPtr.log =
          mo._regmap._fpgaObjPtr.log ++ [BusOp.read32 mo._regmap.ctrl._addr]) := by
  constructor
  · intro hm
    simp [Motor.outputEnableGet, hm]
  · intro hm h hr
    simp only [Motor.outputEnableGet, hm, CtrlReg.enRead_bus_ok _ _ h hr,
      CtrlReg.En.Enable, CtrlReg.En.Disable, Nat.testBit_zero]
    rcases Nat.mod_two_eq_zero_or_one h with h0 | h1
    · simp [h0, hm, Motor.withCtrl, Fpgasoc.read32_log]
    · simp [h1, hm, Motor.withCtrl, Fpgasoc.read32_log]

/-- C15 (witness): `staleMotor` answers `false` untouched; `demoMotor` reads the Ctrl word
`0x0FFFF000` from the bus and answers `false`, its bit 0. -/
theorem outputEnableGet_spec_witness :
    staleMotor.outputEnableGet = (Except.ok false, staleMotor) ∧
      (demoMotor.outputEnableGet).1 = Except.ok ((0x0FFFF000 : Nat).testBit 0) :=
  ⟨(outputEnableGet_spec staleMotor).1 rfl,
   ((outputEnableGet_spec demoMotor).2 (by decide) 0x0FFFF000 (by decide)).1⟩


/-! ## Facts about the 64-bit arithmetic -/

theorem wrap64_eq {x : Int} (h1 : -2 ^ 63 ≤ x) (h2 : x < 2 ^ 63) : wrap64 x = x := by
  unfold wrap64
  omega

/-- The word `Motor::rotationalSpeed(speed)` hands to FreqTgt when the speed, in whole
rotations per second, is `v` with `0 ≤ v < 2 ^ 32`. -/
theorem rotationalSpeed_count (u : Motor.RotationalSpeedType) (x v : Int) (hv0 : 0 ≤ v)
    (hv1 : v < 2 ^ 32)
    (hu : (u = Motor.RotationalSpeedType.Rps ∧ v = x) ∨
      (u = Motor.RotationalSpeedType.Rpm ∧ 0 ≤ x ∧ v = x / 60)) :
    ((match u with
      | Motor.RotationalSpeedType.Rps => x
      | Motor.RotationalSpeedType.Rpm => Int.tdiv x 60) % 2 ^ 32).toNat = v.toNat := by
  rcases hu with ⟨rfl, rfl⟩ | ⟨rfl, hx, rfl⟩
  · simp only
    rw [Int.emod_eq_of_lt hv0 hv1]
  · simp only
    rw [Int.tdiv_eq_ediv hx (by norm_num), Int.emod_eq_of_lt hv0 hv1]

/-- C18: FreqTgt sits at `base + 0x00`. On every bus, `rotationalSpeed(Rps n)` with
`0 ≤ n < 2^32` makes exactly one bus call, the write of `n` to FreqTgt, and
`rotationalSpeed(Rpm m)` with `0 ≤ m` and `floor(m / 60) < 2^32` the write of `floor(m / 60)`.
On a memory bus the call succeeds, and the getter called next makes one bus read of FreqTgt and
returns the written value `v` as `Rps` and `60 * v` as `Rpm`. -/
theorem rotationalSpeed_spec (mo : Motor) (u : Motor.RotationalSpeedType) (x v : Int)
    (hv0 : 0 ≤ v) (hv1 : v < 2 ^ 32)
    (hu : (u = Motor.RotationalSpeedType.Rps ∧ v = x) ∨
      (u = Motor.RotationalSpeedType.Rpm ∧ 0 ≤ x ∧ v = x / 60)) :
    (∀ baseAddr : Nat, (FreqtgtReg.new baseAddr)._addr = (baseAddr + 0x00) % 2 ^ 32) ∧
    (mo.rotationalSpeed u x).2._regmap._fpgaObjPtr.log =
      mo._regmap._fpgaObjPtr.log ++ [BusOp.write32 mo._regmap.freqtgt._addr v.toNat] ∧
    (∀ (init : Nat → Nat) (log : List BusOp), mo._regmap._fpgaObjPtr = memBus init log →
      (mo.rotationalSpeed u x).1 = Except.ok () ∧
      ∀ g : Motor.RotationalSpeedType,
        ((mo.rotationalSpeed u x).2.rotationalSpeedGet g).1 =
          Except.ok (match g with
            | Motor.RotationalSpeedType.Rps => v
            | Motor.RotationalSpeedType.Rpm => 60 * v) ∧
        ((mo.rotationalSpeed u x).2.rotationalSpeedGet g).2._regmap._fpgaObjPtr.log =
          log ++ [BusOp.write32 mo._regmap.freqtgt._addr v.toNat,
            BusOp.read32 mo._regmap.freqtgt._addr]) := by
  have hcount := rotationalSpeed_count u x v hv0 hv1 hu
  have hvn : ((v.toNat : Nat) : Int) = v := Int.toNat_of_nonneg hv0
  have hlt : v.toNat < 2 ^ 32 := by omega
  refine ⟨fun _ => rfl, ?_, ?_⟩
  · simp only [Motor.rotationalSpeed, hcount, FreqtgtReg.freqtgt, Motor.withFreqtgt,
      Register.reg_bus_log]
  · intro init log hbus
    have hset : mo.rotationalSpeed u x = (Except.ok (),
        mo.withFreqtgt
          ({ mo._regmap.freqtgt with _regCache := v.toNat, _cacheStatus := CacheState.sync }
            : Register)._flushCacheCallBack
          (memBus init (log ++ [BusOp.write32 mo._regmap.freqtgt._addr v.toNat]))) := by
      simp only [Motor.rotationalSpeed, hcount, FreqtgtReg.freqtgt, hbus, Register.reg_memBus]
    rw [hset]
    refine ⟨rfl, fun g => ?_⟩
    have hrd : ((memBus init (log ++ [BusOp.write32 mo._regmap.freqtgt._addr v.toNat])).read32
        (({ mo._regmap.freqtgt with _regCache := v.toNat, _cacheStatus := CacheState.sync }
          : Register)._flushCacheCallBack)._addr).1 = Except.ok v.toNat := by
      rw [Register.flushCallBack_addr, memBus_read32, lastWritten_append_write,
        Nat.mod_eq_of_lt hlt]
    simp only [Motor.rotationalSpeedGet, Motor.withFreqtgt, FreqtgtReg.freqtgtRead,
      Register.regRead_bus_ok _ _ _ hrd, Fpgasoc.read32_log, Register.flushCallBack_addr, hvn]
    cases g with
    | Rps => simp [memBus]
    | Rpm =>
      have hw : wrap64 (v * 60) = 60 * v := by
        rw [wrap64_eq (by omega) (by omega)]
        ring
      simp [memBus, hw]

/-- C18 (witness): on `demoMotor`, `rotationalSpeed(Rpm 6059)` writes 100 to FreqTgt and the
getter then returns 100 rotations per second, 6000 per minute. -/
theorem rotationalSpeed_spec_witness :
    (demoMotor.rotationalSpeed Motor.RotationalSpeedType.Rpm 6059).2._regmap._fpgaObjPtr.log =
        demoMotor._regmap._fpgaObjPtr.log ++ [BusOp.write32 0 100] ∧
      ((demoMotor.rotationalSpeed Motor.RotationalSpeedType.Rpm 6059).2.rotationalSpeedGet
        Motor.RotationalSpeedType.Rpm).1 = Except.ok 6000 :=
  ⟨(rotationalSpeed_spec demoMotor Motor.RotationalSpeedType.Rpm 6059 100 (by decide)
      (by decide) (Or.inr ⟨rfl, by decide, by decide⟩)).2.1,
   (((rotationalSpeed_spec demoMotor Motor.RotationalSpeedType.Rpm 6059 100 (by decide)
      (by decide) (Or.inr ⟨rfl, by decide, by decide⟩)).2.2
      (fun a => if a = 8 then 0x0FFFF000 else 0)
      [BusOp.read32 12, BusOp.read32 4, BusOp.read32 8] rfl).2
      Motor.RotationalSpeedType.Rpm).1⟩


/-! ## Facts about the constructor -/

theorem Motor.withStat_self (mo : Motor) :
    mo.withStat mo._regmap.stat mo._regmap._fpgaObjPtr = mo := rfl

theorem Motor.fetchHwIpVersion_cache (mo : Motor) :
    mo._fetchHwIpVersion true =
      if pickupValue mo._regmap.stat._regCache StatReg.RelCnt.Pos StatReg.RelCnt.Mask % 2 ^ 8
          ≤ StatReg.RelCnt.MaxVal then
        { mo with _hwIpVersion := (true, StatReg.RelCnt.VerTbl.getD
          (pickupValue mo._regmap.stat._regCache StatReg.RelCnt.Pos StatReg.RelCnt.Mask % 2 ^ 8)
          "") }
      else mo := by
  simp only [Motor._fetchHwIpVersion, StatReg.relCnt, Register.regRead_cache,
    Motor.withStat_self]

theorem Motor.fetchDeadtime_cache (mo : Motor) :
    mo._fetchDeadtime true =
      { mo with _deadtime := (true,
        ((pickupValue mo._regmap.stat._regCache StatReg.Deadtime.Pos StatReg.Deadtime.Mask
          % 2 ^ 8 : Nat) : Int)) } := by
  simp only [Motor._fetchDeadtime, StatReg.deadtime, Register.regRead_cache,
    Motor.withStat_self]

/-- The member `_calcPwmDutyFromRegister` touches neither the Stat register nor the clock
frequency, version and deadtime members. -/
theorem Motor.calcPwmDuty_frame (mo : Motor) :
    mo._calcPwmDutyFromRegister._regmap.stat = mo._regmap.stat ∧
      mo._calcPwmDutyFromRegister._clkFq = mo._clkFq ∧
      mo._calcPwmDutyFromRegister._hwIpVersion = mo._hwIpVersion ∧
      mo._calcPwmDutyFromRegister._deadtime = mo._deadtime := by
  unfold Motor._calcPwmDutyFromRegister
  simp only
  split
  · split
    · exact ⟨rfl, rfl, rfl, rfl⟩
    · split
      · exact ⟨rfl, rfl, rfl, rfl⟩
      · split
        · exact ⟨rfl, rfl, rfl, rfl⟩
        · split <;> exact ⟨rfl, rfl, rfl, rfl⟩
  · exact ⟨rfl, rfl, rfl, rfl⟩

/-- What the constructor builds when the bus read of Stat returns `s`. -/
theorem Motor.new_ok (ptr : Fpgasoc) (u : Motor.ClkFqType) (clkFq : Int) (baseAddr s : Nat)
    (hs : (ptr.read32 (StatReg.new baseAddr)._addr).1 = Except.ok s) :
    ∃ mo : Motor, (Motor.new ptr u clkFq baseAddr).1 = Except.ok mo ∧
      mo._clkFq = Motor.clockFreq_cast u clkFq ∧
      mo._regmap.stat =
        { StatReg.new baseAddr with _regCache := s, _cacheStatus := CacheState.sync } ∧
      mo._hwIpVersion =
        (if pickupValue s StatReg.RelCnt.Pos StatReg.RelCnt.Mask % 2 ^ 8
            ≤ StatReg.RelCnt.MaxVal then
          (true, StatReg.RelCnt.VerTbl.getD
            (pickupValue s StatReg.RelCnt.Pos StatReg.RelCnt.Mask % 2 ^ 8) "")
        else (false, Motor._InvalidHwIpVerStr)) := by
  have hup := Register.updateCache_ok (StatReg.new baseAddr) ptr s hs
  simp only [Motor.new, RegMap.new, hup]
  refine ⟨_, rfl, ?_, ?_, ?_⟩
  · rw [(Motor.calcPwmDuty_frame _).2.1, Motor.fetchDeadtime_cache, Motor.fetchHwIpVersion_cache]
    split <;> rfl
  · rw [(Motor.calcPwmDuty_frame _).1, Motor.fetchDeadtime_cache, Motor.fetchHwIpVersion_cache]
    split <;> rfl
  · rw [(Motor.calcPwmDuty_frame _).2.2.1, Motor.fetchDeadtime_cache,
      Motor.fetchHwIpVersion_cache]
    simp only [Motor.withStat, apply_ite Motor._hwIpVersion]

theorem Motor.new_error (ptr : Fpgasoc) (u : Motor.ClkFqType) (clkFq : Int) (baseAddr : Nat)
    (e : Exn) (hs : (ptr.read32 (StatReg.new baseAddr)._addr).1 = Except.error e) :
    (Motor.new ptr u clkFq baseAddr).1 = Except.error e := by
  have hup := Register.updateCache_error (StatReg.new baseAddr) ptr e hs
  simp only [Motor.new, RegMap.new, hup]


/-! ## C16: version lookup -/

theorem Motor.hwIpVersion_valid (mo : Motor) (str : String)
    (h : mo._hwIpVersion = (true, str)) : mo.hwIpVersion = (Except.ok str, mo) := by
  simp [Motor.hwIpVersion, h]

theorem Motor.hwIpVersion_unresolved (mo : Motor) (h1 : mo._hwIpVersion.1 = false)
    (h2 : mo._regmap.stat.cacheStatus = CacheState.sync)
    (h3 : ¬ pickupValue mo._regmap.stat._regCache StatReg.RelCnt.Pos StatReg.RelCnt.Mask
      % 2 ^ 8 ≤ StatReg.RelCnt.MaxVal) :
    mo.hwIpVersion = (Except.error Exn.runtime_error, mo) := by
  have hf : mo._fetchHwIpVersion true = mo := by
    rw [Motor.fetchHwIpVersion_cache, if_neg h3]
  simp [Motor.hwIpVersion, h1, h2, hf]

theorem pickupValue_RelCnt_le (s : Nat) :
    pickupValue s StatReg.RelCnt.Pos StatReg.RelCnt.Mask ≤ 0xFF :=
  le_trans (pickupValue_le _ _ _) (by decide)

/-- C16: whenever the bus read of Stat made by the constructor returns the word `s`, with
`r` its bits 24..31, construction succeeds; on the motor built, `hwIpVersion()` returns
"UNDR 2.10" when `r = 0` and "2.10" when `r = 1`; when `r ≥ 2` the version is unset and
`hwIpVersion()` fails with an error and returns the motor exactly as it was, so every
repetition of the call fails in the same way. -/
theorem hwIpVersion_lookup (ptr : Fpgasoc) (u : Motor.ClkFqType) (clkFq : Int)
    (baseAddr s : Nat) (hs : (ptr.read32 (StatReg.new baseAddr)._addr).1 = Except.ok s) :
    ∃ mo : Motor, (Motor.new ptr u clkFq baseAddr).1 = Except.ok mo ∧
      (pickupValue s StatReg.RelCnt.Pos StatReg.RelCnt.Mask = 0 →
        mo.hwIpVersion = (Except.ok "UNDR 2.10", mo)) ∧
      (pickupValue s StatReg.RelCnt.Pos StatReg.RelCnt.Mask = 1 →
        mo.hwIpVersion = (Except.ok "2.10", mo)) ∧
      (2 ≤ pickupValue s StatReg.RelCnt.Pos StatReg.RelCnt.Mask →
        mo._hwIpVersion.1 = false ∧
        mo.hwIpVersion = (Except.error Exn.runtime_error, mo)) := by
  obtain ⟨mo, hnew, _, hstat, hver⟩ := Motor.new_ok ptr u clkFq baseAddr s hs
  have hle := pickupValue_RelCnt_le s
  have h8 : pickupValue s StatReg.RelCnt.Pos StatReg.RelCnt.Mask % 2 ^ 8 =
      pickupValue s StatReg.RelCnt.Pos StatReg.RelCnt.Mask := Nat.mod_eq_of_lt (by omega)
  rw [h8] at hver
  refine ⟨mo, hnew, ?_, ?_, ?_⟩
  · intro h0
    apply Motor.hwIpVersion_valid
    rw [hver, h0]
    rfl
  · intro h1
    apply Motor.hwIpVersion_valid
    rw [hver, h1]
    rfl
  · intro h2
    have hnot : ¬ pickupValue s StatReg.RelCnt.Pos StatReg.RelCnt.Mask ≤ StatReg.RelCnt.MaxVal := by
      simp only [StatReg.RelCnt.MaxVal]
      omega
    have hv1 : mo._hwIpVersion.1 = false := by
      rw [hver, if_neg hnot]
    refine ⟨hv1, Motor.hwIpVersion_unresolved mo hv1 (by rw [hstat]; rfl) ?_⟩
    rw [hstat]
    simp only
    rw [h8]
    exact hnot


/-- C16 (witness): on `relcnt2Bus` the constructor reads the Stat word `0x02000000`, release
counter 2, and succeeds; on `resetBus` it reads 0. -/
theorem hwIpVersion_lookup_witness :
    (∃ mo : Motor, (Motor.new relcnt2Bus Motor.ClkFqType.Hz 50000000 0).1 = Except.ok mo ∧
      (pickupValue 0x02000000 StatReg.RelCnt.Pos StatReg.RelCnt.Mask = 0 →
        mo.hwIpVersion = (Except.ok "UNDR 2.10", mo)) ∧
      (pickupValue 0x02000000 StatReg.RelCnt.Pos StatReg.RelCnt.Mask = 1 →
        mo.hwIpVersion = (Except.ok "2.10", mo)) ∧
      (2 ≤ pickupValue 0x02000000 StatReg.RelCnt.Pos StatReg.RelCnt.Mask →
        mo._hwIpVersion.1 = false ∧
        mo.hwIpVersion = (Except.error Exn.runtime_error, mo))) ∧
    (∃ mo : Motor, (Motor.new resetBus Motor.ClkFqType.Hz 50000000 0).1 = Except.ok mo ∧
      (pickupValue 0 StatReg.RelCnt.Pos StatReg.RelCnt.Mask = 0 →
        mo.hwIpVersion = (Except.ok "UNDR 2.10", mo)) ∧
      (pickupValue 0 StatReg.RelCnt.Pos StatReg.RelCnt.Mask = 1 →
        mo.hwIpVersion = (Except.ok "2.10", mo)) ∧
      (2 ≤ pickupValue 0 StatReg.RelCnt.Pos StatReg.RelCnt.Mask →
        mo._hwIpVersion.1 = false ∧
        mo.hwIpVersion = (Except.error Exn.runtime_error, mo))) :=
  ⟨hwIpVersion_lookup relcnt2Bus Motor.ClkFqType.Hz 50000000 0 0x02000000 (by decide),
   hwIpVersion_lookup resetBus Motor.ClkFqType.Hz 50000000 0 0 (by decide)⟩

/-! ## C20: a zero clock frequency -/

/-- C20 (counterexample): on `resetBus` the constructor accepts a clock frequency of 0 given in
Hz, KHz or MHz: construction succeeds and the motor holds the clock frequency 0. -/
theorem new_zero_clock_accepted :
    (∃ mo : Motor, (Motor.new resetBus Motor.ClkFqType.Hz 0 0).1 = Except.ok mo ∧
      mo._clkFq = 0) ∧
    (∃ mo : Motor, (Motor.new resetBus Motor.ClkFqType.KHz 0 0).1 = Except.ok mo ∧
      mo._clkFq = 0) ∧
    (∃ mo : Motor, (Motor.new resetBus Motor.ClkFqType.MHz 0 0).1 = Except.ok mo ∧
      mo._clkFq = 0) := by
  refine ⟨⟨_, rfl, ?_⟩, ⟨_, rfl, ?_⟩, ⟨_, rfl, ?_⟩⟩ <;> decide

/-- C20 (amended): the constructor makes no check of the clock frequency. For every bus
handle, base address and unit, constructing a motor with the clock frequency 0 succeeds
whenever the bus read of Stat succeeds, and the motor built holds the clock frequency 0;
construction fails only when that bus read fails, with the bus error. -/
theorem new_zero_clock (ptr : Fpgasoc) (u : Motor.ClkFqType) (baseAddr : Nat) :
    (∀ s : Nat, (ptr.read32 (StatReg.new baseAddr)._addr).1 = Except.ok s →
      ∃ mo : Motor, (Motor.new ptr u 0 baseAddr).1 = Except.ok mo ∧ mo._clkFq = 0) ∧
    (∀ e : Exn, (Motor.new ptr u 0 baseAddr).1 = Except.error e →
      (ptr.read32 (StatReg.new baseAddr)._addr).1 = Except.error e ∧ e = Exn.range_error) := by
  constructor
  · intro s hs
    obtain ⟨mo, hnew, hclk, _⟩ := Motor.new_ok ptr u 0 baseAddr s hs
    refine ⟨mo, hnew, ?_⟩
    rw [hclk]
    cases u <;> decide
  · intro e he
    rcases Fpgasoc.read32_cases ptr (StatReg.new baseAddr)._addr with ⟨s, hs⟩ | hs
    · obtain ⟨mo, hnew, _⟩ := Motor.new_ok ptr u 0 baseAddr s hs
      rw [hnew] at he
      simp at he
    · have h := Motor.new_error ptr u 0 baseAddr _ hs
      rw [h] at he
      simp only [Except.error.injEq] at he
      subst he
      exact ⟨hs, rfl⟩

/-- C20 (witness): on `relcnt2Bus`, where the Stat read returns `0x02000000`, a motor with
clock frequency 0 KHz is built; on `deadBus` construction fails because the Stat read fails. -/
theorem new_zero_clock_witness :
    (∃ mo : Motor, (Motor.new relcnt2Bus Motor.ClkFqType.KHz 0 0).1 = Except.ok mo ∧
      mo._clkFq = 0) ∧
    ((deadBus.read32 (StatReg.new 0)._addr).1 = Except.error Exn.range_error ∧
      Exn.range_error = Exn.range_error) :=
  ⟨(new_zero_clock relcnt2Bus Motor.ClkFqType.KHz 0).1 0x02000000 (by decide),
   (new_zero_clock deadBus Motor.ClkFqType.Hz 0).2 Exn.range_error rfl⟩


/-! ## The binary64 division in `_calcPwmDutyFromRegister` -/

theorem Motor.f64Shift_spec (num den : Nat) (fuel s0 : Nat)
    (h : ∃ t, s0 ≤ t ∧ t < s0 + fuel ∧ den * 2 ^ 52 ≤ num * 2 ^ t) :
    den * 2 ^ 52 ≤ num * 2 ^ Motor.f64Shift num den fuel s0 := by
  induction fuel generalizing s0 with
  | zero =>
    obtain ⟨t, h1, h2, _⟩ := h
    omega
  | succ n ih =>
    unfold Motor.f64Shift
    by_cases hc : den * 2 ^ 52 ≤ num * 2 ^ s0
    · rw [if_pos hc]
      exact hc
    · rw [if_neg hc]
      obtain ⟨t, h1, h2, h3⟩ := h
      have hne : t ≠ s0 := by
        rintro rfl
        exact hc h3
      exact ih (s0 + 1) ⟨t, by omega, by omega, h3⟩

theorem Motor.roundNearestEven_spec (a b : Nat) (hb : 0 < b) :
    2 * (b * Motor.roundNearestEven a b) ≤ 2 * a + b ∧
      2 * a ≤ 2 * (b * Motor.roundNearestEven a b) + b := by
  have hdm := Nat.div_add_mod a b
  have hr : a % b < b := Nat.mod_lt _ hb
  unfold Motor.roundNearestEven
  simp only
  have hq1 : b * (a / b + 1) = b * (a / b) + b := by ring
  split
  · omega
  · split
    · rw [hq1]
      omega
    · split
      · omega
      · rw [hq1]
        omega

theorem Motor.round_core (num den M k T : Int) (hden : 0 < den) (hT : den < 2 * T)
    (h1 : 2 * den * M ≤ 2 * num * (2 * T) + den) (h2 : 2 * num * (2 * T) ≤ 2 * den * M + den)
    (hk1 : k * (2 * den) ≤ 2 * num + den) (hk2 : 2 * num + den < (k + 1) * (2 * den)) :
    k * (2 * (2 * T)) ≤ 2 * M + 2 * T ∧ 2 * M + 2 * T < (k + 1) * (2 * (2 * T)) := by
  constructor
  · by_contra hcon
    have hA : M + T + 1 ≤ 2 * (k * T) := by
      have : 2 * M + 2 * T < 4 * (k * T) := by linarith
      omega
    have e1 := mul_le_mul_of_nonneg_right hk1 (by linarith : (0:Int) ≤ 2 * T)
    have e2 := mul_le_mul_of_nonneg_left hA (le_of_lt hden)
    nlinarith
  · by_contra hcon
    have hA : (2 * k + 1) * T ≤ M := by
      have : 2 * (2 * (k * T) + T) ≤ 2 * M := by linarith
      have : 2 * (k * T) + T ≤ M := by omega
      linarith
    have hk2' : 2 * num + den + 1 ≤ (k + 1) * (2 * den) := by omega
    have e1 := mul_le_mul_of_nonneg_right hk2' (by linarith : (0:Int) ≤ 2 * T)
    have e2 := mul_le_mul_of_nonneg_left hA (le_of_lt hden)
    nlinarith

/-- The binary64 computation of `_calcPwmDutyFromRegister` agrees with exact rational
rounding: for `0 < pwmMaxcnt < 2 ^ 16` and `pwmCmp ≤ pwmMaxcnt` the value of
`round(double(pwmCmp) * 100. / double(pwmMaxcnt))` is `pwmCmp * 100 / pwmMaxcnt` rounded to the
nearest integer, halves away from zero, that is `floor((2 * pwmCmp * 100 + pwmMaxcnt) /
(2 * pwmMaxcnt))`. -/
theorem Motor.roundDuty_eq (c m : Nat) (hm0 : 0 < m) (hm1 : m < 2 ^ 16) (hc : c ≤ m) :
    Motor.roundDuty c m = ((2 * (c * 100) + m) / (2 * m) : Nat) := by
  unfold Motor.roundDuty Motor.f64Round Motor.f64Div
  by_cases h0 : c * 100 = 0
  · rw [if_pos h0, h0]
    simp only [Nat.mul_zero, Nat.zero_add, pow_zero, pow_one]
    have : m / (2 * m) = 0 := Nat.div_eq_of_lt (by omega)
    rw [this]
    rfl
  · rw [if_neg h0]
    simp only
    have hs := Motor.f64Shift_spec (c * 100) m 128 0 ⟨68, by omega, by omega, by
      have h1 : m * 2 ^ 52 ≤ 2 ^ 16 * 2 ^ 52 := Nat.mul_le_mul_right _ (le_of_lt hm1)
      have h2 : 1 * 2 ^ 68 ≤ c * 100 * 2 ^ 68 := Nat.mul_le_mul_right _ (by omega)
      have h3 : (2 : Nat) ^ 16 * 2 ^ 52 = 1 * 2 ^ 68 := by norm_num
      omega⟩
    generalize Motor.f64Shift (c * 100) m 128 0 = s at hs
    -- the scale `2 ^ s` exceeds `m` and is even
    have hT : 2 ^ 52 ≤ 100 * 2 ^ s := by
      have h1 : c * 100 * 2 ^ s ≤ m * 100 * 2 ^ s :=
        Nat.mul_le_mul_right _ (Nat.mul_le_mul_right _ hc)
      have h2 : m * 2 ^ 52 ≤ m * (100 * 2 ^ s) := by
        calc m * 2 ^ 52 ≤ c * 100 * 2 ^ s := hs
          _ ≤ m * 100 * 2 ^ s := h1
          _ = m * (100 * 2 ^ s) := by ring
      exact Nat.le_of_mul_le_mul_left h2 hm0
    have hs1 : s ≠ 0 := by
      rintro rfl
      norm_num at hT
    obtain ⟨s', rfl⟩ := Nat.exists_eq_succ_of_ne_zero hs1
    have hpow : (2 : Nat) ^ (s' + 1) = 2 * 2 ^ s' := by rw [pow_succ]; ring
    have hpow2 : (2 : Nat) ^ (s' + 1 + 1) = 2 * (2 * 2 ^ s') := by rw [pow_succ, hpow]; ring
    obtain ⟨hr1, hr2⟩ := Motor.roundNearestEven_spec (c * 100 * 2 ^ (s' + 1)) m hm0
    generalize Motor.roundNearestEven (c * 100 * 2 ^ (s' + 1)) m = M at hr1 hr2
    rw [hpow] at hr1 hr2 hT
    rw [hpow, hpow2]
    generalize (2 : Nat) ^ s' = T at hr1 hr2 hT
    have hk1 : (2 * (c * 100) + m) / (2 * m) * (2 * m) ≤ 2 * (c * 100) + m :=
      Nat.div_mul_le_self _ _
    have hm2 : 0 < 2 * m := by omega
    have hk2 : 2 * (c * 100) + m < ((2 * (c * 100) + m) / (2 * m) + 1) * (2 * m) := by
      calc 2 * (c * 100) + m < (2 * (c * 100) + m) / (2 * m) * (2 * m) + 2 * m :=
            Nat.lt_div_mul_add hm2
        _ = ((2 * (c * 100) + m) / (2 * m) + 1) * (2 * m) := by ring
    generalize (2 * (c * 100) + m) / (2 * m) = k at hk1 hk2
    have hcore := Motor.round_core (c * 100 : Nat) m M k T (by exact_mod_cast hm0)
      (by have : m < 2 * T := by omega
          exact_mod_cast this)
      (by have : 2 * m * M ≤ 2 * (c * 100) * (2 * T) + m := by
            calc 2 * m * M = 2 * (m * M) := by ring
              _ ≤ 2 * (c * 100 * (2 * T)) + m := hr1
              _ = 2 * (c * 100) * (2 * T) + m := by ring
          exact_mod_cast this)
      (by have : 2 * (c * 100) * (2 * T) ≤ 2 * m * M + m := by
            calc 2 * (c * 100) * (2 * T) = 2 * (c * 100 * (2 * T)) := by ring
              _ ≤ 2 * (m * M) + m := hr2
              _ = 2 * m * M + m := by ring
          exact_mod_cast this)
      (by exact_mod_cast hk1) (by exact_mod_cast hk2)
    have hlo : k * (2 * (2 * T)) ≤ 2 * M + 2 * T := by exact_mod_cast hcore.1
    have hhi : 2 * M + 2 * T < (k + 1) * (2 * (2 * T)) := by exact_mod_cast hcore.2
    have : (2 * M + 2 * T) / (2 * (2 * T)) = k := Nat.div_eq_of_lt_le hlo hhi
    rw [this]


/-! ## C17: duty recomputation from the registers -/

theorem PwmCmpReg.pwmCmpRead_bus_ok (r : Register) (f : Fpgasoc) (h : Nat)
    (hr : (f.read32 r._addr).1 = Except.ok h) :
    PwmCmpReg.pwmCmpRead r f false =
      (Except.ok (pickupValue h PwmCmpReg.PwmCmp.Pos PwmCmpReg.PwmCmp.Mask),
        { r with _regCache := h, _cacheStatus := CacheState.sync }, (f.read32 r._addr).2) := by
  simp only [PwmCmpReg.pwmCmpRead, Register.regRead_bus_ok r f h hr]

/-- What `_calcPwmDutyFromRegister` computes when both bus reads succeed. -/
theorem Motor.calcPwmDuty_ok (mo : Motor)
    (hctrl : mo._regmap.ctrl.cacheStatus ≠ CacheState.modified)
    (hcmp : mo._regmap.pwmCmp.cacheStatus ≠ CacheState.modified) (hcw hmw : Nat)
    (hr1 : (mo._regmap._fpgaObjPtr.read32 mo._regmap.pwmCmp._addr).1 = Except.ok hcw)
    (hr2 : ((mo._regmap._fpgaObjPtr.read32 mo._regmap.pwmCmp._addr).2.read32
      mo._regmap.ctrl._addr).1 = Except.ok hmw) :
    mo._calcPwmDutyFromRegister._pwmDuty =
      (if pickupValue hcw PwmCmpReg.PwmCmp.Pos PwmCmpReg.PwmCmp.Mask >
          pickupValue hmw CtrlReg.PwmMaxcnt.Pos CtrlReg.PwmMaxcnt.Mask then (true, 100)
        else if pickupValue hmw CtrlReg.PwmMaxcnt.Pos CtrlReg.PwmMaxcnt.Mask > 0 then
          (true, Motor.roundDuty (pickupValue hcw PwmCmpReg.PwmCmp.Pos PwmCmpReg.PwmCmp.Mask)
            (pickupValue hmw CtrlReg.PwmMaxcnt.Pos CtrlReg.PwmMaxcnt.Mask))
        else (false, Motor._InvalidPwmDuty)) := by
  have h1 := PwmCmpReg.pwmCmpRead_bus_ok mo._regmap.pwmCmp mo._regmap._fpgaObjPtr hcw hr1
  have h2 := CtrlReg.pwmMaxcntRead_bus_ok mo._regmap.ctrl
    (mo._regmap._fpgaObjPtr.read32 mo._regmap.pwmCmp._addr).2 hmw hr2
  simp only [Motor._calcPwmDutyFromRegister, hctrl, hcmp, ne_eq, not_false_eq_true, and_self,
    if_true, h1, Motor.withPwmCmp, h2, Motor.withCtrl]
  split
  · rfl
  · split <;> rfl

/-- C17: when no duty is cached, neither Ctrl nor PwmCmp is `modified`, and the bus reads of
PwmCmp and then of Ctrl succeed, with `c` the PWM_CMP field and `m` the PWM_MAXCNT field of the
words read, `pwmDuty()` returns 100 if `c > m`; otherwise, if `m > 0`, it returns
`c * 100 / m` rounded to the nearest integer, halves away from zero, that is
`floor((2 * c * 100 + m) / (2 * m))` (the binary64 division and `round` of the code give
exactly this value); otherwise (`m = 0` and `c = 0`) it fails with an error and the duty stays
unset. -/
theorem pwmDutyGet_recompute (mo : Motor) (hinv : mo._pwmDuty.1 = false)
    (hctrl : mo._regmap.ctrl.cacheStatus ≠ CacheState.modified)
    (hcmp : mo._regmap.pwmCmp.cacheStatus ≠ CacheState.modified) (hcw hmw : Nat)
    (hr1 : (mo._regmap._fpgaObjPtr.read32 mo._regmap.pwmCmp._addr).1 = Except.ok hcw)
    (hr2 : ((mo._regmap._fpgaObjPtr.read32 mo._regmap.pwmCmp._addr).2.read32
      mo._regmap.ctrl._addr).1 = Except.ok hmw) :
    (pickupValue hmw CtrlReg.PwmMaxcnt.Pos CtrlReg.PwmMaxcnt.Mask <
        pickupValue hcw PwmCmpReg.PwmCmp.Pos PwmCmpReg.PwmCmp.Mask →
      (mo.pwmDutyGet).1 = Except.ok 100) ∧
    (pickupValue hcw PwmCmpReg.PwmCmp.Pos PwmCmpReg.PwmCmp.Mask ≤
        pickupValue hmw CtrlReg.PwmMaxcnt.Pos CtrlReg.PwmMaxcnt.Mask →
      0 < pickupValue hmw CtrlReg.PwmMaxcnt.Pos CtrlReg.PwmMaxcnt.Mask →
      (mo.pwmDutyGet).1 = Except.ok
        (((2 * (pickupValue hcw PwmCmpReg.PwmCmp.Pos PwmCmpReg.PwmCmp.Mask * 100) +
            pickupValue hmw CtrlReg.PwmMaxcnt.Pos CtrlReg.PwmMaxcnt.Mask) /
          (2 * pickupValue hmw CtrlReg.PwmMaxcnt.Pos CtrlReg.PwmMaxcnt.Mask) : Nat) : Int)) ∧
    (pickupValue hcw PwmCmpReg.PwmCmp.Pos PwmCmpReg.PwmCmp.Mask ≤
        pickupValue hmw CtrlReg.PwmMaxcnt.Pos CtrlReg.PwmMaxcnt.Mask →
      pickupValue hmw CtrlReg.PwmMaxcnt.Pos CtrlReg.PwmMaxcnt.Mask = 0 →
      (mo.pwmDutyGet).1 = Except.error Exn.runtime_error ∧
      (mo.pwmDutyGet).2._pwmDuty.1 = false) := by
  have hcalc := Motor.calcPwmDuty_ok mo hctrl hcmp hcw hmw hr1 hr2
  have hmle := pickupValue_PwmMaxcnt_le hmw
  generalize pickupValue hcw PwmCmpReg.PwmCmp.Pos PwmCmpReg.PwmCmp.Mask = c at hcalc ⊢
  generalize pickupValue hmw CtrlReg.PwmMaxcnt.Pos CtrlReg.PwmMaxcnt.Mask = m at hcalc hmle ⊢
  refine ⟨?_, ?_, ?_⟩
  · intro hgt
    rw [if_pos hgt] at hcalc
    simp [Motor.pwmDutyGet, hinv, hcalc]
  · intro hle hpos
    rw [if_neg (by omega), if_pos hpos, Motor.roundDuty_eq c m hpos (by omega) hle] at hcalc
    simp [Motor.pwmDutyGet, hinv, hcalc]
  · intro hle hz
    rw [if_neg (by omega), if_neg (by omega)] at hcalc
    simp [Motor.pwmDutyGet, hinv, hcalc]


/-- C17 (witness): `coldMotor` reads the comparator `0x4000` and the max-count `0xFFFF` and
returns 25, the rounded value of 1638400 / 65535; `zeroMotor` reads 0 and 0 and fails. -/
theorem pwmDutyGet_recompute_witness :
    (coldMotor.pwmDutyGet).1 = Except.ok 25 ∧
    (coldMotor.pwmDutyGet).1 = Except.ok
      (((2 * (pickupValue 0x4000 PwmCmpReg.PwmCmp.Pos PwmCmpReg.PwmCmp.Mask * 100) +
          pickupValue 0x0FFFF000 CtrlReg.PwmMaxcnt.Pos CtrlReg.PwmMaxcnt.Mask) /
        (2 * pickupValue 0x0FFFF000 CtrlReg.PwmMaxcnt.Pos CtrlReg.PwmMaxcnt.Mask) : Nat) : Int) ∧
    ((zeroMotor.pwmDutyGet).1 = Except.error Exn.runtime_error ∧
      (zeroMotor.pwmDutyGet).2._pwmDuty.1 = false) :=
  ⟨by decide,
   (pwmDutyGet_recompute coldMotor rfl (by decide) (by decide) 0x4000 0x0FFFF000
      (by decide) (by decide)).2.1 (by decide) (by decide),
   (pwmDutyGet_recompute zeroMotor rfl (by decide) (by decide) 0 0
      (by decide) (by decide)).2.2 (by decide) (by decide)⟩

/-! ## The Ctrl word built by `Motor::pwmPeriod` -/

/-- The word that the two cache-only writes of `Motor::pwmPeriod` build from the Ctrl cache
`c`: PWM_MAXCNT is `M`, PWM_PRSC is `P`, every other bit is the bit of `c`. -/
theorem period_word (c M P : Nat) (hc : c < 2 ^ 32) (hM : M < 2 ^ 16) (hP : P < 2 ^ 6) :
    pickupValue (insertValue (insertValue c (M % 2 ^ 16) CtrlReg.PwmMaxcnt.Pos
        CtrlReg.PwmMaxcnt.Mask) (P % 2 ^ 8) CtrlReg.PwmPrsc.Pos CtrlReg.PwmPrsc.Mask)
        CtrlReg.PwmMaxcnt.Pos CtrlReg.PwmMaxcnt.Mask = M ∧
      pickupValue (insertValue (insertValue c (M % 2 ^ 16) CtrlReg.PwmMaxcnt.Pos
        CtrlReg.PwmMaxcnt.Mask) (P % 2 ^ 8) CtrlReg.PwmPrsc.Pos CtrlReg.PwmPrsc.Mask)
        CtrlReg.PwmPrsc.Pos CtrlReg.PwmPrsc.Mask = P ∧
      ∀ i : Nat, (i < 6 ∨ 28 ≤ i) →
        (insertValue (insertValue c (M % 2 ^ 16) CtrlReg.PwmMaxcnt.Pos
          CtrlReg.PwmMaxcnt.Mask) (P % 2 ^ 8) CtrlReg.PwmPrsc.Pos CtrlReg.PwmPrsc.Mask).testBit i
          = c.testBit i := by
  have hM16 : M % 2 ^ 16 = M := Nat.mod_eq_of_lt hM
  have hP8 : P % 2 ^ 8 = P := Nat.mod_eq_of_lt (by omega)
  rw [hM16, hP8]
  refine ⟨?_, ?_, ?_⟩
  · apply Nat.eq_of_testBit_eq
    intro i
    simp only [testBit_pickupValue, testBit_insertValue, testBit_PwmMaxcnt_Mask,
      testBit_PwmPrsc_Mask, CtrlReg.PwmMaxcnt.Pos, CtrlReg.PwmPrsc.Pos]
    by_cases hi : i < 16
    · have h1 : 12 + i < 32 := by omega
      have h2 : ¬ (12 + i < 12) := by omega
      have h3 : 12 + i < 28 := by omega
      simp [h1, h2, h3]
    · have h3 : ¬ (12 + i < 28) := by omega
      have hf : M.testBit i = false := testBit_eq_false_of_lt_two_pow hM (by omega)
      simp [h3, hf]
  · apply Nat.eq_of_testBit_eq
    intro i
    simp only [testBit_pickupValue, testBit_insertValue, testBit_PwmMaxcnt_Mask,
      testBit_PwmPrsc_Mask, CtrlReg.PwmMaxcnt.Pos, CtrlReg.PwmPrsc.Pos]
    by_cases hi : i < 6
    · have h1 : 6 + i < 32 := by omega
      have h3 : 6 + i < 12 := by omega
      simp [h1, h3]
    · have h3 : ¬ (6 + i < 12) := by omega
      have hf : P.testBit i = false := testBit_eq_false_of_lt_two_pow hP (by omega)
      simp [h3, hf]
  · intro i hi
    simp only [testBit_insertValue, testBit_PwmMaxcnt_Mask,
      testBit_PwmPrsc_Mask, CtrlReg.PwmMaxcnt.Pos, CtrlReg.PwmPrsc.Pos]
    by_cases h32 : i < 32
    · rcases hi with hi | hi
      · have h2 : ¬ (6 ≤ i) := by omega
        have h3 : ¬ (12 ≤ i) := by omega
        simp [h32, h2, h3]
      · have h2 : ¬ (i < 12) := by omega
        have h3 : ¬ (i < 28) := by omega
        simp [h32, h2, h3]
    · have hf : c.testBit i = false := testBit_eq_false_of_lt_two_pow hc (by omega)
      simp [h32, hf]

/-- The post-flush hook leaves the PWM_MAXCNT and PWM_PRSC fields of the cache alone, whatever
the kind of the register. -/
theorem Register.flushCallBack_fields (r : Register) :
    pickupValue r._flushCacheCallBack._regCache CtrlReg.PwmMaxcnt.Pos CtrlReg.PwmMaxcnt.Mask =
        pickupValue r._regCache CtrlReg.PwmMaxcnt.Pos CtrlReg.PwmMaxcnt.Mask := by
  unfold Register._flushCacheCallBack
  split
  · apply Nat.eq_of_testBit_eq
    intro i
    simp only [CtrlReg._flushCacheCallBack, Register.regCacheOnly,
      Register._forceSetCacheStatus, testBit_pickupValue, testBit_insertValue,
      testBit_WPhase_Mask, testBit_PwmMaxcnt_Mask, CtrlReg.WPhase.NotWrite, Nat.zero_testBit,
      CtrlReg.PwmMaxcnt.Pos]
    by_cases hi : i < 16
    · have h1 : 12 + i < 32 := by omega
      have h2 : ¬ (12 + i = 5) := by omega
      simp [h1, h2]
    · have h3 : ¬ (12 + i < 28) := by omega
      simp [h3]
  · rfl


/-! ## The steps of `Motor::pwmPeriod` -/

/-- Once its range checks have passed and Ctrl is not `modified`, the setter `pwmPeriod` is:
flush the Ctrl cache with max-count and prescaler inserted, then re-apply the duty. -/
theorem Motor.pwmPeriod_run (mo : Motor) (u : Motor.PeriodType) (period p : Int)
    (hp0 : Motor._MinPrscSel ≤ p) (hp1 : p ≤ Motor._MaxPrscSel)
    (hn : wrap64 (period * u.nanos) ≤ mo.periodMaxCountNs p)
    (hst : mo._regmap.ctrl.cacheStatus ≠ CacheState.modified) :
    mo.pwmPeriod u period p =
      match ({ mo._regmap.ctrl with
          _regCache := insertValue (insertValue mo._regmap.ctrl._regCache
            (mo.pwmMaxcntOf (wrap64 (period * u.nanos)) p % 2 ^ 16)
            CtrlReg.PwmMaxcnt.Pos CtrlReg.PwmMaxcnt.Mask)
            ((p % 2 ^ 8).toNat % 2 ^ 8) CtrlReg.PwmPrsc.Pos CtrlReg.PwmPrsc.Mask,
          _cacheStatus := CacheState.modified } : Register).flushCache
          mo._regmap._fpgaObjPtr with
      | (Except.error e, r3, f3) => (Except.error e, mo.withCtrl r3 f3)
      | (Except.ok _, r3, f3) =>
        match (mo.withCtrl r3 f3).pwmDutyGet with
        | (Except.error e, mo) => (Except.error e, mo)
        | (Except.ok duty, mo) => mo.pwmDuty duty := by
  have h1 : ¬ (p > Motor._MaxPrscSel ∨ p < Motor._MinPrscSel) := by omega
  have h2 : ¬ (wrap64 (period * u.nanos) >
      div64 (shl64 (wrap64 (Motor._MaxPwmMaxcnt * nano_den)) (p + 1))
        (wrap64 (nano_num * mo._clkFq))) := by
    unfold Motor.periodMaxCountNs at hn
    omega
  simp only [Motor.pwmPeriod, h1, h2, if_false, hst, ne_eq, not_false_eq_true, if_true,
    CtrlReg.pwmMaxcnt, CtrlReg.pwmPrsc, Register.regRead_cache, Register.reg_cacheOnly,
    Register.regCacheOnly, Motor.withCtrl, Motor.pwmMaxcntOf]

theorem Motor.pwmDutyGet_valid (mo : Motor) (d : Int) (h : mo._pwmDuty = (true, d)) :
    mo.pwmDutyGet = (Except.ok d, mo) := by
  simp [Motor.pwmDutyGet, h]

/-- After the max-count was fetched, `Motor::pwmDuty(d)` leaves the Ctrl register and the
clock frequency alone, whatever its outcome. -/
theorem pwmDuty_tail_frame (mo1 : Motor) (d : Int) (m : Nat) (res : Except Exn Unit × Motor)
    (hres : res =
      match (if d = 100 then Except.ok ((m + 1) % 2 ^ 32)
        else if d ≥ 0 ∧ d < 100 then Except.ok ((m * (d % 2 ^ 32).toNat) % 2 ^ 32 / 100)
        else Except.error Exn.out_of_range : Except Exn Nat) with
      | Except.error e => (Except.error e, mo1)
      | Except.ok pwmCmp =>
        match PwmCmpReg.pwmCmp mo1._regmap.pwmCmp mo1._regmap._fpgaObjPtr pwmCmp false with
        | (Except.error e, r2, f2) => (Except.error e, mo1.withPwmCmp r2 f2)
        | (Except.ok _, r2, f2) =>
          (Except.ok (), { mo1.withPwmCmp r2 f2 with _pwmDuty := (true, d) })) :
    res.2._regmap.ctrl = mo1._regmap.ctrl ∧ res.2._clkFq = mo1._clkFq := by
  rw [hres]
  split
  · exact ⟨rfl, rfl⟩
  · split <;> exact ⟨rfl, rfl⟩

/-- The setter `pwmDuty(d)` on a motor whose Ctrl is `sync`, for `d` in 0..100. -/
theorem Motor.pwmDuty_sync (mo : Motor) (d : Int) (hd0 : 0 ≤ d) (hd1 : d ≤ 100)
    (hs : mo._regmap.ctrl.cacheStatus = CacheState.sync) :
    ((mo.pwmDuty d).1 = Except.ok () ∨ (mo.pwmDuty d).1 = Except.error Exn.range_error) ∧
    (mo.pwmDuty d).2._regmap.ctrl = mo._regmap.ctrl ∧
    (mo.pwmDuty d).2._clkFq = mo._clkFq ∧
    ((mo.pwmDuty d).1 = Except.ok () →
      ∃ word : Nat,
        (mo.pwmDuty d).2._regmap._fpgaObjPtr.log = mo._regmap._fpgaObjPtr.log ++
          [BusOp.read32 mo._regmap.pwmCmp._addr, BusOp.write32 mo._regmap.pwmCmp._addr word] ∧
        ((pickupValue word PwmCmpReg.PwmCmp.Pos PwmCmpReg.PwmCmp.Mask : Nat) : Int) =
          (if d = 100 then
            (pickupValue mo._regmap.ctrl._regCache CtrlReg.PwmMaxcnt.Pos
              CtrlReg.PwmMaxcnt.Mask : Int) + 1
          else (pickupValue mo._regmap.ctrl._regCache CtrlReg.PwmMaxcnt.Pos
              CtrlReg.PwmMaxcnt.Mask : Int) * d / 100) ∧
        (mo.pwmDuty d).2._pwmDuty = (true, d)) := by
  have hm := pickupValue_PwmMaxcnt_le mo._regmap.ctrl._regCache
  have hcases := pwmDuty_tail_cases (mo.withCtrl mo._regmap.ctrl mo._regmap._fpgaObjPtr) d _
    hm hd0 hd1 (mo.pwmDuty d)
    (by simp only [Motor.pwmDuty, hs, CtrlReg.pwmMaxcntRead_cache]; rfl)
  have hframe := pwmDuty_tail_frame (mo.withCtrl mo._regmap.ctrl mo._regmap._fpgaObjPtr) d
    (pickupValue mo._regmap.ctrl._regCache CtrlReg.PwmMaxcnt.Pos CtrlReg.PwmMaxcnt.Mask)
    (mo.pwmDuty d)
    (by simp only [Motor.pwmDuty, hs, CtrlReg.pwmMaxcntRead_cache]; rfl)
  refine ⟨hcases, hframe.1, hframe.2, fun hok => ?_⟩
  obtain ⟨word, hlog, hval, hduty⟩ :=
    pwmDuty_tail (mo.withCtrl mo._regmap.ctrl mo._regmap._fpgaObjPtr) d _ hm hd0 hd1
      (mo.pwmDuty d)
      (by simp only [Motor.pwmDuty, hs, CtrlReg.pwmMaxcntRead_cache]; rfl) hok
  exact ⟨word, hlog, hval, hduty⟩


theorem Motor.pwmMaxcntOf_lt (mo : Motor) (periodNs p : Int) :
    mo.pwmMaxcntOf periodNs p < 2 ^ 16 := by
  unfold Motor.pwmMaxcntOf
  omega

theorem prsc_cast (p : Int) (hp0 : 0 ≤ p) (hp1 : p ≤ 32) :
    (p % 2 ^ 8).toNat = p.toNat ∧ p.toNat < 2 ^ 6 := by
  have : p % 2 ^ 8 = p := Int.emod_eq_of_lt hp0 (by omega)
  rw [this]
  omega

/-! ## C19: one combined Ctrl write, then the duty is re-applied -/

/-- C19: the Ctrl register sits at `base + 0x08`, apart from PwmCmp. For every motor whose
clock is a non-zero 64-bit value (so that the divisor of the range computation,
`nano::num * clock`, is not zero), whose Ctrl is `sync` with the 32-bit cache word `c` and
whose cached duty is `d` (a percentage, 0..100), a `pwmPeriod(period, p)` that passes the
range checks either succeeds or fails with the bus error; when it succeeds its bus calls are
exactly: one write to Ctrl of `c` with PWM_MAXCNT
replaced by the new max-count `M` and PWM_PRSC replaced by `p` (all other bits as in `c`),
then a read of PwmCmp and a write of PwmCmp with PWM_CMP equal to `M + 1` if `d = 100` and
`floor(M * d / 100)` otherwise; afterwards Ctrl is `sync` and `pwmDuty()` returns `d`. -/
theorem pwmPeriod_combined_write (mo : Motor) (u : Motor.PeriodType) (period p d : Int)
    (hclk0 : mo._clkFq ≠ 0) (hclk1 : -2 ^ 63 ≤ mo._clkFq) (hclk2 : mo._clkFq < 2 ^ 63)
    (hsync : mo._regmap.ctrl.cacheStatus = CacheState.sync)
    (hc : mo._regmap.ctrl._regCache < 2 ^ 32)
    (hduty : mo._pwmDuty = (true, d)) (hd0 : 0 ≤ d) (hd1 : d ≤ 100)
    (hp0 : 0 ≤ p) (hp1 : p ≤ 32)
    (hn : wrap64 (period * u.nanos) ≤ mo.periodMaxCountNs p) :
    (∀ baseAddr : Nat, (CtrlReg.new baseAddr)._addr = (baseAddr + 0x08) % 2 ^ 32 ∧
      (CtrlReg.new baseAddr)._addr ≠ (PwmCmpReg.new baseAddr)._addr) ∧
    wrap64 (nano_num * mo._clkFq) ≠ 0 ∧
    ((mo.pwmPeriod u period p).1 = Except.ok () ∨
      (mo.pwmPeriod u period p).1 = Except.error Exn.range_error) ∧
    ((mo.pwmPeriod u period p).1 = Except.ok () →
      ∃ word w2 : Nat,
        (mo.pwmPeriod u period p).2._regmap._fpgaObjPtr.log = mo._regmap._fpgaObjPtr.log ++
          [BusOp.write32 mo._regmap.ctrl._addr word, BusOp.read32 mo._regmap.pwmCmp._addr,
            BusOp.write32 mo._regmap.pwmCmp._addr w2] ∧
        pickupValue word CtrlReg.PwmMaxcnt.Pos CtrlReg.PwmMaxcnt.Mask =
          mo.pwmMaxcntOf (wrap64 (period * u.nanos)) p ∧
        (pickupValue word CtrlReg.PwmPrsc.Pos CtrlReg.PwmPrsc.Mask : Int) = p ∧
        (∀ i : Nat, (i < 6 ∨ 28 ≤ i) →
          word.testBit i = mo._regmap.ctrl._regCache.testBit i) ∧
        ((pickupValue w2 PwmCmpReg.PwmCmp.Pos PwmCmpReg.PwmCmp.Mask : Nat) : Int) =
          (if d = 100 then (mo.pwmMaxcntOf (wrap64 (period * u.nanos)) p : Int) + 1
            else (mo.pwmMaxcntOf (wrap64 (period * u.nanos)) p : Int) * d / 100) ∧
        (mo.pwmPeriod u period p).2._regmap.ctrl.cacheStatus = CacheState.sync ∧
        ((mo.pwmPeriod u period p).2.pwmDutyGet).1 = Except.ok d) := by
  refine ⟨fun b => ⟨rfl, ?_⟩, ?_, ?_⟩
  · simp only [CtrlReg.new, PwmCmpReg.new, Register.new, CtrlReg._Offset, PwmCmpReg._Offset]
    omega
  · have e : nano_num * mo._clkFq = mo._clkFq := by
      simp only [nano_num, one_mul]
    rw [e, wrap64_eq hclk1 hclk2]
    exact hclk0
  have hrun := Motor.pwmPeriod_run mo u period p
    (by simp only [Motor._MinPrscSel]; exact hp0) (by simp only [Motor._MaxPrscSel]; exact hp1)
    hn (by rw [hsync]; decide)
  obtain ⟨hpc, hp6⟩ := prsc_cast p hp0 hp1
  have hM := Motor.pwmMaxcntOf_lt mo (wrap64 (period * u.nanos)) p
  obtain ⟨hw1, hw2, hw3⟩ := period_word mo._regmap.ctrl._regCache
    (mo.pwmMaxcntOf (wrap64 (period * u.nanos)) p) p.toNat hc hM hp6
  rw [hpc] at hrun
  generalize hW : insertValue (insertValue mo._regmap.ctrl._regCache
      (mo.pwmMaxcntOf (wrap64 (period * u.nanos)) p % 2 ^ 16)
      CtrlReg.PwmMaxcnt.Pos CtrlReg.PwmMaxcnt.Mask)
      (p.toNat % 2 ^ 8) CtrlReg.PwmPrsc.Pos CtrlReg.PwmPrsc.Mask = W at hrun hw1 hw2 hw3
  have hcs := Register.flushCache_cases
    (Register.mk mo._regmap.ctrl.kind mo._regmap.ctrl._addr W CacheState.modified)
    mo._regmap._fpgaObjPtr
  rcases hcs with hwr | hwr
  · rw [Register.flushCache_ok _ _ hwr] at hrun
    simp only at hrun
    rw [Motor.pwmDutyGet_valid _ d (by exact hduty)] at hrun
    simp only at hrun
    obtain ⟨hcases, hctrl, _, hsucc⟩ := Motor.pwmDuty_sync
      (mo.withCtrl (Register.mk mo._regmap.ctrl.kind mo._regmap.ctrl._addr W
          CacheState.sync)._flushCacheCallBack
        (mo._regmap._fpgaObjPtr.write32 mo._regmap.ctrl._addr W).2) d hd0 hd1
      (Register.flushCallBack_status
        (Register.mk mo._regmap.ctrl.kind mo._regmap.ctrl._addr W CacheState.modified))
    rw [← hrun] at hcases hctrl hsucc
    refine ⟨hcases, fun hok => ?_⟩
    obtain ⟨w2, hlog, hval, hdut⟩ := hsucc hok
    refine ⟨W, w2, ?_, hw1, ?_, hw3, ?_, ?_, ?_⟩
    · rw [hlog]
      simp [Motor.withCtrl, Fpgasoc.write32_log]
    · rw [hw2]
      exact Int.toNat_of_nonneg hp0
    · rw [hval]
      simp only [Motor.withCtrl, Register.flushCallBack_fields, hw1]
    · rw [hctrl]
      exact Register.flushCallBack_status
        (Register.mk mo._regmap.ctrl.kind mo._regmap.ctrl._addr W CacheState.modified)
    · rw [Motor.pwmDutyGet_valid _ d hdut]
  · rw [Register.flushCache_error _ _ _ hwr] at hrun
    simp only at hrun
    rw [hrun]
    exact ⟨Or.inr rfl, fun hok => by simp at hok⟩


/-- C19 (witness): on `halfDutyMotor` (clock 50 MHz, Ctrl cache `0x0FFFF000`, duty 50)
`pwmPeriod(1000 ns, 0)` writes the Ctrl word `0x00019000` (max-count 25, prescaler 0), then
reads PwmCmp and writes the comparator 12 to it. -/
theorem pwmPeriod_combined_write_witness :
    (halfDutyMotor.pwmPeriod Motor.PeriodType.nanoseconds 1000 0).2._regmap._fpgaObjPtr.log =
      halfDutyMotor._regmap._fpgaObjPtr.log ++
        [BusOp.write32 8 0x00019000, BusOp.read32 4, BusOp.write32 4 12] ∧
    ∃ word w2 : Nat,
      (halfDutyMotor.pwmPeriod Motor.PeriodType.nanoseconds 1000 0).2._regmap._fpgaObjPtr.log =
        halfDutyMotor._regmap._fpgaObjPtr.log ++
          [BusOp.write32 halfDutyMotor._regmap.ctrl._addr word,
            BusOp.read32 halfDutyMotor._regmap.pwmCmp._addr,
            BusOp.write32 halfDutyMotor._regmap.pwmCmp._addr w2] ∧
      pickupValue word CtrlReg.PwmMaxcnt.Pos CtrlReg.PwmMaxcnt.Mask =
        halfDutyMotor.pwmMaxcntOf (wrap64 (1000 * Motor.PeriodType.nanoseconds.nanos)) 0 ∧
      (pickupValue word CtrlReg.PwmPrsc.Pos CtrlReg.PwmPrsc.Mask : Int) = 0 ∧
      (∀ i : Nat, (i < 6 ∨ 28 ≤ i) →
        word.testBit i = halfDutyMotor._regmap.ctrl._regCache.testBit i) ∧
      ((pickupValue w2 PwmCmpReg.PwmCmp.Pos PwmCmpReg.PwmCmp.Mask : Nat) : Int) =
        (if (50 : Int) = 100 then
          (halfDutyMotor.pwmMaxcntOf (wrap64 (1000 * Motor.PeriodType.nanoseconds.nanos)) 0
            : Int) + 1
          else (halfDutyMotor.pwmMaxcntOf
            (wrap64 (1000 * Motor.PeriodType.nanoseconds.nanos)) 0 : Int) * 50 / 100) ∧
      (halfDutyMotor.pwmPeriod Motor.PeriodType.nanoseconds 1000 0).2._regmap.ctrl.cacheStatus
        = CacheState.sync ∧
      ((halfDutyMotor.pwmPeriod Motor.PeriodType.nanoseconds 1000 0).2.pwmDutyGet).1
        = Except.ok 50 :=
  ⟨by decide,
   (pwmPeriod_combined_write halfDutyMotor Motor.PeriodType.nanoseconds 1000 0 50
      (by decide) (by decide) (by decide) (by decide) (by decide) (by decide) (by decide)
      (by decide) (by decide) (by decide) (by decide)).2.2.2 (by decide)⟩


/-! ## The period arithmetic without overflow (prescaler 0..16) -/

theorem period_scale_lt (k : Nat) (hk : k ≤ 16) :
    (0xFFFF : Int) * 10 ^ 9 * 2 ^ (k + 1) < 2 ^ 63 := by
  have h1 : (2 : Int) ^ (k + 1) ≤ 2 ^ 17 := pow_le_pow_right₀ (by norm_num) (by omega)
  have h2 : (0 : Int) < 2 ^ (k + 1) := by positivity
  nlinarith

/-- For a prescaler in 0..16 the bound computed by the setter is the exact one. -/
theorem Motor.periodMaxCountNs_eq (mo : Motor) (p : Int) (hclk0 : 0 < mo._clkFq)
    (hclk1 : mo._clkFq < 2 ^ 63) (hp0 : 0 ≤ p) (hp1 : p ≤ 16) :
    mo.periodMaxCountNs p = 0xFFFF * 10 ^ 9 * 2 ^ (p.toNat + 1) / mo._clkFq := by
  have hk : p.toNat ≤ 16 := by omega
  have hX := period_scale_lt p.toNat hk
  have hX0 : (0 : Int) ≤ 0xFFFF * 10 ^ 9 * 2 ^ (p.toNat + 1) := by positivity
  have hc : wrap64 (nano_num * mo._clkFq) = mo._clkFq := by
    simp only [nano_num, one_mul]
    exact wrap64_eq (by omega) hclk1
  have hk1 : (p + 1).toNat = p.toNat + 1 := by omega
  have hs : shl64 (wrap64 (Motor._MaxPwmMaxcnt * nano_den)) (p + 1) =
      0xFFFF * 10 ^ 9 * 2 ^ (p.toNat + 1) := by
    have : wrap64 (Motor._MaxPwmMaxcnt * nano_den) = 0xFFFF * 10 ^ 9 := by decide
    unfold shl64
    rw [this, hk1]
    exact wrap64_eq (by omega) hX
  unfold Motor.periodMaxCountNs
  rw [hc, hs]
  unfold div64
  rw [Int.tdiv_eq_ediv hX0 (le_of_lt hclk0)]
  have h1 : 0xFFFF * 10 ^ 9 * 2 ^ (p.toNat + 1) / mo._clkFq ≤
      0xFFFF * 10 ^ 9 * 2 ^ (p.toNat + 1) := Int.ediv_le_self _ hX0
  have h2 : 0 ≤ 0xFFFF * 10 ^ 9 * 2 ^ (p.toNat + 1) / mo._clkFq :=
    Int.ediv_nonneg hX0 (le_of_lt hclk0)
  exact wrap64_eq (by omega) (by omega)


theorem int_div_div (a b c : Int) (ha : 0 ≤ a) (hb : 0 ≤ b) (hc : 0 ≤ c) :
    a / b / c = a / (b * c) := by
  lift a to ℕ using ha
  lift b to ℕ using hb
  lift c to ℕ using hc
  exact_mod_cast Nat.div_div_eq_div_mul a b c

theorem div64_nonneg {x c : Int} (hx0 : 0 ≤ x) (hx1 : x < 2 ^ 63) (hc : 0 < c) :
    div64 x c = x / c := by
  unfold div64
  rw [Int.tdiv_eq_ediv hx0 (le_of_lt hc)]
  have h1 : x / c ≤ x := Int.ediv_le_self _ hx0
  have h2 : 0 ≤ x / c := Int.ediv_nonneg hx0 (le_of_lt hc)
  exact wrap64_eq (by omega) (by omega)

/-- For a prescaler in 0..16 and a period within the exact bound, the max-count computed by
the setter is `floor(n * clock / (10^9 * 2^(p+1)))`, and it is at most `0xFFFF`. -/
theorem Motor.pwmMaxcntOf_eq (mo : Motor) (n p : Int) (hclk0 : 0 < mo._clkFq)
    (hp0 : 0 ≤ p) (hp1 : p ≤ 16) (hn0 : 0 ≤ n)
    (hn1 : n ≤ 0xFFFF * 10 ^ 9 * 2 ^ (p.toNat + 1) / mo._clkFq) :
    (mo.pwmMaxcntOf n p : Int) = n * mo._clkFq / (10 ^ 9 * 2 ^ (p.toNat + 1)) ∧
      mo.pwmMaxcntOf n p ≤ 0xFFFF := by
  have hk : p.toNat ≤ 16 := by omega
  have hX := period_scale_lt p.toNat hk
  have hmul : n * mo._clkFq ≤ 0xFFFF * 10 ^ 9 * 2 ^ (p.toNat + 1) :=
    (Int.le_ediv_iff_mul_le hclk0).1 hn1
  have hmul0 : 0 ≤ n * mo._clkFq := mul_nonneg hn0 (le_of_lt hclk0)
  have hk1 : (p + 1).toNat = p.toNat + 1 := by omega
  have hpow : (0 : Int) < 10 ^ 9 * 2 ^ (p.toNat + 1) := by positivity
  have hq : n * mo._clkFq / (10 ^ 9 * 2 ^ (p.toNat + 1)) ≤ 0xFFFF := by
    have h1 := Int.ediv_le_ediv hpow hmul
    have h2 : (0xFFFF : Int) * 10 ^ 9 * 2 ^ (p.toNat + 1) / (10 ^ 9 * 2 ^ (p.toNat + 1))
        = 0xFFFF := by
      rw [mul_assoc]
      exact Int.mul_ediv_cancel _ (ne_of_gt hpow)
    omega
  have hq0 : 0 ≤ n * mo._clkFq / (10 ^ 9 * 2 ^ (p.toNat + 1)) :=
    Int.ediv_nonneg hmul0 (le_of_lt hpow)
  have hval : sar64 (div64 (wrap64 (wrap64 (n * mo._clkFq) * nano_num)) nano_den) (p + 1) =
      n * mo._clkFq / (10 ^ 9 * 2 ^ (p.toNat + 1)) := by
    have hw : wrap64 (n * mo._clkFq) = n * mo._clkFq := wrap64_eq (by omega) (by omega)
    simp only [nano_num, mul_one, hw, nano_den]
    rw [div64_nonneg hmul0 (by omega) (by norm_num)]
    unfold sar64
    rw [hk1]
    exact int_div_div _ _ _ hmul0 (by norm_num) (by positivity)
  unfold Motor.pwmMaxcntOf
  rw [hval, Int.emod_eq_of_lt hq0 (by omega)]
  constructor
  · exact Int.toNat_of_nonneg hq0
  · omega

/-- For a prescaler in 0..16 the period computed by the getter from the max-count `M` is
`floor(M * 10^9 * 2^(p+1) / clock)`. -/
theorem Motor.countNsOf_eq (mo : Motor) (M k : Nat) (hclk0 : 0 < mo._clkFq)
    (hclk1 : mo._clkFq < 2 ^ 63) (hM : M ≤ 0xFFFF) (hk : k ≤ 16) :
    mo.countNsOf M k = (M : Int) * 10 ^ 9 * 2 ^ (k + 1) / mo._clkFq := by
  have hX := period_scale_lt k hk
  have hM' : (M : Int) ≤ 0xFFFF := by exact_mod_cast hM
  have hM0 : (0 : Int) ≤ M := Int.natCast_nonneg M
  have hpos : (0 : Int) < 10 ^ 9 * 2 ^ (k + 1) := by positivity
  have hle : (M : Int) * 10 ^ 9 * 2 ^ (k + 1) ≤ 0xFFFF * 10 ^ 9 * 2 ^ (k + 1) := by
    rw [mul_assoc, mul_assoc]
    exact mul_le_mul_of_nonneg_right hM' (le_of_lt hpos)
  have h0 : (0 : Int) ≤ (M : Int) * 10 ^ 9 * 2 ^ (k + 1) :=
    mul_nonneg (mul_nonneg hM0 (by norm_num)) (le_of_lt (by positivity))
  have hc : wrap64 (nano_num * mo._clkFq) = mo._clkFq := by
    simp only [nano_num, one_mul]
    exact wrap64_eq (by omega) hclk1
  have hw : wrap64 ((M : Int) * nano_den) = (M : Int) * 10 ^ 9 := by
    simp only [nano_den]
    exact wrap64_eq (by omega) (by omega)
  have hk1 : ((k : Int) + 1).toNat = k + 1 := by omega
  unfold Motor.countNsOf
  rw [hc, hw]
  unfold shl64
  rw [hk1, wrap64_eq (by omega) (by omega)]
  exact div64_nonneg h0 (by omega) hclk0


/-! ## The setters on a memory bus -/

theorem lastWritten_append (l1 l2 : List BusOp) (dflt addr : Nat) :
    lastWritten dflt addr (l1 ++ l2) = lastWritten (lastWritten dflt addr l1) addr l2 := by
  induction l1 generalizing dflt with
  | nil => rfl
  | cons op rest ih =>
    cases op with
    | read32 a => simpa [lastWritten] using ih dflt
    | write32 a v => simpa [lastWritten] using ih _

theorem Register.flushCache_memBus (r : Register) (init : Nat → Nat) (log : List BusOp) :
    r.flushCache (memBus init log) =
      (Except.ok (),
        ({ r with _cacheStatus := CacheState.sync } : Register)._flushCacheCallBack,
        memBus init (log ++ [BusOp.write32 r._addr r._regCache])) := by
  have h := Register.flushCache_ok r (memBus init log) (by rw [memBus_write32])
  rw [h, memBus_write32]

theorem PwmCmpReg.pwmCmp_memBus (r : Register) (init : Nat → Nat) (log : List BusOp)
    (val : Nat) :
    ∃ (r1 : Register) (w : Nat),
      PwmCmpReg.pwmCmp r (memBus init log) val false =
        (Except.ok (), r1,
          memBus init (log ++ [BusOp.read32 r._addr, BusOp.write32 r._addr w])) := by
  have h := PwmCmpReg.pwmCmp_bus_ok r (memBus init log) val
    (lastWritten (init r._addr) r._addr log % 2 ^ 32) rfl
  rw [memBus_read32, Register.reg_memBus] at h
  simp only [List.append_assoc, List.singleton_append] at h
  exact ⟨_, _, h⟩

/-- After the max-count was fetched, `Motor::pwmDuty(d)` with `d` in 0..100 succeeds on a
memory bus, with one read and one write of PwmCmp. -/
theorem pwmDuty_tail_memBus (mo1 : Motor) (d : Int) (m : Nat) (hm : m ≤ 0xFFFF)
    (hd0 : 0 ≤ d) (hd1 : d ≤ 100) (res : Except Exn Unit × Motor)
    (hres : res =
      match (if d = 100 then Except.ok ((m + 1) % 2 ^ 32)
        else if d ≥ 0 ∧ d < 100 then Except.ok ((m * (d % 2 ^ 32).toNat) % 2 ^ 32 / 100)
        else Except.error Exn.out_of_range : Except Exn Nat) with
      | Except.error e => (Except.error e, mo1)
      | Except.ok pwmCmp =>
        match PwmCmpReg.pwmCmp mo1._regmap.pwmCmp mo1._regmap._fpgaObjPtr pwmCmp false with
        | (Except.error e, r2, f2) => (Except.error e, mo1.withPwmCmp r2 f2)
        | (Except.ok _, r2, f2) =>
          (Except.ok (), { mo1.withPwmCmp r2 f2 with _pwmDuty := (true, d) }))
    (init : Nat → Nat) (log : List BusOp) (hbus : mo1._regmap._fpgaObjPtr = memBus init log) :
    ∃ w : Nat, res.1 = Except.ok () ∧
      res.2._regmap._fpgaObjPtr = memBus init (log ++
        [BusOp.read32 mo1._regmap.pwmCmp._addr, BusOp.write32 mo1._regmap.pwmCmp._addr w]) := by
  obtain ⟨c, _, _, hce⟩ := pwmDuty_computed m d hm hd0 hd1
  rw [hce] at hres
  simp only at hres
  obtain ⟨r1, w, hp⟩ := PwmCmpReg.pwmCmp_memBus mo1._regmap.pwmCmp init log c
  rw [hbus, hp] at hres
  simp only at hres
  rw [hres]
  exact ⟨w, rfl, rfl⟩

/-- The setter `pwmDuty(d)`, `d` in 0..100, on a memory bus and a `sync` Ctrl: it succeeds,
reads and writes PwmCmp, and leaves Ctrl and the clock frequency alone. -/
theorem Motor.pwmDuty_memBus (mo : Motor) (d : Int) (hd0 : 0 ≤ d) (hd1 : d ≤ 100)
    (hs : mo._regmap.ctrl.cacheStatus = CacheState.sync)
    (init : Nat → Nat) (log : List BusOp) (hbus : mo._regmap._fpgaObjPtr = memBus init log) :
    ∃ w : Nat, (mo.pwmDuty d).1 = Except.ok () ∧
      (mo.pwmDuty d).2._regmap._fpgaObjPtr = memBus init (log ++
        [BusOp.read32 mo._regmap.pwmCmp._addr, BusOp.write32 mo._regmap.pwmCmp._addr w]) ∧
      (mo.pwmDuty d).2._regmap.ctrl = mo._regmap.ctrl ∧
      (mo.pwmDuty d).2._clkFq = mo._clkFq := by
  have hm := pickupValue_PwmMaxcnt_le mo._regmap.ctrl._regCache
  obtain ⟨_, hctrl, hclk, _⟩ := Motor.pwmDuty_sync mo d hd0 hd1 hs
  obtain ⟨w, hok, hb⟩ := pwmDuty_tail_memBus
    (mo.withCtrl mo._regmap.ctrl mo._regmap._fpgaObjPtr) d _ hm hd0 hd1 (mo.pwmDuty d)
    (by simp only [Motor.pwmDuty, hs, CtrlReg.pwmMaxcntRead_cache]; rfl) init log hbus
  exact ⟨w, hok, hb, hctrl, hclk⟩


/-- The getter `pwmPeriod()` when Ctrl is not `modified` and the bus read of Ctrl returns the
word `W`: the period comes from the two fields of `W`. -/
theorem Motor.pwmPeriodGet_read (mo : Motor) (u : Motor.PeriodType) (W : Nat)
    (hst : mo._regmap.ctrl.cacheStatus ≠ CacheState.modified)
    (hr : (mo._regmap._fpgaObjPtr.read32 mo._regmap.ctrl._addr).1 = Except.ok W) :
    (mo.pwmPeriodGet u).1 = Except.ok
      (Int.tdiv (mo.countNsOf (pickupValue W CtrlReg.PwmMaxcnt.Pos CtrlReg.PwmMaxcnt.Mask)
          (pickupValue W CtrlReg.PwmPrsc.Pos CtrlReg.PwmPrsc.Mask % 2 ^ 8)) u.nanos,
        ((pickupValue W CtrlReg.PwmPrsc.Pos CtrlReg.PwmPrsc.Mask % 2 ^ 8 : Nat) : Int)) := by
  simp only [Motor.pwmPeriodGet, hst, ne_eq, not_false_eq_true, if_true,
    Register.updateCache_ok _ _ W hr, Motor.withCtrl, CtrlReg.pwmPrscRead,
    Register.regRead_cache, CtrlReg.pwmMaxcntRead_cache, Motor.countNsOf]

/-- The setter `pwmPeriod` on a memory bus, for a motor with a cached duty in 0..100 and a
Ctrl that is not `modified`, once the range checks have passed: it succeeds, and afterwards
the bus holds the flushed word at the Ctrl address, Ctrl is `sync` and the clock is
unchanged. -/
theorem Motor.pwmPeriod_memBus (mo : Motor) (u : Motor.PeriodType) (period p d : Int)
    (init : Nat → Nat) (log : List BusOp) (hbus : mo._regmap._fpgaObjPtr = memBus init log)
    (haddr : mo._regmap.pwmCmp._addr ≠ mo._regmap.ctrl._addr)
    (hst : mo._regmap.ctrl.cacheStatus ≠ CacheState.modified)
    (hduty : mo._pwmDuty = (true, d)) (hd0 : 0 ≤ d) (hd1 : d ≤ 100)
    (hp0 : 0 ≤ p) (hp1 : p ≤ 32)
    (hn : wrap64 (period * u.nanos) ≤ mo.periodMaxCountNs p) :
    (mo.pwmPeriod u period p).1 = Except.ok () ∧
    (mo.pwmPeriod u period p).2._regmap.ctrl.cacheStatus = CacheState.sync ∧
    (mo.pwmPeriod u period p).2._regmap.ctrl._addr = mo._regmap.ctrl._addr ∧
    (mo.pwmPeriod u period p).2._clkFq = mo._clkFq ∧
    ((mo.pwmPeriod u period p).2._regmap._fpgaObjPtr.read32 mo._regmap.ctrl._addr).1 =
      Except.ok (insertValue (insertValue mo._regmap.ctrl._regCache
        (mo.pwmMaxcntOf (wrap64 (period * u.nanos)) p % 2 ^ 16)
        CtrlReg.PwmMaxcnt.Pos CtrlReg.PwmMaxcnt.Mask)
        (p.toNat % 2 ^ 8) CtrlReg.PwmPrsc.Pos CtrlReg.PwmPrsc.Mask) := by
  have hrun := Motor.pwmPeriod_run mo u period p
    (by simp only [Motor._MinPrscSel]; exact hp0) (by simp only [Motor._MaxPrscSel]; exact hp1)
    hn hst
  obtain ⟨hpc, _⟩ := prsc_cast p hp0 hp1
  rw [hpc] at hrun
  generalize hW : insertValue (insertValue mo._regmap.ctrl._regCache
      (mo.pwmMaxcntOf (wrap64 (period * u.nanos)) p % 2 ^ 16)
      CtrlReg.PwmMaxcnt.Pos CtrlReg.PwmMaxcnt.Mask)
      (p.toNat % 2 ^ 8) CtrlReg.PwmPrsc.Pos CtrlReg.PwmPrsc.Mask = W at hrun ⊢
  have hWlt : W < 2 ^ 32 := by
    rw [← hW]
    exact insertValue_lt _ _ _ _
  rw [hbus, Register.flushCache_memBus] at hrun
  simp only at hrun
  rw [Motor.pwmDutyGet_valid _ d (by exact hduty)] at hrun
  simp only at hrun
  obtain ⟨w, hok, hb, hctrl, hclk⟩ := Motor.pwmDuty_memBus
    (mo.withCtrl (Register.mk mo._regmap.ctrl.kind mo._regmap.ctrl._addr W
        CacheState.sync)._flushCacheCallBack
      (memBus init (log ++ [BusOp.write32 mo._regmap.ctrl._addr W]))) d hd0 hd1
    (Register.flushCallBack_status
      (Register.mk mo._regmap.ctrl.kind mo._regmap.ctrl._addr W CacheState.modified))
    init (log ++ [BusOp.write32 mo._regmap.ctrl._addr W]) rfl
  rw [← hrun] at hok hb hctrl hclk
  refine ⟨hok, ?_, ?_, hclk, ?_⟩
  · rw [hctrl]
    exact Register.flushCallBack_status
      (Register.mk mo._regmap.ctrl.kind mo._regmap.ctrl._addr W CacheState.modified)
  · rw [hctrl]
    exact Register.flushCallBack_addr _
  · rw [hb, memBus_read32, lastWritten_append, lastWritten_append_write]
    simp only [Motor.withCtrl, lastWritten, haddr, if_false]
    rw [Nat.mod_eq_of_lt hWlt]


/-! ## C11: PWM period round trip -/

/-- C11 (counterexample): on `demoMotor` (memory bus, 50 MHz) the period 1001 ns with
prescaler 0 is within the bound 2621400 ns; `pwmPeriod(1001 ns, 0)` succeeds, and
`pwmPeriod<nanoseconds>()` then returns (1000 ns, 0), not (1001 ns, 0). On `zeroMotor`, which
has no cached duty, `pwmPeriod(0 ns, 0)` itself fails after the Ctrl write, when the duty is
re-applied. -/
theorem pwmPeriod_roundtrip_truncates :
    (1001 : Int) ≤ 0xFFFF * 2 ^ (0 + 1) * 10 ^ 9 / demoMotor._clkFq ∧
    (demoMotor.pwmPeriod Motor.PeriodType.nanoseconds 1001 0).1 = Except.ok () ∧
    ((demoMotor.pwmPeriod Motor.PeriodType.nanoseconds 1001 0).2.pwmPeriodGet
      Motor.PeriodType.nanoseconds).1 = Except.ok (1000, 0) ∧
    ((demoMotor.pwmPeriod Motor.PeriodType.nanoseconds 1001 0).2.pwmPeriodGet
      Motor.PeriodType.nanoseconds).1 ≠ Except.ok (1001, 0) ∧
    (zeroMotor.pwmPeriod Motor.PeriodType.nanoseconds 0 0).1 =
      Except.error Exn.runtime_error := by
  decide

/-- C11 (amended): on a memory bus, for every clock frequency `0 < clock_hz < 2^63`, every
prescaler `p` in 0..16 and every period of `n` nanoseconds with
`0 ≤ n ≤ floor(0xFFFF * 2^(p+1) * 10^9 / clock_hz)`, on a motor whose Ctrl is not `modified`
(cache a 32-bit word, address apart from PwmCmp) and whose cached duty is in 0..100,
`pwmPeriod(n ns, p)` succeeds and the following `pwmPeriod<nanoseconds>()` returns
`(n' ns, p)` with `n' = floor(M * 10^9 * 2^(p+1) / clock_hz)`, where
`M = floor(n * clock_hz / (10^9 * 2^(p+1)))` is the max-count written; `n' ≤ n`. -/
theorem pwmPeriod_roundtrip (mo : Motor) (init : Nat → Nat) (log : List BusOp) (p n d : Int)
    (hbus : mo._regmap._fpgaObjPtr = memBus init log)
    (haddr : mo._regmap.pwmCmp._addr ≠ mo._regmap.ctrl._addr)
    (hst : mo._regmap.ctrl.cacheStatus ≠ CacheState.modified)
    (hc : mo._regmap.ctrl._regCache < 2 ^ 32)
    (hduty : mo._pwmDuty = (true, d)) (hd0 : 0 ≤ d) (hd1 : d ≤ 100)
    (hclk0 : 0 < mo._clkFq) (hclk1 : mo._clkFq < 2 ^ 63) (hp0 : 0 ≤ p) (hp1 : p ≤ 16)
    (hn0 : 0 ≤ n) (hn1 : n ≤ 0xFFFF * 2 ^ (p.toNat + 1) * 10 ^ 9 / mo._clkFq) :
    (mo.pwmPeriod Motor.PeriodType.nanoseconds n p).1 = Except.ok () ∧
    ((mo.pwmPeriod Motor.PeriodType.nanoseconds n p).2.pwmPeriodGet
      Motor.PeriodType.nanoseconds).1 =
      Except.ok (n * mo._clkFq / (10 ^ 9 * 2 ^ (p.toNat + 1)) * 10 ^ 9 * 2 ^ (p.toNat + 1)
        / mo._clkFq, p) ∧
    n * mo._clkFq / (10 ^ 9 * 2 ^ (p.toNat + 1)) * 10 ^ 9 * 2 ^ (p.toNat + 1) / mo._clkFq
      ≤ n := by
  have hre : (0xFFFF : Int) * 2 ^ (p.toNat + 1) * 10 ^ 9 = 0xFFFF * 10 ^ 9 * 2 ^ (p.toNat + 1) := by
    ring
  rw [hre] at hn1
  have hk : p.toNat ≤ 16 := by omega
  have hX := period_scale_lt p.toNat hk
  have hX0 : (0 : Int) ≤ 0xFFFF * 10 ^ 9 * 2 ^ (p.toNat + 1) := by positivity
  have hnlt : n < 2 ^ 63 := by
    have : 0xFFFF * 10 ^ 9 * 2 ^ (p.toNat + 1) / mo._clkFq ≤
        0xFFFF * 10 ^ 9 * 2 ^ (p.toNat + 1) := Int.ediv_le_self _ hX0
    omega
  have hns : wrap64 (n * Motor.PeriodType.nanoseconds.nanos) = n := by
    simp only [Motor.PeriodType.nanos, mul_one]
    exact wrap64_eq (by omega) hnlt
  have hcheck : wrap64 (n * Motor.PeriodType.nanoseconds.nanos) ≤ mo.periodMaxCountNs p := by
    rw [hns, Motor.periodMaxCountNs_eq mo p hclk0 hclk1 hp0 hp1]
    exact hn1
  obtain ⟨hok, hsync, haddr', hclk, hrd⟩ := Motor.pwmPeriod_memBus mo
    Motor.PeriodType.nanoseconds n p d init log hbus haddr hst hduty hd0 hd1 hp0 (by omega)
    hcheck
  obtain ⟨hMeq, hMle⟩ := Motor.pwmMaxcntOf_eq mo n p hclk0 hp0 hp1 hn0 hn1
  have hM := Motor.pwmMaxcntOf_lt mo n p
  obtain ⟨_, hp6⟩ := prsc_cast p hp0 (by omega)
  obtain ⟨hw1, hw2, _⟩ := period_word mo._regmap.ctrl._regCache (mo.pwmMaxcntOf n p)
    p.toNat hc hM hp6
  rw [hns] at hrd
  have hget := Motor.pwmPeriodGet_read
    (mo.pwmPeriod Motor.PeriodType.nanoseconds n p).2 Motor.PeriodType.nanoseconds _
    (by rw [hsync]; decide) (by rw [haddr']; exact hrd)
  have hp8 : p.toNat % 2 ^ 8 = p.toNat := Nat.mod_eq_of_lt (by omega)
  have hcount := Motor.countNsOf_eq (mo.pwmPeriod Motor.PeriodType.nanoseconds n p).2
    (mo.pwmMaxcntOf n p) p.toNat (by rw [hclk]; exact hclk0) (by rw [hclk]; exact hclk1)
    hMle hk
  rw [hclk, hMeq] at hcount
  refine ⟨hok, ?_, ?_⟩
  · rw [hget, hw1, hw2, hp8, hcount]
    simp only [Motor.PeriodType.nanos, Int.tdiv_one, Int.toNat_of_nonneg hp0]
  · have hT : (0 : Int) < 10 ^ 9 * 2 ^ (p.toNat + 1) := by positivity
    have h1 : n * mo._clkFq / (10 ^ 9 * 2 ^ (p.toNat + 1)) * (10 ^ 9 * 2 ^ (p.toNat + 1))
        ≤ n * mo._clkFq := Int.ediv_mul_le _ (ne_of_gt hT)
    have h2 : n * mo._clkFq / (10 ^ 9 * 2 ^ (p.toNat + 1)) * 10 ^ 9 * 2 ^ (p.toNat + 1)
        ≤ n * mo._clkFq := by
      rw [mul_assoc]
      exact h1
    have h3 := Int.ediv_le_ediv hclk0 h2
    rw [Int.mul_ediv_cancel _ (ne_of_gt hclk0)] at h3
    exact h3

/-- C11 (witness): on `halfDutyMotor` the period 1000 ns with prescaler 0 is read back as
1000 ns, and the period 1001 ns as 1000 ns. -/
theorem pwmPeriod_roundtrip_witness :
    ((halfDutyMotor.pwmPeriod Motor.PeriodType.nanoseconds 1000 0).2.pwmPeriodGet
      Motor.PeriodType.nanoseconds).1 =
      Except.ok (1000 * halfDutyMotor._clkFq / (10 ^ 9 * 2 ^ ((0 : Int).toNat + 1)) * 10 ^ 9 *
        2 ^ ((0 : Int).toNat + 1) / halfDutyMotor._clkFq, 0) ∧
    ((halfDutyMotor.pwmPeriod Motor.PeriodType.nanoseconds 1001 0).2.pwmPeriodGet
      Motor.PeriodType.nanoseconds).1 = Except.ok (1000, 0) :=
  ⟨(pwmPeriod_roundtrip halfDutyMotor (fun a => if a = 8 then 0x0FFFF000 else 0)
      [BusOp.read32 12, BusOp.read32 4, BusOp.read32 8, BusOp.read32 4, BusOp.write32 4 32767]
      0 1000 50 rfl (by decide) (by decide) (by decide) (by decide) (by decide) (by decide)
      (by decide) (by decide) (by decide) (by decide) (by decide) (by decide)).2.1,
   by decide⟩

/-! ## C13: the range computation overflows for prescalers above 16 -/

/-- C13 (code at the failing input): on `demoMotor` (50 MHz, Ctrl `sync`) the period
10^9 ns with prescaler 17 is within the bound `floor(0xFFFF * 2^18 * 10^9 / clock_hz)`, but
the 64-bit shift `(0xFFFF * 10^9) << 18` wraps to a negative value, the bound computed by the
code is negative and `pwmPeriod(10^9 ns, 17)` is rejected as out of range without any bus
call. With prescaler 16 the same period is accepted and the Ctrl word written has
PWM_PRSC 16 and PWM_MAXCNT 381 = floor(10^9 * clock_hz / (2^17 * 10^9)). -/
theorem pwmPeriod_prescaler17_rejected :
    (1000000000 : Int) ≤ 0xFFFF * 2 ^ (17 + 1) * 10 ^ 9 / demoMotor._clkFq ∧
    demoMotor._regmap.ctrl.cacheStatus = CacheState.sync ∧
    demoMotor.periodMaxCountNs 17 < 0 ∧
    (demoMotor.pwmPeriod Motor.PeriodType.nanoseconds 1000000000 17).1 =
      Except.error Exn.out_of_range ∧
    (demoMotor.pwmPeriod Motor.PeriodType.nanoseconds 1000000000 17).2._regmap._fpgaObjPtr.log
      = demoMotor._regmap._fpgaObjPtr.log ∧
    (demoMotor.pwmPeriod Motor.PeriodType.nanoseconds 1000000000 16).1 = Except.ok () ∧
    (demoMotor.pwmPeriod Motor.PeriodType.nanoseconds 1000000000 16).2._regmap._fpgaObjPtr.log
      = demoMotor._regmap._fpgaObjPtr.log ++
        [BusOp.write32 8 (381 * 2 ^ 12 + 16 * 2 ^ 6), BusOp.read32 4, BusOp.write32 4 0] := by
  decide

/-! ## C21: the declared field layout -/

/-- C21: each of the eleven declared fields has the listed position and width — FreqTgt (0,32);
PWM_CMP (0,17); Ctrl EN (0,1), PHASE (2,3), W_PHASE (5,1), PWM_PRSC (6,6), PWM_MAXCNT (12,16);
Stat STOP (0,1), REFLECTEDFREQ (1,1), DEADTIME (20,4), RELCNT (24,8) — and its declared mask is
`(2^Width - 1) * 2^Pos` as a 32-bit value; the masks of Ctrl are pairwise disjoint and so are
the masks of Stat (FreqTgt and PwmCmp have one field each); in the Ctrl reset value
`0x0FFFF000` the PWM_MAXCNT field is all ones and every other field is zero. -/
theorem field_layout :
    ((FreqtgtReg.Freqtgt.Pos, FreqtgtReg.Freqtgt.Width) = (0, 32) ∧
      (PwmCmpReg.PwmCmp.Pos, PwmCmpReg.PwmCmp.Width) = (0, 17) ∧
      (CtrlReg.En.Pos, CtrlReg.En.Width) = (0, 1) ∧
      (CtrlReg.Phase.Pos, CtrlReg.Phase.Width) = (2, 3) ∧
      (CtrlReg.WPhase.Pos, CtrlReg.WPhase.Width) = (5, 1) ∧
      (CtrlReg.PwmPrsc.Pos, CtrlReg.PwmPrsc.Width) = (6, 6) ∧
      (CtrlReg.PwmMaxcnt.Pos, CtrlReg.PwmMaxcnt.Width) = (12, 16) ∧
      (StatReg.Stop.Pos, StatReg.Stop.Width) = (0, 1) ∧
      (StatReg.Reflectedfreq.Pos, StatReg.Reflectedfreq.Width) = (1, 1) ∧
      (StatReg.Deadtime.Pos, StatReg.Deadtime.Width) = (20, 4) ∧
      (StatReg.RelCnt.Pos, StatReg.RelCnt.Width) = (24, 8)) ∧
    (declaredFields.length = 11 ∧
      declaredFields.map Bit.Mask =
        [0xFFFFFFFF, 0x0001FFFF, 0x00000001, 0x0000001C, 0x00000020, 0x00000FC0, 0x0FFFF000,
          0x00000001, 0x00000002, 0x00F00000, 0xFF000000] ∧
      ∀ b ∈ declaredFields, b.Mask = ((2 ^ b.Width - 1) * 2 ^ b.Pos) % 2 ^ 32) ∧
    ((CtrlReg.fields.map Bit.Mask).Pairwise (fun a b => a &&& b = 0) ∧
      (StatReg.fields.map Bit.Mask).Pairwise (fun a b => a &&& b = 0) ∧
      (FreqtgtReg.fields.map Bit.Mask).Pairwise (fun a b => a &&& b = 0) ∧
      (PwmCmpReg.fields.map Bit.Mask).Pairwise (fun a b => a &&& b = 0)) ∧
    (CtrlReg._ResetVal = 0x0FFFF000 ∧
      pickupValue CtrlReg._ResetVal CtrlReg.PwmMaxcnt.Pos CtrlReg.PwmMaxcnt.Mask
        = 2 ^ CtrlReg.PwmMaxcnt.Width - 1 ∧
      pickupValue CtrlReg._ResetVal CtrlReg.PwmPrsc.Pos CtrlReg.PwmPrsc.Mask = 0 ∧
      pickupValue CtrlReg._ResetVal CtrlReg.WPhase.Pos CtrlReg.WPhase.Mask = 0 ∧
      pickupValue CtrlReg._ResetVal CtrlReg.Phase.Pos CtrlReg.Phase.Mask = 0 ∧
      pickupValue CtrlReg._ResetVal CtrlReg.En.Pos CtrlReg.En.Mask = 0) := by
  refine ⟨by decide, by decide, by decide, by decide⟩

/-! ## Bus faults and the order of accessor states -/

theorem Fpgasoc.Later.id_later (f : Fpgasoc) : f.Later f :=
  ⟨rfl, rfl, [], (List.append_nil _).symm⟩

theorem Fpgasoc.Later.trans_later {f g h : Fpgasoc} (h1 : f.Later g) (h2 : g.Later h) : f.Later h := by
  obtain ⟨a1, b1, e1, c1⟩ := h1
  obtain ⟨a2, b2, e2, c2⟩ := h2
  exact ⟨a2.trans a1, b2.trans b1, e1 ++ e2, by rw [c2, c1, List.append_assoc]⟩

theorem Fpgasoc.faultsIn_congr (f g : Fpgasoc) (hr : g.readResp = f.readResp)
    (hw : g.writeResp = f.writeResp) (pre rest : List BusOp) :
    g.faultsIn pre rest = f.faultsIn pre rest := by
  induction rest generalizing pre with
  | nil => rfl
  | cons op rest ih =>
    have : g.fails pre op = f.fails pre op := by
      cases op <;> simp [Fpgasoc.fails, hr, hw]
    simp only [Fpgasoc.faultsIn, this, ih]

theorem Fpgasoc.faultsIn_append (f : Fpgasoc) (pre l1 l2 : List BusOp) :
    f.faultsIn pre (l1 ++ l2) = (f.faultsIn pre l1 || f.faultsIn (pre ++ l1) l2) := by
  induction l1 generalizing pre with
  | nil => simp [Fpgasoc.faultsIn]
  | cons op rest ih =>
    have e : pre ++ op :: rest = (pre ++ [op]) ++ rest := by simp
    rw [List.cons_append]
    simp only [Fpgasoc.faultsIn]
    rw [ih, e, Bool.or_assoc]

theorem Fpgasoc.LaterFaulted.to_later {f g : Fpgasoc} (h : f.LaterFaulted g) : f.Later g := by
  obtain ⟨a, b, e, c, _⟩ := h
  exact ⟨a, b, e, c⟩

theorem Fpgasoc.LaterFaulted.then_later {f g h : Fpgasoc} (h1 : f.LaterFaulted g)
    (h2 : g.Later h) : f.LaterFaulted h := by
  obtain ⟨a1, b1, e1, c1, d1⟩ := h1
  obtain ⟨a2, b2, e2, c2⟩ := h2
  refine ⟨a2.trans a1, b2.trans b1, e1 ++ e2, by rw [c2, c1, List.append_assoc], ?_⟩
  rw [Fpgasoc.faultsIn_append, d1, Bool.true_or]

theorem Fpgasoc.Later.then_faulted {f g h : Fpgasoc} (h1 : f.Later g)
    (h2 : g.LaterFaulted h) : f.LaterFaulted h := by
  obtain ⟨a1, b1, e1, c1⟩ := h1
  obtain ⟨a2, b2, e2, c2, d2⟩ := h2
  refine ⟨a2.trans a1, b2.trans b1, e1 ++ e2, by rw [c2, c1, List.append_assoc], ?_⟩
  have d : f.faultsIn g.log e2 = true := by
    rw [← Fpgasoc.faultsIn_congr f g a1 b1]
    exact d2
  rw [Fpgasoc.faultsIn_append, ← c1, d, Bool.or_true]

theorem Fpgasoc.read32_later (f : Fpgasoc) (addr : Nat) : f.Later (f.read32 addr).2 := by
  unfold Fpgasoc.read32
  split <;> exact ⟨rfl, rfl, [BusOp.read32 addr], rfl⟩

theorem Fpgasoc.read32_faulted (f : Fpgasoc) (addr : Nat) (e : Exn)
    (h : (f.read32 addr).1 = Except.error e) :
    e = Exn.range_error ∧ f.LaterFaulted (f.read32 addr).2 := by
  unfold Fpgasoc.read32 at h ⊢
  split at h
  · cases h
  · rename_i hnone
    simp only [Except.error.injEq] at h
    refine ⟨h.symm, rfl, rfl, [BusOp.read32 addr], ?_, ?_⟩
    · simp only [hnone]
    · simp [Fpgasoc.faultsIn, Fpgasoc.fails, hnone]

theorem Fpgasoc.write32_later (f : Fpgasoc) (addr val : Nat) :
    f.Later (f.write32 addr val).2 := by
  unfold Fpgasoc.write32
  split <;> exact ⟨rfl, rfl, [BusOp.write32 addr val], rfl⟩

theorem Fpgasoc.write32_faulted (f : Fpgasoc) (addr val : Nat) (e : Exn)
    (h : (f.write32 addr val).1 = Except.error e) :
    e = Exn.range_error ∧ f.LaterFaulted (f.write32 addr val).2 := by
  unfold Fpgasoc.write32 at h ⊢
  by_cases hw : f.writeResp f.log addr val = true
  · simp [hw] at h
  · have hw' : f.writeResp f.log addr val = false := by simpa using hw
    simp only [hw', Bool.false_eq_true, if_false, Except.error.injEq] at h ⊢
    refine ⟨h.symm, rfl, rfl, [BusOp.write32 addr val], rfl, ?_⟩
    simp [Fpgasoc.faultsIn, Fpgasoc.fails, hw']

theorem Fpgasoc.LaterFaulted.faultedSince_eq {f g : Fpgasoc} (h : f.LaterFaulted g) :
    g.faultedSince f.log.length = true := by
  obtain ⟨a, b, e, c, d⟩ := h
  unfold Fpgasoc.faultedSince
  rw [c, List.take_left, List.drop_left, Fpgasoc.faultsIn_congr f g a b, d]

theorem memBus_faultsIn (init : Nat → Nat) (log pre rest : List BusOp) :
    (memBus init log).faultsIn pre rest = false := by
  induction rest generalizing pre with
  | nil => rfl
  | cons op rest ih =>
    cases op <;> simp [Fpgasoc.faultsIn, Fpgasoc.fails, memBus, ih] <;> exact ih _

theorem memBus_not_faulted (init : Nat → Nat) (log : List BusOp) (g : Fpgasoc) :
    ¬ (memBus init log).LaterFaulted g := by
  rintro ⟨_, _, e, _, d⟩
  rw [memBus_faultsIn] at d
  cases d

theorem memBus_later (init : Nat → Nat) (log : List BusOp) (g : Fpgasoc)
    (h : (memBus init log).Later g) : ∃ ext : List BusOp, g = memBus init (log ++ ext) := by
  obtain ⟨a, b, e, c⟩ := h
  refine ⟨e, ?_⟩
  cases g
  simp only [memBus] at a b c ⊢
  simp only [a, b, c]

/-! ## What the register operations guarantee -/

theorem Register.updateCache_stepped (r : Register) (f : Fpgasoc) :
    r.Stepped f (r.updateCache f) := by
  unfold Register.updateCache
  split
  · rename_i e f1 heq
    have h1 : (f.read32 r._addr).1 = Except.error e := by rw [heq]
    have h2 : (f.read32 r._addr).2 = f1 := by rw [heq]
    refine ⟨h2 ▸ Fpgasoc.read32_later f _, rfl, Or.inl rfl, fun e' he' => ?_⟩
    simp only [Except.error.injEq] at he'
    subst he'
    exact h2 ▸ Fpgasoc.read32_faulted f _ e h1
  · rename_i v f1 heq
    have h2 : (f.read32 r._addr).2 = f1 := by rw [heq]
    refine ⟨h2 ▸ Fpgasoc.read32_later f _, rfl, Or.inr rfl, fun e' he' => ?_⟩
    cases he'

theorem Register.flushCallBack_sync (r : Register) (h : r._cacheStatus = CacheState.sync) :
    r._flushCacheCallBack._cacheStatus = CacheState.sync := by
  unfold Register._flushCacheCallBack
  split
  · rfl
  · exact h

theorem Register.flushCache_stepped (r : Register) (f : Fpgasoc) :
    r.Stepped f (r.flushCache f) ∧
      ((r.flushCache f).1 = Except.ok () →
        (r.flushCache f).2.1._cacheStatus = CacheState.sync) := by
  unfold Register.flushCache
  split
  · rename_i e f1 heq
    have h1 : (f.write32 r._addr r._regCache).1 = Except.error e := by rw [heq]
    have h2 : (f.write32 r._addr r._regCache).2 = f1 := by rw [heq]
    refine ⟨⟨h2 ▸ Fpgasoc.write32_later f _ _, rfl, Or.inl rfl, fun e' he' => ?_⟩,
      fun hok => by cases hok⟩
    simp only [Except.error.injEq] at he'
    subst he'
    exact h2 ▸ Fpgasoc.write32_faulted f _ _ e h1
  · rename_i u f1 heq
    have h2 : (f.write32 r._addr r._regCache).2 = f1 := by rw [heq]
    have hs := Register.flushCallBack_sync { r with _cacheStatus := CacheState.sync } rfl
    exact ⟨⟨h2 ▸ Fpgasoc.write32_later f _ _, Register.flushCallBack_addr _, Or.inr hs,
      fun e' he' => by cases he'⟩, fun _ => hs⟩

theorem Register.reg_stepped (r : Register) (f : Fpgasoc) (v : Nat) :
    r.Stepped f (r.reg f v false) := by
  have h := (Register.flushCache_stepped { r with _regCache := v } f).1
  unfold Register.reg
  simp only [Bool.false_eq_true, if_false]
  split
  · rename_i r1 f1 heq
    rw [heq] at h
    exact ⟨h.1, h.2.1, h.2.2.1, fun e' he' => by
      simp only [Except.error.injEq] at he'
      subst he'
      exact h.2.2.2 _ rfl⟩
  · exact h

theorem Register.regRead_stepped (r : Register) (f : Fpgasoc) (b : Bool) :
    r.Stepped f (r.regRead f b) := by
  unfold Register.regRead
  cases b
  · have h := Register.updateCache_stepped r f
    simp only [Bool.not_false, if_true]
    split
    · rename_i e r1 f1 heq
      rw [heq] at h
      exact ⟨h.1, h.2.1, h.2.2.1, fun e' he' => by
        simp only [Except.error.injEq] at he'
        subst he'
        exact h.2.2.2 _ rfl⟩
    · rename_i u r1 f1 heq
      rw [heq] at h
      exact ⟨h.1, h.2.1, h.2.2.1, fun e' he' => by cases he'⟩
  · simp only [Bool.not_true, Bool.false_eq_true, if_false]
    exact ⟨Fpgasoc.Later.id_later f, rfl, Or.inl rfl, fun e' he' => by cases he'⟩

/-- A typed getter: a bus or cache read followed by a pure conversion of the word. -/
theorem Register.getter_stepped {α : Type} (r : Register) (f : Fpgasoc) (b : Bool)
    (conv : Nat → α) :
    r.Stepped f
      (match r.regRead f b with
        | (Except.error e, r1, f1) => ((Except.error e : Except Exn α), r1, f1)
        | (Except.ok v, r1, f1) => (Except.ok (conv v), r1, f1)) := by
  have h := Register.regRead_stepped r f b
  split
  · rename_i e r1 f1 heq
    rw [heq] at h
    exact ⟨h.1, h.2.1, h.2.2.1, fun e' he' => by
      simp only [Except.error.injEq] at he'
      subst he'
      exact h.2.2.2 _ rfl⟩
  · rename_i v r1 f1 heq
    rw [heq] at h
    exact ⟨h.1, h.2.1, h.2.2.1, fun e' he' => by cases he'⟩

/-- A typed setter that flushes: a bus read, a pure change of the word, and a bus write. -/
theorem Register.setter_stepped (r : Register) (f : Fpgasoc) (conv : Nat → Nat) :
    r.Stepped f
      (match r.regRead f false with
        | (Except.error e, r1, f1) => ((Except.error e : Except Exn Unit), r1, f1)
        | (Except.ok regValue, r1, f1) => r1.reg f1 (conv regValue) false) := by
  have h := Register.regRead_stepped r f false
  split
  · rename_i e r1 f1 heq
    rw [heq] at h
    exact ⟨h.1, h.2.1, h.2.2.1, fun e' he' => by
      simp only [Except.error.injEq] at he'
      subst he'
      exact h.2.2.2 _ rfl⟩
  · rename_i v r1 f1 heq
    rw [heq] at h
    have h2 := Register.reg_stepped r1 f1 (conv v)
    obtain ⟨a1, b1, c1, _⟩ := h
    obtain ⟨a2, b2, c2, d2⟩ := h2
    simp only at a1 b1 c1
    refine ⟨a1.trans_later a2, b2.trans b1, ?_, fun e' he' => ?_⟩
    · rcases c2 with c2 | c2
      · rw [c2]
        exact c1
      · exact Or.inr c2
    · exact ⟨(d2 e' he').1, a1.then_faulted (d2 e' he').2⟩


/-! ### The typed registers -/

theorem FreqtgtReg.freqtgt_stepped (r : Register) (f : Fpgasoc) (val : Nat) :
    r.Stepped f (FreqtgtReg.freqtgt r f val false) :=
  Register.reg_stepped r f val

theorem FreqtgtReg.freqtgtRead_stepped (r : Register) (f : Fpgasoc) (b : Bool) :
    r.Stepped f (FreqtgtReg.freqtgtRead r f b) :=
  Register.regRead_stepped r f b

theorem PwmCmpReg.pwmCmp_stepped (r : Register) (f : Fpgasoc) (val : Nat) :
    r.Stepped f (PwmCmpReg.pwmCmp r f val false) :=
  Register.setter_stepped r f _

theorem PwmCmpReg.pwmCmpRead_stepped (r : Register) (f : Fpgasoc) (b : Bool) :
    r.Stepped f (PwmCmpReg.pwmCmpRead r f b) :=
  Register.getter_stepped r f b _

theorem CtrlReg.pwmMaxcntRead_stepped (r : Register) (f : Fpgasoc) (b : Bool) :
    r.Stepped f (CtrlReg.pwmMaxcntRead r f b) :=
  Register.getter_stepped r f b _

theorem CtrlReg.phase_stepped (r : Register) (f : Fpgasoc) (val : Nat) :
    r.Stepped f (CtrlReg.phase r f val false) :=
  Register.setter_stepped r f _

theorem CtrlReg.phaseRead_stepped (r : Register) (f : Fpgasoc) (b : Bool) :
    r.Stepped f (CtrlReg.phaseRead r f b) :=
  Register.getter_stepped r f b _

theorem CtrlReg.en_stepped (r : Register) (f : Fpgasoc) (val : Nat) :
    r.Stepped f (CtrlReg.en r f val false) :=
  Register.setter_stepped r f _

theorem CtrlReg.enRead_stepped (r : Register) (f : Fpgasoc) (b : Bool) :
    r.Stepped f (CtrlReg.enRead r f b) :=
  Register.getter_stepped r f b _

theorem StatReg.relCnt_stepped (r : Register) (f : Fpgasoc) (b : Bool) :
    r.Stepped f (StatReg.relCnt r f b) :=
  Register.getter_stepped r f b _

theorem StatReg.deadtime_stepped (r : Register) (f : Fpgasoc) (b : Bool) :
    r.Stepped f (StatReg.deadtime r f b) :=
  Register.getter_stepped r f b _

theorem StatReg.reflectedfreq_stepped (r : Register) (f : Fpgasoc) (b : Bool) :
    r.Stepped f (StatReg.reflectedfreq r f b) :=
  Register.getter_stepped r f b _

theorem StatReg.stop_stepped (r : Register) (f : Fpgasoc) (b : Bool) :
    r.Stepped f (StatReg.stop r f b) :=
  Register.getter_stepped r f b _

/-! ## What the motor operations guarantee -/

theorem CacheState.ne_modified_of_step {s t : CacheState} (h : t = s ∨ t = CacheState.sync)
    (hs : s ≠ CacheState.modified) : t ≠ CacheState.modified := by
  rcases h with h | h
  · rw [h]
    exact hs
  · rw [h]
    decide

theorem Motor.Keeps.id_keeps (mo : Motor) : mo.Keeps mo :=
  ⟨Fpgasoc.Later.id_later _, rfl, rfl, rfl, id, id⟩

theorem Motor.Keeps.trans_keeps {a b c : Motor} (h1 : a.Keeps b) (h2 : b.Keeps c) : a.Keeps c :=
  ⟨h1.1.trans_later h2.1, h2.2.1.trans h1.2.1, h2.2.2.1.trans h1.2.2.1,
    h2.2.2.2.1.trans h1.2.2.2.1, fun h => h2.2.2.2.2.1 (h1.2.2.2.2.1 h),
    fun h => h2.2.2.2.2.2 (h1.2.2.2.2.2 h)⟩

theorem Motor.Keeps.to_follows {a b : Motor} (h : a.Keeps b) : a.Follows b :=
  ⟨h.1, h.2.1, h.2.2.1, h.2.2.2.1, h.2.2.2.2.1, fun hu => Or.inl (h.2.2.2.2.2 hu)⟩

theorem Motor.Follows.trans_follows {a b c : Motor} (h1 : a.Follows b) (h2 : b.Follows c) :
    a.Follows c := by
  refine ⟨h1.1.trans_later h2.1, h2.2.1.trans h1.2.1, h2.2.2.1.trans h1.2.2.1,
    h2.2.2.2.1.trans h1.2.2.2.1, fun h => h2.2.2.2.2.1 (h1.2.2.2.2.1 h), fun hu => ?_⟩
  rcases h1.2.2.2.2.2 hu with hb | hf
  · rcases h2.2.2.2.2.2 hb with hc | hf
    · exact Or.inl hc
    · exact Or.inr (h1.1.then_faulted hf)
  · exact Or.inr (hf.then_later h2.1)

theorem Motor.keeps_withFreqtgt {α : Type} (mo : Motor)
    (res : Except Exn α × Register × Fpgasoc)
    (h : mo._regmap.freqtgt.Stepped mo._regmap._fpgaObjPtr res) :
    mo.Keeps (mo.withFreqtgt res.2.1 res.2.2) :=
  ⟨h.1, rfl, rfl, rfl, id, fun hu =>
    ⟨CacheState.ne_modified_of_step h.2.2.1 hu.1, hu.2.1, hu.2.2.1, hu.2.2.2⟩⟩

theorem Motor.keeps_withPwmCmp {α : Type} (mo : Motor)
    (res : Except Exn α × Register × Fpgasoc)
    (h : mo._regmap.pwmCmp.Stepped mo._regmap._fpgaObjPtr res) :
    mo.Keeps (mo.withPwmCmp res.2.1 res.2.2) :=
  ⟨h.1, h.2.1, rfl, rfl, id, fun hu =>
    ⟨hu.1, CacheState.ne_modified_of_step h.2.2.1 hu.2.1, hu.2.2.1, hu.2.2.2⟩⟩

theorem Motor.keeps_withCtrl {α : Type} (mo : Motor)
    (res : Except Exn α × Register × Fpgasoc)
    (h : mo._regmap.ctrl.Stepped mo._regmap._fpgaObjPtr res) :
    mo.Keeps (mo.withCtrl res.2.1 res.2.2) :=
  ⟨h.1, rfl, h.2.1, rfl, id, fun hu =>
    ⟨hu.1, hu.2.1, CacheState.ne_modified_of_step h.2.2.1 hu.2.2.1, hu.2.2.2⟩⟩

theorem Motor.keeps_withStat {α : Type} (mo : Motor)
    (res : Except Exn α × Register × Fpgasoc)
    (h : mo._regmap.stat.Stepped mo._regmap._fpgaObjPtr res) :
    mo.Keeps (mo.withStat res.2.1 res.2.2) :=
  ⟨h.1, rfl, rfl, rfl, id, fun hu =>
    ⟨hu.1, hu.2.1, hu.2.2.1, CacheState.ne_modified_of_step h.2.2.1 hu.2.2.2⟩⟩

theorem Motor.Keeps.setDuty {a b : Motor} (h : a.Keeps b) (v : Bool) (d : Int)
    (hd : v = true → 0 ≤ d ∧ d ≤ 100) : a.Keeps { b with _pwmDuty := (v, d) } :=
  ⟨h.1, h.2.1, h.2.2.1, h.2.2.2.1, fun _ => hd, h.2.2.2.2.2⟩

theorem Motor.Keeps.setHwIpVersion {a b : Motor} (h : a.Keeps b) (x : Bool × String) :
    a.Keeps { b with _hwIpVersion := x } := h

theorem Motor.Keeps.setDeadtime {a b : Motor} (h : a.Keeps b) (x : Bool × Int) :
    a.Keeps { b with _deadtime := x } := h

theorem Motor.fetchHwIpVersion_keeps (mo : Motor) (b : Bool) :
    mo.Keeps (mo._fetchHwIpVersion b) := by
  have h := StatReg.relCnt_stepped mo._regmap.stat mo._regmap._fpgaObjPtr b
  unfold Motor._fetchHwIpVersion
  split
  · rename_i e r1 f1 heq
    rw [heq] at h
    exact Motor.keeps_withStat mo _ h
  · rename_i v r1 f1 heq
    rw [heq] at h
    simp only
    split
    · exact (Motor.keeps_withStat mo _ h).setHwIpVersion _
    · exact Motor.keeps_withStat mo _ h

theorem Motor.fetchDeadtime_keeps (mo : Motor) (b : Bool) :
    mo.Keeps (mo._fetchDeadtime b) := by
  have h := StatReg.deadtime_stepped mo._regmap.stat mo._regmap._fpgaObjPtr b
  unfold Motor._fetchDeadtime
  split
  · rename_i e r1 f1 heq
    rw [heq] at h
    exact Motor.keeps_withStat mo _ h
  · rename_i v r1 f1 heq
    rw [heq] at h
    exact (Motor.keeps_withStat mo _ h).setDeadtime _

theorem CtrlReg.pwmMaxcntRead_lt (r : Register) (f : Fpgasoc) (b : Bool) (v : Nat)
    (r1 : Register) (f1 : Fpgasoc)
    (h : CtrlReg.pwmMaxcntRead r f b = (Except.ok v, r1, f1)) : v < 2 ^ 16 := by
  unfold CtrlReg.pwmMaxcntRead at h
  split at h
  · cases h
  · simp only [Prod.mk.injEq, Except.ok.injEq] at h
    rw [← h.1]
    exact Nat.mod_lt _ (by norm_num)

theorem Motor.roundDuty_le (c m : Nat) (hm0 : 0 < m) (hm1 : m < 2 ^ 16) (hc : c ≤ m) :
    0 ≤ Motor.roundDuty c m ∧ Motor.roundDuty c m ≤ 100 := by
  rw [Motor.roundDuty_eq c m hm0 hm1 hc]
  refine ⟨Int.natCast_nonneg _, ?_⟩
  have : (2 * (c * 100) + m) / (2 * m) ≤ 100 := by
    apply Nat.le_of_lt_succ
    rw [Nat.div_lt_iff_lt_mul (by omega)]
    nlinarith
  exact_mod_cast this

theorem Motor.calcPwmDuty_keeps (mo : Motor) : mo.Keeps mo._calcPwmDutyFromRegister := by
  unfold Motor._calcPwmDutyFromRegister
  simp only
  split
  · have h1 := PwmCmpReg.pwmCmpRead_stepped mo._regmap.pwmCmp mo._regmap._fpgaObjPtr false
    split
    · rename_i e r1 f1 heq
      rw [heq] at h1
      exact Motor.keeps_withPwmCmp mo _ h1
    · rename_i c r1 f1 heq
      rw [heq] at h1
      have k1 := Motor.keeps_withPwmCmp mo _ h1
      have h2 := CtrlReg.pwmMaxcntRead_stepped (mo.withPwmCmp r1 f1)._regmap.ctrl
        (mo.withPwmCmp r1 f1)._regmap._fpgaObjPtr false
      split
      · rename_i e r2 f2 heq2
        rw [heq2] at h2
        exact k1.trans_keeps (Motor.keeps_withCtrl _ _ h2)
      · rename_i m r2 f2 heq2
        have hm := CtrlReg.pwmMaxcntRead_lt _ _ _ _ _ _ heq2
        rw [heq2] at h2
        have k2 := k1.trans_keeps (Motor.keeps_withCtrl _ _ h2)
        split
        · exact k2.setDuty true 100 (fun _ => by decide)
        · split
          · rename_i hcm hm0
            exact k2.setDuty true _ (fun _ => Motor.roundDuty_le c m hm0 hm (by omega))
          · exact k2.setDuty false _ (fun h => by cases h)
  · exact Motor.Keeps.id_keeps mo

/-! ### The public operations -/

theorem Motor.rotationalSpeed_keeps (mo : Motor) (u : Motor.RotationalSpeedType) (speed : Int) :
    mo.Keeps (mo.rotationalSpeed u speed).2 := by
  unfold Motor.rotationalSpeed
  exact Motor.keeps_withFreqtgt mo _ (FreqtgtReg.freqtgt_stepped _ _ _)

theorem Motor.rotationalSpeedGet_keeps (mo : Motor) (u : Motor.RotationalSpeedType) :
    mo.Keeps (mo.rotationalSpeedGet u).2 := by
  have h := FreqtgtReg.freqtgtRead_stepped mo._regmap.freqtgt mo._regmap._fpgaObjPtr false
  unfold Motor.rotationalSpeedGet
  split <;> (rename_i heq; rw [heq] at h; exact Motor.keeps_withFreqtgt mo _ h)

theorem Motor.pwmDuty_keeps (mo : Motor) (d : Int) : mo.Keeps (mo.pwmDuty d).2 := by
  unfold Motor.pwmDuty
  simp only
  generalize hF : (if mo._regmap.ctrl.cacheStatus = CacheState.initialized then
      CtrlReg.pwmMaxcntRead mo._regmap.ctrl mo._regmap._fpgaObjPtr false
    else if mo._regmap.ctrl.cacheStatus = CacheState.sync then
      CtrlReg.pwmMaxcntRead mo._regmap.ctrl mo._regmap._fpgaObjPtr true
    else (Except.error Exn.runtime_error, mo._regmap.ctrl, mo._regmap._fpgaObjPtr)) = fetched
  have hfetched : mo._regmap.ctrl.Stepped mo._regmap._fpgaObjPtr fetched ∨
      fetched = (Except.error Exn.runtime_error, mo._regmap.ctrl, mo._regmap._fpgaObjPtr) := by
    rw [← hF]
    split
    · exact Or.inl (CtrlReg.pwmMaxcntRead_stepped _ _ _)
    · split
      · exact Or.inl (CtrlReg.pwmMaxcntRead_stepped _ _ _)
      · exact Or.inr rfl
  clear hF
  split
  · rename_i e r1 f1
    rcases hfetched with h | h
    · exact Motor.keeps_withCtrl mo _ h
    · simp only [Prod.mk.injEq] at h
      rw [h.2.1, h.2.2]
      exact Motor.Keeps.id_keeps mo
  · rename_i m r1 f1
    rcases hfetched with h | h
    · have k1 := Motor.keeps_withCtrl mo _ h
      simp only at k1 ⊢
      split
      · exact k1
      · rename_i c hc
        have h2 := PwmCmpReg.pwmCmp_stepped (mo.withCtrl r1 f1)._regmap.pwmCmp
          (mo.withCtrl r1 f1)._regmap._fpgaObjPtr c
        split
        · rename_i e r2 f2 heq
          rw [heq] at h2
          exact k1.trans_keeps (Motor.keeps_withPwmCmp _ _ h2)
        · rename_i u r2 f2 heq
          rw [heq] at h2
          refine (k1.trans_keeps (Motor.keeps_withPwmCmp _ _ h2)).setDuty true d (fun _ => ?_)
          split at hc
          · rename_i h100
            rw [h100]
            decide
          · split at hc
            · rename_i hr
              exact ⟨hr.1, le_of_lt hr.2⟩
            · cases hc
    · cases h

theorem Motor.pwmDutyGet_keeps (mo : Motor) : mo.Keeps (mo.pwmDutyGet).2 := by
  unfold Motor.pwmDutyGet
  simp only
  have key : ∀ mo1 : Motor, mo.Keeps mo1 →
      mo.Keeps (if (!mo1._pwmDuty.1) = true then
        ((Except.error Exn.runtime_error : Except Exn Int), mo1)
        else (Except.ok mo1._pwmDuty.2, mo1)).2 := by
    intro mo1 h
    split <;> exact h
  apply key
  split
  · exact Motor.calcPwmDuty_keeps mo
  · exact Motor.Keeps.id_keeps mo

theorem Motor.outputEnable_keeps (mo : Motor) (isEnable : Bool) :
    mo.Keeps (mo.outputEnable isEnable).2 := by
  unfold Motor.outputEnable
  split
  · exact Motor.keeps_withCtrl mo _ (CtrlReg.en_stepped _ _ _)
  · exact Motor.Keeps.id_keeps mo

theorem Motor.outputEnableGet_keeps (mo : Motor) : mo.Keeps (mo.outputEnableGet).2 := by
  have h := CtrlReg.enRead_stepped mo._regmap.ctrl mo._regmap._fpgaObjPtr false
  unfold Motor.outputEnableGet
  split
  · split
    · rename_i heq
      rw [heq] at h
      exact Motor.keeps_withCtrl mo _ h
    · rename_i heq
      rw [heq] at h
      have k := Motor.keeps_withCtrl mo _ h
      simp only at k ⊢
      split
      · exact k
      · split <;> exact k
  · exact Motor.Keeps.id_keeps mo

theorem Motor.pwmPeriodGet_keeps (mo : Motor) (u : Motor.PeriodType) :
    mo.Keeps (mo.pwmPeriodGet u).2 := by
  have h := Register.updateCache_stepped mo._regmap.ctrl mo._regmap._fpgaObjPtr
  unfold Motor.pwmPeriodGet
  split
  · split
    · rename_i heq
      rw [heq] at h
      exact Motor.keeps_withCtrl mo _ h
    · rename_i heq
      rw [heq] at h
      have k := Motor.keeps_withCtrl mo _ h
      simp only [CtrlReg.pwmPrscRead, Register.regRead_cache, CtrlReg.pwmMaxcntRead_cache,
        Motor.withCtrl] at k ⊢
      exact k
  · exact Motor.Keeps.id_keeps mo

theorem Motor.phase_keeps (mo : Motor) (phase : Int) : mo.Keeps (mo.phase phase).2 := by
  unfold Motor.phase
  split
  · exact Motor.Keeps.id_keeps mo
  · exact Motor.keeps_withCtrl mo _ (CtrlReg.phase_stepped _ _ _)

theorem Motor.phaseGet_keeps (mo : Motor) : mo.Keeps (mo.phaseGet).2 := by
  have h := CtrlReg.phaseRead_stepped mo._regmap.ctrl mo._regmap._fpgaObjPtr false
  unfold Motor.phaseGet
  split <;> (rename_i heq; rw [heq] at h; exact Motor.keeps_withCtrl mo _ h)

theorem Motor.hwIpVersion_keeps (mo : Motor) : mo.Keeps (mo.hwIpVersion).2 := by
  unfold Motor.hwIpVersion
  simp only
  generalize hF : (if (!mo._hwIpVersion.1) = true then
      if mo._regmap.stat.cacheStatus = CacheState.sync then
        ((Except.ok () : Except Exn Unit), mo._fetchHwIpVersion true)
      else if mo._regmap.stat.cacheStatus = CacheState.initialized then
        (Except.ok (), mo._fetchHwIpVersion false)
      else (Except.error Exn.runtime_error, mo)
    else (Except.ok (), mo)) = fetched
  have hfetched : mo.Keeps fetched.2 := by
    rw [← hF]
    split
    · split
      · exact Motor.fetchHwIpVersion_keeps mo true
      · split
        · exact Motor.fetchHwIpVersion_keeps mo false
        · exact Motor.Keeps.id_keeps mo
    · exact Motor.Keeps.id_keeps mo
  clear hF
  split
  · exact hfetched
  · split <;> exact hfetched

theorem Motor.deadtime_keeps (mo : Motor) : mo.Keeps (mo.deadtime).2 := by
  unfold Motor.deadtime
  simp only
  generalize hF : (if (!mo._deadtime.1) = true then
      if mo._regmap.stat.cacheStatus = CacheState.sync then
        ((Except.ok () : Except Exn Unit), mo._fetchDeadtime true)
      else if mo._regmap.stat.cacheStatus = CacheState.initialized then
        (Except.ok (), mo._fetchDeadtime false)
      else (Except.error Exn.runtime_error, mo)
    else (Except.ok (), mo)) = fetched
  have hfetched : mo.Keeps fetched.2 := by
    rw [← hF]
    split
    · split
      · exact Motor.fetchDeadtime_keeps mo true
      · split
        · exact Motor.fetchDeadtime_keeps mo false
        · exact Motor.Keeps.id_keeps mo
    · exact Motor.Keeps.id_keeps mo
  clear hF
  split
  · exact hfetched
  · split <;> exact hfetched

theorem Motor.isReflectedFreq_keeps (mo : Motor) : mo.Keeps (mo.isReflectedFreq).2 := by
  have h := StatReg.reflectedfreq_stepped mo._regmap.stat mo._regmap._fpgaObjPtr false
  unfold Motor.isReflectedFreq
  split
  · split <;> (rename_i heq; rw [heq] at h; exact Motor.keeps_withStat mo _ h)
  · exact Motor.Keeps.id_keeps mo

theorem Motor.isStopping_keeps (mo : Motor) : mo.Keeps (mo.isStopping).2 := by
  have h := StatReg.stop_stepped mo._regmap.stat mo._regmap._fpgaObjPtr false
  unfold Motor.isStopping
  split
  · split <;> (rename_i heq; rw [heq] at h; exact Motor.keeps_withStat mo _ h)
  · exact Motor.Keeps.id_keeps mo

theorem Motor.pwmPeriod_out_of_range (mo : Motor) (u : Motor.PeriodType) (period p : Int)
    (h : (p > Motor._MaxPrscSel ∨ p < Motor._MinPrscSel) ∨
      wrap64 (period * u.nanos) > mo.periodMaxCountNs p) :
    mo.pwmPeriod u period p = (Except.error Exn.out_of_range, mo) := by
  unfold Motor.periodMaxCountNs at h
  unfold Motor.pwmPeriod
  simp only
  split
  · rfl
  · split
    · rfl
    · rename_i h1 h2
      rcases h with h | h
      · exact absurd h h1
      · exact absurd h h2

/-- The setter `pwmPeriod` is the one operation that can leave a register `modified`: it
writes max-count and prescaler into the Ctrl cache first and flushes afterwards, so Ctrl stays
`modified` exactly when the bus write of the flush is answered with a fault. -/
theorem Motor.pwmPeriod_follows (mo : Motor) (u : Motor.PeriodType) (period p : Int) :
    mo.Follows (mo.pwmPeriod u period p).2 := by
  by_cases hr : (p > Motor._MaxPrscSel ∨ p < Motor._MinPrscSel) ∨
      wrap64 (period * u.nanos) > mo.periodMaxCountNs p
  · rw [Motor.pwmPeriod_out_of_range mo u period p hr]
    exact (Motor.Keeps.id_keeps mo).to_follows
  · by_cases hst : mo._regmap.ctrl.cacheStatus = CacheState.modified
    · rw [Motor.pwmPeriod_modified mo hst]
      exact (Motor.Keeps.id_keeps mo).to_follows
    · have hp0 : Motor._MinPrscSel ≤ p := by omega
      have hp1 : p ≤ Motor._MaxPrscSel := by omega
      have hn : wrap64 (period * u.nanos) ≤ mo.periodMaxCountNs p := by omega
      rw [Motor.pwmPeriod_run mo u period p hp0 hp1 hn hst]
      generalize hR : ({ mo._regmap.ctrl with
          _regCache := insertValue (insertValue mo._regmap.ctrl._regCache
            (mo.pwmMaxcntOf (wrap64 (period * u.nanos)) p % 2 ^ 16)
            CtrlReg.PwmMaxcnt.Pos CtrlReg.PwmMaxcnt.Mask)
            ((p % 2 ^ 8).toNat % 2 ^ 8) CtrlReg.PwmPrsc.Pos CtrlReg.PwmPrsc.Mask,
          _cacheStatus := CacheState.modified } : Register) = R
      have hRaddr : R._addr = mo._regmap.ctrl._addr := by rw [← hR]
      obtain ⟨hfl, hsync⟩ := Register.flushCache_stepped R mo._regmap._fpgaObjPtr
      split
      · rename_i e r3 f3 heq
        rw [heq] at hfl
        exact ⟨hfl.1, rfl, hfl.2.1.trans hRaddr, rfl, id,
          fun _ => Or.inr (hfl.2.2.2 e rfl).2⟩
      · rename_i x r3 f3 heq
        rw [heq] at hfl hsync
        have k3 : mo.Keeps (mo.withCtrl r3 f3) :=
          ⟨hfl.1, rfl, hfl.2.1.trans hRaddr, rfl, id, fun hu =>
            ⟨hu.1, hu.2.1, by
              show r3._cacheStatus ≠ CacheState.modified
              rw [hsync rfl]
              decide, hu.2.2.2⟩⟩
        have k4 := Motor.pwmDutyGet_keeps (mo.withCtrl r3 f3)
        split
        · rename_i e mo4 heq4
          rw [heq4] at k4
          exact (k3.trans_keeps k4).to_follows
        · rename_i duty mo4 heq4
          rw [heq4] at k4
          exact ((k3.trans_keeps k4).trans_keeps (Motor.pwmDuty_keeps mo4 duty)).to_follows

theorem Motor.exec_follows (mo : Motor) (op : Motor.Op) : mo.Follows (mo.exec op) := by
  cases op with
  | rotationalSpeed u speed => exact (Motor.rotationalSpeed_keeps mo u speed).to_follows
  | rotationalSpeedGet u => exact (Motor.rotationalSpeedGet_keeps mo u).to_follows
  | pwmDuty duty => exact (Motor.pwmDuty_keeps mo duty).to_follows
  | pwmDutyGet => exact (Motor.pwmDutyGet_keeps mo).to_follows
  | outputEnable isEnable => exact (Motor.outputEnable_keeps mo isEnable).to_follows
  | outputEnableGet => exact (Motor.outputEnableGet_keeps mo).to_follows
  | pwmPeriod u period prsc => exact Motor.pwmPeriod_follows mo u period prsc
  | pwmPeriodGet u => exact (Motor.pwmPeriodGet_keeps mo u).to_follows
  | phase phase => exact (Motor.phase_keeps mo phase).to_follows
  | phaseGet => exact (Motor.phaseGet_keeps mo).to_follows
  | hwIpVersion => exact (Motor.hwIpVersion_keeps mo).to_follows
  | deadtime => exact (Motor.deadtime_keeps mo).to_follows
  | isReflectedFreq => exact (Motor.isReflectedFreq_keeps mo).to_follows
  | isStopping => exact (Motor.isStopping_keeps mo).to_follows

theorem Motor.execAll_follows (mo : Motor) (ops : List Motor.Op) :
    mo.Follows (mo.execAll ops) := by
  induction ops generalizing mo with
  | nil => exact (Motor.Keeps.id_keeps mo).to_follows
  | cons op rest ih => exact (Motor.exec_follows mo op).trans_follows (ih (mo.exec op))

/-- What a successful construction guarantees: the motor comes after the initial object (the
four registers in state `initialized` at their offsets from the base address, no duty
cached), so that no register is `modified` and a valid duty cache holds a percentage. -/
theorem Motor.new_keeps (ptr : Fpgasoc) (u : Motor.ClkFqType) (clkFq : Int) (baseAddr : Nat)
    (mo0 : Motor) (hnew : (Motor.new ptr u clkFq baseAddr).1 = Except.ok mo0) :
    ptr.Later mo0._regmap._fpgaObjPtr ∧
      mo0._regmap.pwmCmp._addr = (baseAddr + 4) % 2 ^ 32 ∧
      mo0._regmap.ctrl._addr = (baseAddr + 8) % 2 ^ 32 ∧
      mo0._clkFq = Motor.clockFreq_cast u clkFq ∧
      mo0.DutyIsPercentage ∧ mo0.Unmodified := by
  unfold Motor.new at hnew
  simp only at hnew
  have h := Register.updateCache_stepped (RegMap.new ptr baseAddr).stat
    (RegMap.new ptr baseAddr)._fpgaObjPtr
  split at hnew
  · cases hnew
  · rename_i x r1 f1 heq
    simp only [Except.ok.injEq] at hnew
    rw [heq] at h
    generalize hI : ({ _regmap := RegMap.new ptr baseAddr
                       _clkFq := Motor.clockFreq_cast u clkFq
                       _hwIpVersion := (false, Motor._InvalidHwIpVerStr)
                       _deadtime := (false, Motor._InvalidDeadtime)
                       _pwmDuty := (false, Motor._InvalidPwmDuty) } : Motor) = moI at hnew
    have h' : moI._regmap.stat.Stepped moI._regmap._fpgaObjPtr
        ((Except.ok x : Except Exn Unit), r1, f1) := by
      rw [← hI]
      exact h
    have k := (((Motor.keeps_withStat moI _ h').trans_keeps
      (Motor.fetchHwIpVersion_keeps _ true)).trans_keeps
      (Motor.fetchDeadtime_keeps _ true)).trans_keeps (Motor.calcPwmDuty_keeps _)
    rw [hnew] at k
    have hbus : moI._regmap._fpgaObjPtr = ptr := by rw [← hI]; rfl
    have hduty : moI.DutyIsPercentage := by
      rw [← hI]
      intro hv
      cases hv
    have hun : moI.Unmodified := by
      rw [← hI]
      refine ⟨?_, ?_, ?_, ?_⟩ <;>
        (show CacheState.initialized ≠ CacheState.modified; decide)
    refine ⟨hbus ▸ k.1, ?_, ?_, ?_, k.2.2.2.2.1 hduty, k.2.2.2.2.2 hun⟩
    · rw [k.2.1, ← hI]
      rfl
    · rw [k.2.2.1, ← hI]
      rfl
    · rw [k.2.2.2.1, ← hI]

/-! ### Errors of operations whose only inconsistent-state error is the `modified` one -/

theorem Motor.pwmDuty_error (mo : Motor) (d : Int)
    (hst : mo._regmap.ctrl.cacheStatus ≠ CacheState.modified) (e : Exn)
    (he : (mo.pwmDuty d).1 = Except.error e) : e = Exn.range_error ∨ e = Exn.out_of_range := by
  unfold Motor.pwmDuty at he
  simp only at he
  generalize hF : (if mo._regmap.ctrl.cacheStatus = CacheState.initialized then
      CtrlReg.pwmMaxcntRead mo._regmap.ctrl mo._regmap._fpgaObjPtr false
    else if mo._regmap.ctrl.cacheStatus = CacheState.sync then
      CtrlReg.pwmMaxcntRead mo._regmap.ctrl mo._regmap._fpgaObjPtr true
    else (Except.error Exn.runtime_error, mo._regmap.ctrl, mo._regmap._fpgaObjPtr)) = fetched
    at he
  have hfetched : mo._regmap.ctrl.Stepped mo._regmap._fpgaObjPtr fetched := by
    rw [← hF]
    split
    · exact CtrlReg.pwmMaxcntRead_stepped _ _ _
    · split
      · exact CtrlReg.pwmMaxcntRead_stepped _ _ _
      · rename_i h1 h2
        exfalso
        revert h1 h2 hst
        unfold Register.cacheStatus
        cases mo._regmap.ctrl._cacheStatus <;> simp
  clear hF
  split at he
  · rename_i e1 r1 f1
    simp only [Except.error.injEq] at he
    subst he
    exact Or.inl (hfetched.2.2.2 e1 rfl).1
  · rename_i m r1 f1
    split at he
    · rename_i e1 hc
      simp only [Except.error.injEq] at he
      subst he
      split at hc
      · cases hc
      · split at hc
        · cases hc
        · simp only [Except.error.injEq] at hc
          exact Or.inr hc.symm
    · rename_i c hc
      have h2 := PwmCmpReg.pwmCmp_stepped (mo.withCtrl r1 f1)._regmap.pwmCmp
        (mo.withCtrl r1 f1)._regmap._fpgaObjPtr c
      split at he
      · rename_i e2 r2 f2 heq
        rw [heq] at h2
        simp only [Except.error.injEq] at he
        subst he
        exact Or.inl (h2.2.2.2 e2 rfl).1
      · cases he

theorem Motor.outputEnable_error (mo : Motor) (isEnable : Bool)
    (hst : mo._regmap.ctrl.cacheStatus ≠ CacheState.modified) (e : Exn)
    (he : (mo.outputEnable isEnable).1 = Except.error e) : e = Exn.range_error := by
  unfold Motor.outputEnable at he
  rw [if_pos hst] at he
  exact ((CtrlReg.en_stepped _ _ _).2.2.2 e he).1

theorem Motor.pwmPeriodGet_error (mo : Motor) (u : Motor.PeriodType)
    (hst : mo._regmap.ctrl.cacheStatus ≠ CacheState.modified) (e : Exn)
    (he : (mo.pwmPeriodGet u).1 = Except.error e) : e = Exn.range_error := by
  have h := Register.updateCache_stepped mo._regmap.ctrl mo._regmap._fpgaObjPtr
  unfold Motor.pwmPeriodGet at he
  rw [if_pos hst] at he
  split at he
  · rename_i e1 r1 f1 heq
    rw [heq] at h
    simp only [Except.error.injEq] at he
    subst he
    exact (h.2.2.2 e1 rfl).1
  · simp only [CtrlReg.pwmPrscRead, Register.regRead_cache, CtrlReg.pwmMaxcntRead_cache] at he
    cases he

theorem Motor.isReflectedFreq_error (mo : Motor)
    (hst : mo._regmap.stat.cacheStatus ≠ CacheState.modified) (e : Exn)
    (he : (mo.isReflectedFreq).1 = Except.error e) : e = Exn.range_error := by
  have h := StatReg.reflectedfreq_stepped mo._regmap.stat mo._regmap._fpgaObjPtr false
  unfold Motor.isReflectedFreq at he
  rw [if_pos hst] at he
  split at he
  · rename_i e1 r1 f1 heq
    rw [heq] at h
    simp only [Except.error.injEq] at he
    subst he
    exact (h.2.2.2 e1 rfl).1
  · cases he

theorem Motor.isStopping_error (mo : Motor)
    (hst : mo._regmap.stat.cacheStatus ≠ CacheState.modified) (e : Exn)
    (he : (mo.isStopping).1 = Except.error e) : e = Exn.range_error := by
  have h := StatReg.stop_stepped mo._regmap.stat mo._regmap._fpgaObjPtr false
  unfold Motor.isStopping at he
  rw [if_pos hst] at he
  split at he
  · rename_i e1 r1 f1 heq
    rw [heq] at h
    simp only [Except.error.injEq] at he
    subst he
    exact (h.2.2.2 e1 rfl).1
  · cases he

/-- In a state reached from a successful construction by public operations, no register is
`modified` unless a bus call made after the construction was answered with a fault. -/
theorem Motor.reachable_unmodified (ptr : Fpgasoc) (u : Motor.ClkFqType) (clkFq : Int)
    (baseAddr : Nat) (mo0 : Motor) (ops : List Motor.Op)
    (hnew : (Motor.new ptr u clkFq baseAddr).1 = Except.ok mo0)
    (hclean : (mo0.execAll ops)._regmap._fpgaObjPtr.faultedSince
      mo0._regmap._fpgaObjPtr.log.length = false) :
    (mo0.execAll ops).Unmodified := by
  obtain ⟨_, _, _, _, _, hun⟩ := Motor.new_keeps ptr u clkFq baseAddr mo0 hnew
  rcases (Motor.execAll_follows mo0 ops).2.2.2.2.2 hun with h | h
  · exact h
  · rw [h.faultedSince_eq] at hclean
    cases hclean

/-- In a state reached from a successful construction by public operations, a valid duty cache
holds a percentage. -/
theorem Motor.reachable_duty (ptr : Fpgasoc) (u : Motor.ClkFqType) (clkFq : Int)
    (baseAddr : Nat) (mo0 : Motor) (ops : List Motor.Op)
    (hnew : (Motor.new ptr u clkFq baseAddr).1 = Except.ok mo0) :
    (mo0.execAll ops).DutyIsPercentage := by
  obtain ⟨_, _, _, _, hd, _⟩ := Motor.new_keeps ptr u clkFq baseAddr mo0 hnew
  exact (Motor.execAll_follows mo0 ops).2.2.2.2.1 hd

theorem Motor.pwmDutyGet_ok (mo : Motor) (d : Int) (h : (mo.pwmDutyGet).1 = Except.ok d) :
    (mo.pwmDutyGet).2._pwmDuty = (true, d) := by
  unfold Motor.pwmDutyGet at h ⊢
  simp only at h ⊢
  generalize (if (!mo._pwmDuty.1) = true then mo._calcPwmDutyFromRegister else mo) = mo1 at h ⊢
  by_cases hv : (!mo1._pwmDuty.1) = true
  · rw [if_pos hv] at h
    cases h
  · rw [if_neg hv] at h ⊢
    simp only [Except.ok.injEq] at h
    simp only [Bool.not_eq_true, Bool.not_eq_false'] at hv
    exact Prod.ext hv h

/-! ## C22: no register is left `modified` without a bus fault -/

/-- C22: take any bus accessor on which `Motor(ptr, clkFq, baseAddr)` succeeds and any finite
sequence `ops` of public `Motor` operations with arbitrary arguments (rejected ones included),
and let none of the bus calls made after the construction be answered with a fault. Then in
the state in which the last operation returns or raises none of the four registers FreqTgt,
PwmCmp, Ctrl and Stat is `modified`. Consequently the guards that raise the 'cache is
modified' errors all pass there; in particular `pwmDuty(d)`, `outputEnable(b)`,
`pwmPeriod<PeriodType>()`, `isReflectedFreq()` and `isStopping()`, which have no other
inconsistent-state error, do not fail with `runtime_error` when called next. -/
theorem no_register_left_modified (ptr : Fpgasoc) (u : Motor.ClkFqType) (clkFq : Int)
    (baseAddr : Nat) (mo0 : Motor) (ops : List Motor.Op)
    (hnew : (Motor.new ptr u clkFq baseAddr).1 = Except.ok mo0)
    (hclean : (mo0.execAll ops)._regmap._fpgaObjPtr.faultedSince
      mo0._regmap._fpgaObjPtr.log.length = false) :
    ((mo0.execAll ops)._regmap.freqtgt.cacheStatus ≠ CacheState.modified ∧
      (mo0.execAll ops)._regmap.pwmCmp.cacheStatus ≠ CacheState.modified ∧
      (mo0.execAll ops)._regmap.ctrl.cacheStatus ≠ CacheState.modified ∧
      (mo0.execAll ops)._regmap.stat.cacheStatus ≠ CacheState.modified) ∧
    (∀ d : Int, ((mo0.execAll ops).pwmDuty d).1 ≠ Except.error Exn.runtime_error) ∧
    (∀ b : Bool, ((mo0.execAll ops).outputEnable b).1 ≠ Except.error Exn.runtime_error) ∧
    (∀ v : Motor.PeriodType,
      ((mo0.execAll ops).pwmPeriodGet v).1 ≠ Except.error Exn.runtime_error) ∧
    ((mo0.execAll ops).isReflectedFreq).1 ≠ Except.error Exn.runtime_error ∧
    ((mo0.execAll ops).isStopping).1 ≠ Except.error Exn.runtime_error := by
  have hun := Motor.reachable_unmodified ptr u clkFq baseAddr mo0 ops hnew hclean
  refine ⟨hun, fun d he => ?_, fun b he => ?_, fun v he => ?_, fun he => ?_, fun he => ?_⟩
  · rcases Motor.pwmDuty_error _ d hun.2.2.1 _ he with h | h <;> cases h
  · cases Motor.outputEnable_error _ b hun.2.2.1 _ he
  · cases Motor.pwmPeriodGet_error _ v hun.2.2.1 _ he
  · cases Motor.isReflectedFreq_error _ hun.2.2.2 _ he
  · cases Motor.isStopping_error _ hun.2.2.2 _ he

/-- C22 (witness): on `writeFaultBus`, where every write would fail, the construction at
50 MHz succeeds; the operations `phase()`, `pwmPeriod<nanoseconds>()`, `pwmDuty()`,
`pwmDuty(101)` make only bus reads, none of which fails, and afterwards no register is
`modified`. -/
theorem no_register_left_modified_witness :
    ∃ mo0 : Motor, (Motor.new writeFaultBus Motor.ClkFqType.Hz 50000000 0).1 = Except.ok mo0 ∧
      (mo0.execAll [Motor.Op.phaseGet, Motor.Op.pwmPeriodGet Motor.PeriodType.nanoseconds,
        Motor.Op.pwmDutyGet, Motor.Op.pwmDuty 101])._regmap._fpgaObjPtr.log =
        [BusOp.read32 12, BusOp.read32 4, BusOp.read32 8, BusOp.read32 8, BusOp.read32 8] ∧
      (mo0.execAll [Motor.Op.phaseGet, Motor.Op.pwmPeriodGet Motor.PeriodType.nanoseconds,
        Motor.Op.pwmDutyGet, Motor.Op.pwmDuty 101])._regmap.ctrl.cacheStatus
        ≠ CacheState.modified :=
  ⟨_, rfl, by decide,
    (no_register_left_modified writeFaultBus Motor.ClkFqType.Hz 50000000 0 _
      [Motor.Op.phaseGet, Motor.Op.pwmPeriodGet Motor.PeriodType.nanoseconds,
        Motor.Op.pwmDutyGet, Motor.Op.pwmDuty 101] rfl (by decide)).1.2.2.1⟩

/-! ## C23: the cached duty is a percentage -/

/-- C23: take any bus accessor (with or without bus faults, whatever the registers hold) on
which `Motor(ptr, clkFq, baseAddr)` succeeds and any finite sequence `ops` of public `Motor`
operations. In the state reached, whenever the duty cache is marked valid its value `d`
satisfies `0 ≤ d ≤ 100`; hence every successful `pwmDuty()` there returns a value in
0..100. -/
theorem duty_cache_is_percentage (ptr : Fpgasoc) (u : Motor.ClkFqType) (clkFq : Int)
    (baseAddr : Nat) (mo0 : Motor) (ops : List Motor.Op)
    (hnew : (Motor.new ptr u clkFq baseAddr).1 = Except.ok mo0) :
    ((mo0.execAll ops)._pwmDuty.1 = true →
      0 ≤ (mo0.execAll ops)._pwmDuty.2 ∧ (mo0.execAll ops)._pwmDuty.2 ≤ 100) ∧
    (∀ d : Int, ((mo0.execAll ops).pwmDutyGet).1 = Except.ok d → 0 ≤ d ∧ d ≤ 100) := by
  refine ⟨Motor.reachable_duty ptr u clkFq baseAddr mo0 ops hnew, fun d hd => ?_⟩
  have h1 := Motor.reachable_duty ptr u clkFq baseAddr mo0 (ops ++ [Motor.Op.pwmDutyGet]) hnew
  have h2 := Motor.pwmDutyGet_ok _ d hd
  unfold Motor.execAll at h1
  rw [List.foldl_append] at h1
  have h3 := h1 (by
    show ((List.foldl Motor.exec mo0 ops).pwmDutyGet).2._pwmDuty.1 = true
    unfold Motor.execAll at h2
    rw [h2])
  unfold Motor.execAll at h2
  simp only [List.foldl_cons, List.foldl_nil, Motor.exec, h2] at h3
  exact h3

/-- C23 (witness): on `writeFaultBus` the construction at 50 MHz succeeds with the derived
duty 0; `pwmPeriod(1000 ns, 0)` then fails in its flush and leaves Ctrl `modified`,
`pwmDuty(50)` is rejected, and the cached duty is still valid and 0, a percentage. -/
theorem duty_cache_is_percentage_witness :
    ∃ mo0 : Motor, (Motor.new writeFaultBus Motor.ClkFqType.Hz 50000000 0).1 = Except.ok mo0 ∧
      (mo0.execAll [Motor.Op.pwmPeriod Motor.PeriodType.nanoseconds 1000 0,
        Motor.Op.pwmDuty 50])._regmap.ctrl.cacheStatus = CacheState.modified ∧
      (mo0.execAll [Motor.Op.pwmPeriod Motor.PeriodType.nanoseconds 1000 0,
        Motor.Op.pwmDuty 50])._pwmDuty = (true, 0) ∧
      (((mo0.execAll [Motor.Op.pwmPeriod Motor.PeriodType.nanoseconds 1000 0,
          Motor.Op.pwmDuty 50])._pwmDuty.1 = true →
        0 ≤ (mo0.execAll [Motor.Op.pwmPeriod Motor.PeriodType.nanoseconds 1000 0,
          Motor.Op.pwmDuty 50])._pwmDuty.2 ∧
        (mo0.execAll [Motor.Op.pwmPeriod Motor.PeriodType.nanoseconds 1000 0,
          Motor.Op.pwmDuty 50])._pwmDuty.2 ≤ 100) ∧
      (∀ d : Int, ((mo0.execAll [Motor.Op.pwmPeriod Motor.PeriodType.nanoseconds 1000 0,
        Motor.Op.pwmDuty 50]).pwmDutyGet).1 = Except.ok d → 0 ≤ d ∧ d ≤ 100)) :=
  ⟨_, rfl, by decide, by decide,
    duty_cache_is_percentage writeFaultBus Motor.ClkFqType.Hz 50000000 0 _
      [Motor.Op.pwmPeriod Motor.PeriodType.nanoseconds 1000 0, Motor.Op.pwmDuty 50] rfl⟩

/-! ## C24: the duty set and the duty derived from the registers -/

/-- With Ctrl in state `sync`, the setter `pwmDuty` computes the comparator `pwmCmpOf` from
the cached max-count and writes it to PwmCmp. -/
theorem Motor.pwmDuty_pwmCmpOf (mo : Motor) (d : Int)
    (hs : mo._regmap.ctrl.cacheStatus = CacheState.sync) :
    mo.pwmDuty d =
      match Motor.pwmCmpOf (pickupValue mo._regmap.ctrl._regCache CtrlReg.PwmMaxcnt.Pos
          CtrlReg.PwmMaxcnt.Mask % 2 ^ 16) d with
      | Except.error e => (Except.error e, mo)
      | Except.ok pwmCmp =>
        match PwmCmpReg.pwmCmp mo._regmap.pwmCmp mo._regmap._fpgaObjPtr pwmCmp false with
        | (Except.error e, r2, f2) => (Except.error e, mo.withPwmCmp r2 f2)
        | (Except.ok _, r2, f2) =>
          (Except.ok (), { mo.withPwmCmp r2 f2 with _pwmDuty := (true, d) }) := by
  simp only [Motor.pwmDuty, hs, CtrlReg.pwmMaxcntRead, Register.regRead_cache, Motor.pwmCmpOf]
  rfl

/-- The duty derived from a comparator `c` and a max-count `m ≥ 200`, when `c` is the
comparator of the duty `d`, is `d`. -/
theorem Motor.derived_duty (m c : Nat) (d : Int) (hm0 : 200 ≤ m) (hm1 : m ≤ 0xFFFF)
    (hd0 : 0 ≤ d) (hd1 : d ≤ 100)
    (hc : (c : Int) = if d = 100 then (m : Int) + 1 else (m : Int) * d / 100) :
    (if c > m then (true, (100 : Int))
      else if m > 0 then (true, Motor.roundDuty c m)
      else (false, Motor._InvalidPwmDuty)) = (true, d) := by
  by_cases h100 : d = 100
  · rw [if_pos h100] at hc
    have : c > m := by omega
    rw [if_pos this, h100]
  · rw [if_neg h100] at hc
    obtain ⟨dn, rfl⟩ := Int.eq_ofNat_of_zero_le hd0
    have hdn : dn ≤ 99 := by omega
    have hc' : c = m * dn / 100 := by exact_mod_cast hc
    have ht : m * dn ≤ m * 100 := Nat.mul_le_mul_left m (by omega)
    have hcm : c ≤ m := by
      rw [hc']
      exact Nat.div_le_of_le_mul (by omega)
    rw [if_neg (by omega), if_pos (by omega), Motor.roundDuty_eq c m (by omega) (by omega) hcm]
    have e1 : dn * (2 * m) = 2 * (m * dn) := by ring
    have e2 : Nat.succ dn * (2 * m) = 2 * (m * dn) + 2 * m := by
      rw [Nat.succ_mul, e1]
    have hq : (2 * (c * 100) + m) / (2 * m) = dn := by
      apply Nat.div_eq_of_lt_le
      · rw [e1]
        omega
      · rw [e2]
        omega
    rw [hq]

/-- The constructor, once the bus read of Stat has succeeded: it ends with
`_calcPwmDutyFromRegister` on an object whose PwmCmp and Ctrl are still in their initial
state. -/
theorem Motor.new_calc (ptr : Fpgasoc) (u : Motor.ClkFqType) (clkFq : Int) (baseAddr s : Nat)
    (hs : (ptr.read32 (StatReg.new baseAddr)._addr).1 = Except.ok s) :
    ∃ mo1 : Motor,
      (Motor.new ptr u clkFq baseAddr).1 = Except.ok mo1._calcPwmDutyFromRegister ∧
      mo1._regmap._fpgaObjPtr = (ptr.read32 (StatReg.new baseAddr)._addr).2 ∧
      mo1._regmap.pwmCmp = PwmCmpReg.new baseAddr ∧
      mo1._regmap.ctrl = CtrlReg.new baseAddr := by
  have hup := Register.updateCache_ok (StatReg.new baseAddr) ptr s hs
  simp only [Motor.new, RegMap.new, hup]
  refine ⟨_, rfl, ?_, ?_, ?_⟩ <;>
  · rw [Motor.fetchDeadtime_cache, Motor.fetchHwIpVersion_cache]
    split <;> rfl

/-- C24: for every max-count `m` with `200 ≤ m ≤ 0xFFFF` and every duty `d` with
`0 ≤ d ≤ 100`, the setter `pwmDuty(d)` computes for `m` a comparator `c`, which is `m + 1`
when `d = 100` and `floor(m * d / 100)` otherwise. If the PWM_CMP field read from the bus
holds `c` and the PWM_MAXCNT field read holds `m`, then `_calcPwmDutyFromRegister` (neither
register being `modified`) derives exactly the duty `d`; and a `Motor` constructed on a bus
whose registers read so has the duty `d` cached, so that its `pwmDuty()` returns `d`. -/
theorem duty_set_and_derived_agree (m : Nat) (d : Int) (hm0 : 200 ≤ m) (hm1 : m ≤ 0xFFFF)
    (hd0 : 0 ≤ d) (hd1 : d ≤ 100) :
    ∃ c : Nat, Motor.pwmCmpOf m d = Except.ok c ∧
      (c : Int) = (if d = 100 then (m : Int) + 1 else (m : Int) * d / 100) ∧
      (∀ (mo : Motor) (hcw hmw : Nat),
        mo._regmap.ctrl.cacheStatus ≠ CacheState.modified →
        mo._regmap.pwmCmp.cacheStatus ≠ CacheState.modified →
        (mo._regmap._fpgaObjPtr.read32 mo._regmap.pwmCmp._addr).1 = Except.ok hcw →
        ((mo._regmap._fpgaObjPtr.read32 mo._regmap.pwmCmp._addr).2.read32
          mo._regmap.ctrl._addr).1 = Except.ok hmw →
        pickupValue hcw PwmCmpReg.PwmCmp.Pos PwmCmpReg.PwmCmp.Mask = c →
        pickupValue hmw CtrlReg.PwmMaxcnt.Pos CtrlReg.PwmMaxcnt.Mask = m →
        mo._calcPwmDutyFromRegister._pwmDuty = (true, d)) ∧
      (∀ (ptr : Fpgasoc) (u : Motor.ClkFqType) (clkFq : Int) (baseAddr s hcw hmw : Nat),
        (ptr.read32 (StatReg.new baseAddr)._addr).1 = Except.ok s →
        ((ptr.read32 (StatReg.new baseAddr)._addr).2.read32
          (PwmCmpReg.new baseAddr)._addr).1 = Except.ok hcw →
        (((ptr.read32 (StatReg.new baseAddr)._addr).2.read32
          (PwmCmpReg.new baseAddr)._addr).2.read32 (CtrlReg.new baseAddr)._addr).1
          = Except.ok hmw →
        pickupValue hcw PwmCmpReg.PwmCmp.Pos PwmCmpReg.PwmCmp.Mask = c →
        pickupValue hmw CtrlReg.PwmMaxcnt.Pos CtrlReg.PwmMaxcnt.Mask = m →
        ∃ mo : Motor, (Motor.new ptr u clkFq baseAddr).1 = Except.ok mo ∧
          mo._pwmDuty = (true, d) ∧ mo.pwmDutyGet = (Except.ok d, mo)) := by
  obtain ⟨c, _, hc, hcomp⟩ := pwmDuty_computed m d hm1 hd0 hd1
  have hderive : ∀ (mo : Motor) (hcw hmw : Nat),
      mo._regmap.ctrl.cacheStatus ≠ CacheState.modified →
      mo._regmap.pwmCmp.cacheStatus ≠ CacheState.modified →
      (mo._regmap._fpgaObjPtr.read32 mo._regmap.pwmCmp._addr).1 = Except.ok hcw →
      ((mo._regmap._fpgaObjPtr.read32 mo._regmap.pwmCmp._addr).2.read32
        mo._regmap.ctrl._addr).1 = Except.ok hmw →
      pickupValue hcw PwmCmpReg.PwmCmp.Pos PwmCmpReg.PwmCmp.Mask = c →
      pickupValue hmw CtrlReg.PwmMaxcnt.Pos CtrlReg.PwmMaxcnt.Mask = m →
      mo._calcPwmDutyFromRegister._pwmDuty = (true, d) := by
    intro mo hcw hmw hctrl hcmp hr1 hr2 hpc hpm
    rw [Motor.calcPwmDuty_ok mo hctrl hcmp hcw hmw hr1 hr2, hpc, hpm]
    exact Motor.derived_duty m c d hm0 hm1 hd0 hd1 hc
  refine ⟨c, hcomp, hc, hderive, ?_⟩
  intro ptr u clkFq baseAddr s hcw hmw hs hr1 hr2 hpc hpm
  obtain ⟨mo1, hnew, hbus, hcmpR, hctrlR⟩ := Motor.new_calc ptr u clkFq baseAddr s hs
  have hduty := hderive mo1 hcw hmw
    (by rw [hctrlR]; show CacheState.initialized ≠ CacheState.modified; decide)
    (by rw [hcmpR]; show CacheState.initialized ≠ CacheState.modified; decide)
    (by rw [hbus, hcmpR]; exact hr1) (by rw [hbus, hcmpR, hctrlR]; exact hr2) hpc hpm
  exact ⟨_, hnew, hduty, Motor.pwmDutyGet_valid _ d hduty⟩

/-- C24 (witness): max-count 200 and duty 99: the comparator is 198. On a memory bus whose
Ctrl word holds the max-count 200 (`0x000C8000`) and whose PwmCmp word is 198, the constructed
motor reports the duty 99; and for duty 100 the comparator is 201. -/
theorem duty_set_and_derived_agree_witness :
    (∃ c : Nat, Motor.pwmCmpOf 200 99 = Except.ok c ∧
      (c : Int) = (if (99 : Int) = 100 then ((200 : Nat) : Int) + 1
        else ((200 : Nat) : Int) * 99 / 100) ∧
      (∀ (mo : Motor) (hcw hmw : Nat),
        mo._regmap.ctrl.cacheStatus ≠ CacheState.modified →
        mo._regmap.pwmCmp.cacheStatus ≠ CacheState.modified →
        (mo._regmap._fpgaObjPtr.read32 mo._regmap.pwmCmp._addr).1 = Except.ok hcw →
        ((mo._regmap._fpgaObjPtr.read32 mo._regmap.pwmCmp._addr).2.read32
          mo._regmap.ctrl._addr).1 = Except.ok hmw →
        pickupValue hcw PwmCmpReg.PwmCmp.Pos PwmCmpReg.PwmCmp.Mask = c →
        pickupValue hmw CtrlReg.PwmMaxcnt.Pos CtrlReg.PwmMaxcnt.Mask = 200 →
        mo._calcPwmDutyFromRegister._pwmDuty = (true, 99)) ∧
      (∀ (ptr : Fpgasoc) (u : Motor.ClkFqType) (clkFq : Int) (baseAddr s hcw hmw : Nat),
        (ptr.read32 (StatReg.new baseAddr)._addr).1 = Except.ok s →
        ((ptr.read32 (StatReg.new baseAddr)._addr).2.read32
          (PwmCmpReg.new baseAddr)._addr).1 = Except.ok hcw →
        (((ptr.read32 (StatReg.new baseAddr)._addr).2.read32
          (PwmCmpReg.new baseAddr)._addr).2.read32 (CtrlReg.new baseAddr)._addr).1
          = Except.ok hmw →
        pickupValue hcw PwmCmpReg.PwmCmp.Pos PwmCmpReg.PwmCmp.Mask = c →
        pickupValue hmw CtrlReg.PwmMaxcnt.Pos CtrlReg.PwmMaxcnt.Mask = 200 →
        ∃ mo : Motor, (Motor.new ptr u clkFq baseAddr).1 = Except.ok mo ∧
          mo._pwmDuty = (true, 99) ∧ mo.pwmDutyGet = (Except.ok 99, mo))) ∧
    Motor.pwmCmpOf 200 99 = Except.ok 198 ∧ Motor.pwmCmpOf 200 100 = Except.ok 201 ∧
    (∃ mo : Motor,
      (Motor.new (memBus (fun a => if a = 8 then 0x000C8000 else if a = 4 then 198 else 0) [])
        Motor.ClkFqType.Hz 50000000 0).1 = Except.ok mo ∧
      (mo.pwmDutyGet).1 = Except.ok 99) :=
  ⟨duty_set_and_derived_agree 200 99 (by decide) (by decide) (by decide) (by decide),
   by decide, by decide, ⟨_, rfl, by decide⟩⟩

/-! ## The period setter on a memory bus, whatever the duty cache holds -/

theorem lastWritten_append_read (l : List BusOp) (dflt addr a : Nat) :
    lastWritten dflt addr (l ++ [BusOp.read32 a]) = lastWritten dflt addr l := by
  rw [lastWritten_append]
  rfl

/-- On a memory bus `_calcPwmDutyFromRegister` makes only bus reads and leaves a Ctrl register
that was `sync` in state `sync`. -/
theorem Motor.calcPwmDuty_memBus (mo : Motor) (init : Nat → Nat) (log : List BusOp)
    (hbus : mo._regmap._fpgaObjPtr = memBus init log)
    (hs : mo._regmap.ctrl.cacheStatus = CacheState.sync) :
    mo._calcPwmDutyFromRegister._regmap.ctrl.cacheStatus = CacheState.sync ∧
    ∃ reads : List BusOp,
      (∀ dflt a : Nat, lastWritten dflt a (log ++ reads) = lastWritten dflt a log) ∧
      mo._calcPwmDutyFromRegister._regmap._fpgaObjPtr = memBus init (log ++ reads) := by
  by_cases hcmp : mo._regmap.pwmCmp.cacheStatus = CacheState.modified
  · have : mo._calcPwmDutyFromRegister = mo := by
      simp [Motor._calcPwmDutyFromRegister, hcmp]
    rw [this]
    exact ⟨hs, [], fun _ _ => by rw [List.append_nil], by rw [List.append_nil]; exact hbus⟩
  · have hctrl : mo._regmap.ctrl.cacheStatus ≠ CacheState.modified := by
      rw [hs]
      decide
    have hr1 := memBus_read32 init log mo._regmap.pwmCmp._addr
    have h1 := PwmCmpReg.pwmCmpRead_bus_ok mo._regmap.pwmCmp mo._regmap._fpgaObjPtr _
      (by rw [hbus, hr1])
    have hr2 := memBus_read32 init (log ++ [BusOp.read32 mo._regmap.pwmCmp._addr])
      mo._regmap.ctrl._addr
    have h2 := CtrlReg.pwmMaxcntRead_bus_ok mo._regmap.ctrl
      (mo._regmap._fpgaObjPtr.read32 mo._regmap.pwmCmp._addr).2 _
      (by rw [hbus, hr1, hr2])
    have hb : ((mo._regmap._fpgaObjPtr.read32 mo._regmap.pwmCmp._addr).2.read32
        mo._regmap.ctrl._addr).2 = memBus init (log ++
          [BusOp.read32 mo._regmap.pwmCmp._addr, BusOp.read32 mo._regmap.ctrl._addr]) := by
      rw [hbus, hr1, hr2, List.append_assoc]
      rfl
    have hl : ∀ dflt a : Nat, lastWritten dflt a (log ++
        [BusOp.read32 mo._regmap.pwmCmp._addr, BusOp.read32 mo._regmap.ctrl._addr]) =
        lastWritten dflt a log := by
      intro dflt a
      rw [lastWritten_append]
      rfl
    simp only [Motor._calcPwmDutyFromRegister, hctrl, hcmp, ne_eq, not_false_eq_true, and_self,
      if_true, h1, Motor.withPwmCmp, h2, Motor.withCtrl]
    split
    · exact ⟨rfl, _, hl, hb⟩
    · split
      · exact ⟨rfl, _, hl, hb⟩
      · exact ⟨rfl, _, hl, hb⟩

/-- The setter `pwmPeriod` on a memory bus, for a motor whose Ctrl is not `modified` and whose
duty cache, if valid, holds a percentage, once the range checks have passed: afterwards the
bus holds the flushed word at the Ctrl address; the call returns, or fails with
`runtime_error` when no duty is cached and none can be derived; it returns when a duty is
cached. -/
theorem Motor.pwmPeriod_memBus_readback (mo : Motor) (u : Motor.PeriodType) (period p : Int)
    (init : Nat → Nat) (log : List BusOp) (hbus : mo._regmap._fpgaObjPtr = memBus init log)
    (haddr : mo._regmap.pwmCmp._addr ≠ mo._regmap.ctrl._addr)
    (hst : mo._regmap.ctrl.cacheStatus ≠ CacheState.modified)
    (hdp : mo.DutyIsPercentage) (hp0 : 0 ≤ p) (hp1 : p ≤ 32)
    (hn : wrap64 (period * u.nanos) ≤ mo.periodMaxCountNs p) :
    ((mo.pwmPeriod u period p).2._regmap._fpgaObjPtr.read32 mo._regmap.ctrl._addr).1 =
      Except.ok (insertValue (insertValue mo._regmap.ctrl._regCache
        (mo.pwmMaxcntOf (wrap64 (period * u.nanos)) p % 2 ^ 16)
        CtrlReg.PwmMaxcnt.Pos CtrlReg.PwmMaxcnt.Mask)
        (p.toNat % 2 ^ 8) CtrlReg.PwmPrsc.Pos CtrlReg.PwmPrsc.Mask) ∧
    ((mo.pwmPeriod u period p).1 = Except.ok () ∨
      (mo.pwmPeriod u period p).1 = Except.error Exn.runtime_error) ∧
    (mo._pwmDuty.1 = true → (mo.pwmPeriod u period p).1 = Except.ok ()) := by
  by_cases hv : mo._pwmDuty.1 = true
  · obtain ⟨hd0, hd1⟩ := hdp hv
    obtain ⟨hok, _, _, _, hrd⟩ := Motor.pwmPeriod_memBus mo u period p mo._pwmDuty.2 init log
      hbus haddr hst (Prod.ext hv rfl) hd0 hd1 hp0 hp1 hn
    exact ⟨hrd, Or.inl hok, fun _ => hok⟩
  · have hrun := Motor.pwmPeriod_run mo u period p
      (by simp only [Motor._MinPrscSel]; exact hp0)
      (by simp only [Motor._MaxPrscSel]; exact hp1) hn hst
    obtain ⟨hpc, _⟩ := prsc_cast p hp0 hp1
    rw [hpc] at hrun
    generalize hW : insertValue (insertValue mo._regmap.ctrl._regCache
        (mo.pwmMaxcntOf (wrap64 (period * u.nanos)) p % 2 ^ 16)
        CtrlReg.PwmMaxcnt.Pos CtrlReg.PwmMaxcnt.Mask)
        (p.toNat % 2 ^ 8) CtrlReg.PwmPrsc.Pos CtrlReg.PwmPrsc.Mask = W at hrun ⊢
    have hWlt : W < 2 ^ 32 := by
      rw [← hW]
      exact insertValue_lt _ _ _ _
    rw [hbus, Register.flushCache_memBus] at hrun
    simp only at hrun
    generalize hmo3 : mo.withCtrl (Register.mk mo._regmap.ctrl.kind mo._regmap.ctrl._addr W
        CacheState.sync)._flushCacheCallBack
        (memBus init (log ++ [BusOp.write32 mo._regmap.ctrl._addr W])) = mo3 at hrun
    have hs3 : mo3._regmap.ctrl.cacheStatus = CacheState.sync := by
      rw [← hmo3]
      exact Register.flushCallBack_status
        (Register.mk mo._regmap.ctrl.kind mo._regmap.ctrl._addr W CacheState.modified)
    have hb3 : mo3._regmap._fpgaObjPtr =
        memBus init (log ++ [BusOp.write32 mo._regmap.ctrl._addr W]) := by
      rw [← hmo3]
      rfl
    have ha3 : mo3._regmap.pwmCmp._addr = mo._regmap.pwmCmp._addr := by
      rw [← hmo3]
      rfl
    have hd3 : mo3._pwmDuty = mo._pwmDuty := by
      rw [← hmo3]
      rfl
    have hv3 : (!mo3._pwmDuty.1) = true := by
      rw [hd3]
      simpa using hv
    obtain ⟨hs4, reads, hreads, hb4⟩ := Motor.calcPwmDuty_memBus mo3 init _ hb3 hs3
    have k4 := Motor.calcPwmDuty_keeps mo3
    have hdp4 : mo3._calcPwmDutyFromRegister.DutyIsPercentage :=
      k4.2.2.2.2.1 (fun h => by
        rw [hd3] at h
        exact absurd h hv)
    have hget : mo3.pwmDutyGet =
        (if (!mo3._calcPwmDutyFromRegister._pwmDuty.1) = true then
          (Except.error Exn.runtime_error, mo3._calcPwmDutyFromRegister)
        else (Except.ok mo3._calcPwmDutyFromRegister._pwmDuty.2,
          mo3._calcPwmDutyFromRegister)) := by
      simp only [Motor.pwmDutyGet, hv3, if_true]
    rw [hget] at hrun
    have hlast : ∀ ext : List BusOp,
        lastWritten (init mo._regmap.ctrl._addr) mo._regmap.ctrl._addr
          (log ++ [BusOp.write32 mo._regmap.ctrl._addr W] ++ reads ++ ext) =
          lastWritten (init mo._regmap.ctrl._addr) mo._regmap.ctrl._addr
            (log ++ [BusOp.write32 mo._regmap.ctrl._addr W] ++ reads) →
        ((memBus init (log ++ [BusOp.write32 mo._regmap.ctrl._addr W] ++ reads ++ ext)).read32
          mo._regmap.ctrl._addr).1 = Except.ok W := by
      intro ext hext
      rw [memBus_read32, hext, hreads, lastWritten_append_write, Nat.mod_eq_of_lt hWlt]
    by_cases hv4 : mo3._calcPwmDutyFromRegister._pwmDuty.1 = true
    · have hn4 : ¬ ((!mo3._calcPwmDutyFromRegister._pwmDuty.1) = true) := by
        simpa using hv4
      rw [if_neg hn4] at hrun
      simp only at hrun
      obtain ⟨hd0, hd1⟩ := hdp4 hv4
      obtain ⟨w, hok, hb, _, _⟩ := Motor.pwmDuty_memBus mo3._calcPwmDutyFromRegister
        mo3._calcPwmDutyFromRegister._pwmDuty.2 hd0 hd1 hs4 init _ hb4
      rw [← hrun] at hok hb
      refine ⟨?_, Or.inl hok, fun h => absurd h hv⟩
      rw [hb, k4.2.1, ha3]
      apply hlast
      rw [lastWritten_append]
      simp only [lastWritten, haddr, if_false]
    · have hn4 : (!mo3._calcPwmDutyFromRegister._pwmDuty.1) = true := by
        simpa using hv4
      rw [if_pos hn4] at hrun
      rw [hrun]
      refine ⟨?_, Or.inr rfl, fun h => absurd h hv⟩
      show (mo3._calcPwmDutyFromRegister._regmap._fpgaObjPtr.read32 mo._regmap.ctrl._addr).1
        = Except.ok W
      rw [hb4]
      have := hlast [] (by rw [List.append_nil])
      rw [List.append_nil] at this
      exact this

theorem insertValue_mod (c v pos mask : Nat) :
    insertValue c v pos mask = insertValue (c % 2 ^ 32) v pos mask := by
  apply Nat.eq_of_testBit_eq
  intro i
  rw [testBit_insertValue, testBit_insertValue, Nat.testBit_mod_two_pow]
  by_cases hi : i < 32 <;> simp [hi]

/-- The loss of the tick conversion: converting `n` nanoseconds to whole ticks of `K / clk`
nanoseconds and back gives at most `n`, and less than one tick and one nanosecond below
`n`. -/
theorem period_tick_loss (n clk K : Int) (hclk : 0 < clk) (hK : 0 < K) :
    n * clk / K * K / clk ≤ n ∧ (n - n * clk / K * K / clk) * clk < K + clk := by
  have h1 : n * clk / K * K ≤ n * clk := Int.ediv_mul_le _ (ne_of_gt hK)
  have h2 : n * clk < (n * clk / K + 1) * K := Int.lt_ediv_add_one_mul_self _ hK
  have h3 : n * clk / K * K / clk * clk ≤ n * clk / K * K := Int.ediv_mul_le _ (ne_of_gt hclk)
  have h4 : n * clk / K * K < (n * clk / K * K / clk + 1) * clk :=
    Int.lt_ediv_add_one_mul_self _ hclk
  constructor
  · have : n * clk / K * K / clk * clk ≤ n * clk := le_trans h3 h1
    exact le_of_mul_le_mul_right this hclk
  · nlinarith

/-- In a state reached on a memory bus from a successful construction by public operations:
the bus is still that memory, PwmCmp and Ctrl have different addresses, the clock is the one
of the construction, no register is `modified`, and a valid duty cache holds a percentage. -/
theorem Motor.reachable_memBus (init : Nat → Nat) (log0 : List BusOp) (u : Motor.ClkFqType)
    (clkFq : Int) (baseAddr : Nat) (mo0 : Motor) (ops : List Motor.Op)
    (hnew : (Motor.new (memBus init log0) u clkFq baseAddr).1 = Except.ok mo0) :
    (∃ log : List BusOp, (mo0.execAll ops)._regmap._fpgaObjPtr = memBus init log) ∧
      (mo0.execAll ops)._regmap.pwmCmp._addr ≠ (mo0.execAll ops)._regmap.ctrl._addr ∧
      (mo0.execAll ops)._clkFq = mo0._clkFq ∧
      (mo0.execAll ops).Unmodified ∧ (mo0.execAll ops).DutyIsPercentage := by
  obtain ⟨hl0, ha1, ha2, _, hd0, hu0⟩ := Motor.new_keeps _ u clkFq baseAddr mo0 hnew
  obtain ⟨hl, hb1, hb2, hclk, hd, hu⟩ := Motor.execAll_follows mo0 ops
  obtain ⟨ext0, he0⟩ := memBus_later init log0 _ hl0
  obtain ⟨ext, he⟩ := memBus_later init log0 _ (hl0.trans_later hl)
  refine ⟨⟨_, he⟩, ?_, hclk, ?_, hd hd0⟩
  · rw [hb1, hb2, ha1, ha2]
    omega
  · rcases hu hu0 with h | h
    · exact h
    · rw [he0] at h
      exact absurd h (memBus_not_faulted init _ _)

/-- The period round trip on a memory bus for a motor none of whose registers is `modified`
and whose duty cache, if valid, holds a percentage. -/
theorem Motor.pwmPeriod_readback (mo : Motor) (init : Nat → Nat) (log : List BusOp)
    (p n : Int) (hbus : mo._regmap._fpgaObjPtr = memBus init log)
    (haddr : mo._regmap.pwmCmp._addr ≠ mo._regmap.ctrl._addr)
    (hun : mo.Unmodified) (hdp : mo.DutyIsPercentage)
    (hclk0 : 0 < mo._clkFq) (hclk1 : mo._clkFq < 2 ^ 63) (hp0 : 0 ≤ p) (hp1 : p ≤ 16)
    (hn0 : 0 ≤ n) (hn1 : n ≤ 0xFFFF * 10 ^ 9 * 2 ^ (p.toNat + 1) / mo._clkFq) :
    ((mo.pwmPeriod Motor.PeriodType.nanoseconds n p).2.pwmPeriodGet
      Motor.PeriodType.nanoseconds).1 =
      Except.ok (n * mo._clkFq / (10 ^ 9 * 2 ^ (p.toNat + 1)) * 10 ^ 9 * 2 ^ (p.toNat + 1)
        / mo._clkFq, p) ∧
    ((mo.pwmPeriod Motor.PeriodType.nanoseconds n p).1 = Except.ok () ∨
      (mo.pwmPeriod Motor.PeriodType.nanoseconds n p).1 = Except.error Exn.runtime_error) ∧
    (mo._pwmDuty.1 = true →
      (mo.pwmPeriod Motor.PeriodType.nanoseconds n p).1 = Except.ok ()) ∧
    (mo.pwmPeriod Motor.PeriodType.nanoseconds n p).2.countNsOf
        (mo.pwmMaxcntOf n p) p.toNat =
      n * mo._clkFq / (10 ^ 9 * 2 ^ (p.toNat + 1)) * 10 ^ 9 * 2 ^ (p.toNat + 1) / mo._clkFq := by
  have hk : p.toNat ≤ 16 := by omega
  have hX := period_scale_lt p.toNat hk
  have hX0 : (0 : Int) ≤ 0xFFFF * 10 ^ 9 * 2 ^ (p.toNat + 1) := by positivity
  have hnlt : n < 2 ^ 63 := by
    have : 0xFFFF * 10 ^ 9 * 2 ^ (p.toNat + 1) / mo._clkFq ≤
        0xFFFF * 10 ^ 9 * 2 ^ (p.toNat + 1) := Int.ediv_le_self _ hX0
    omega
  have hns : wrap64 (n * Motor.PeriodType.nanoseconds.nanos) = n := by
    simp only [Motor.PeriodType.nanos, mul_one]
    exact wrap64_eq (by omega) hnlt
  have hcheck : wrap64 (n * Motor.PeriodType.nanoseconds.nanos) ≤ mo.periodMaxCountNs p := by
    rw [hns, Motor.periodMaxCountNs_eq mo p hclk0 hclk1 hp0 hp1]
    exact hn1
  obtain ⟨hrd, hres, hcached⟩ := Motor.pwmPeriod_memBus_readback mo
    Motor.PeriodType.nanoseconds n p init log hbus haddr hun.2.2.1 hdp hp0 (by omega) hcheck
  obtain ⟨hl, _, haddr', hclk, _, hu⟩ :=
    Motor.pwmPeriod_follows mo Motor.PeriodType.nanoseconds n p
  have hst' : (mo.pwmPeriod Motor.PeriodType.nanoseconds n p).2._regmap.ctrl.cacheStatus
      ≠ CacheState.modified := by
    rcases hu hun with h | h
    · exact h.2.2.1
    · rw [hbus] at h
      exact absurd h (memBus_not_faulted init _ _)
  obtain ⟨hMeq, hMle⟩ := Motor.pwmMaxcntOf_eq mo n p hclk0 hp0 hp1 hn0 hn1
  have hM := Motor.pwmMaxcntOf_lt mo n p
  obtain ⟨_, hp6⟩ := prsc_cast p hp0 (by omega)
  obtain ⟨hw1, hw2, _⟩ := period_word (mo._regmap.ctrl._regCache % 2 ^ 32)
    (mo.pwmMaxcntOf n p) p.toNat (Nat.mod_lt _ (by norm_num)) hM hp6
  rw [← insertValue_mod] at hw1 hw2
  rw [hns] at hrd
  have hget := Motor.pwmPeriodGet_read
    (mo.pwmPeriod Motor.PeriodType.nanoseconds n p).2 Motor.PeriodType.nanoseconds _
    hst' (by rw [haddr']; exact hrd)
  have hp8 : p.toNat % 2 ^ 8 = p.toNat := Nat.mod_eq_of_lt (by omega)
  have hcount := Motor.countNsOf_eq (mo.pwmPeriod Motor.PeriodType.nanoseconds n p).2
    (mo.pwmMaxcntOf n p) p.toNat (by rw [hclk]; exact hclk0) (by rw [hclk]; exact hclk1)
    hMle hk
  rw [hclk, hMeq] at hcount
  refine ⟨?_, hres, hcached, hcount⟩
  rw [hget, hw1, hw2, hp8, hcount]
  simp only [Motor.PeriodType.nanos, Int.tdiv_one, Int.toNat_of_nonneg hp0]

/-! ## C25: the period read back after a set -/

/-- C25: on a memory bus, take any state reached from a successful construction by public
operations, with clock `0 < clock_hz < 2^63`, any prescaler `p` in 0..16 and any period of `n`
nanoseconds with `0 ≤ n ≤ floor(0xFFFF * 2^(p+1) * 10^9 / clock_hz)`. With
`M = floor(n * clock_hz / (10^9 * 2^(p+1)))` and `n' = floor(M * 10^9 * 2^(p+1) / clock_hz)`:
after `pwmPeriod(n ns, p)` the getter `pwmPeriod<nanoseconds>()` returns `(n' ns, p)`, with
`n' ≤ n` and `n - n' < 2^(p+1) * 10^9 / clock_hz + 1` (stated without division as
`(n - n') * clock_hz < 2^(p+1) * 10^9 + clock_hz`). The setter returns normally when a duty is
cached; otherwise it returns, or raises `runtime_error` after the Ctrl write when no duty can
be derived either, and the read-back is the same. No intermediate 64-bit value overflows: the
products `0xFFFF * 10^9 * 2^(p+1)`, `n * clock_hz` and `M * 10^9 * 2^(p+1)` are below `2^63`,
`M ≤ 0xFFFF` fits the 16-bit max-count, and the three values computed in 64-bit arithmetic
(`periodMaxCountNs`, `pwmMaxcnt`, `countNs`) are the exact quotients. -/
theorem pwmPeriod_readback_loss (init : Nat → Nat) (log0 : List BusOp) (u : Motor.ClkFqType)
    (clkFq : Int) (baseAddr : Nat) (mo0 : Motor) (ops : List Motor.Op) (p n : Int)
    (hnew : (Motor.new (memBus init log0) u clkFq baseAddr).1 = Except.ok mo0)
    (hclk0 : 0 < mo0._clkFq) (hclk1 : mo0._clkFq < 2 ^ 63)
    (hp0 : 0 ≤ p) (hp1 : p ≤ 16) (hn0 : 0 ≤ n)
    (hn1 : n ≤ 0xFFFF * 2 ^ (p.toNat + 1) * 10 ^ 9 / mo0._clkFq) :
    ∃ M n' : Int,
      M = n * mo0._clkFq / (10 ^ 9 * 2 ^ (p.toNat + 1)) ∧
      n' = M * 10 ^ 9 * 2 ^ (p.toNat + 1) / mo0._clkFq ∧
      (((mo0.execAll ops).pwmPeriod Motor.PeriodType.nanoseconds n p).2.pwmPeriodGet
        Motor.PeriodType.nanoseconds).1 = Except.ok (n', p) ∧
      n' ≤ n ∧
      (n - n') * mo0._clkFq < 2 ^ (p.toNat + 1) * 10 ^ 9 + mo0._clkFq ∧
      (((mo0.execAll ops).pwmPeriod Motor.PeriodType.nanoseconds n p).1 = Except.ok () ∨
        ((mo0.execAll ops).pwmPeriod Motor.PeriodType.nanoseconds n p).1 =
          Except.error Exn.runtime_error) ∧
      ((mo0.execAll ops)._pwmDuty.1 = true →
        ((mo0.execAll ops).pwmPeriod Motor.PeriodType.nanoseconds n p).1 = Except.ok ()) ∧
      (0xFFFF : Int) * 10 ^ 9 * 2 ^ (p.toNat + 1) < 2 ^ 63 ∧
      (mo0.execAll ops).periodMaxCountNs p =
        0xFFFF * 10 ^ 9 * 2 ^ (p.toNat + 1) / mo0._clkFq ∧
      0 ≤ n * mo0._clkFq ∧ n * mo0._clkFq < 2 ^ 63 ∧
      ((mo0.execAll ops).pwmMaxcntOf n p : Int) = M ∧ M ≤ 0xFFFF ∧
      M * 10 ^ 9 * 2 ^ (p.toNat + 1) < 2 ^ 63 ∧
      ((mo0.execAll ops).pwmPeriod Motor.PeriodType.nanoseconds n p).2.countNsOf
        ((mo0.execAll ops).pwmMaxcntOf n p) p.toNat = n' := by
  obtain ⟨⟨log, hbus⟩, haddr, hclk, hun, hdp⟩ :=
    Motor.reachable_memBus init log0 u clkFq baseAddr mo0 ops hnew
  have hre : (0xFFFF : Int) * 2 ^ (p.toNat + 1) * 10 ^ 9 = 0xFFFF * 10 ^ 9 * 2 ^ (p.toNat + 1) := by
    ring
  rw [hre] at hn1
  rw [← hclk] at hclk0 hclk1 hn1 ⊢
  generalize mo0.execAll ops = mo at *
  have hk : p.toNat ≤ 16 := by omega
  have hX := period_scale_lt p.toNat hk
  have hK : (0 : Int) < 10 ^ 9 * 2 ^ (p.toNat + 1) := by positivity
  obtain ⟨hget, hres, hcached, hcount⟩ := Motor.pwmPeriod_readback mo init log p n hbus haddr
    hun hdp hclk0 hclk1 hp0 hp1 hn0 hn1
  obtain ⟨hMeq, hMle⟩ := Motor.pwmMaxcntOf_eq mo n p hclk0 hp0 hp1 hn0 hn1
  obtain ⟨hle, hloss⟩ := period_tick_loss n mo._clkFq (10 ^ 9 * 2 ^ (p.toNat + 1)) hclk0 hK
  have hassoc : n * mo._clkFq / (10 ^ 9 * 2 ^ (p.toNat + 1)) * 10 ^ 9 * 2 ^ (p.toNat + 1) =
      n * mo._clkFq / (10 ^ 9 * 2 ^ (p.toNat + 1)) * (10 ^ 9 * 2 ^ (p.toNat + 1)) := by
    ring
  have hncl : n * mo._clkFq ≤ 0xFFFF * 10 ^ 9 * 2 ^ (p.toNat + 1) :=
    le_trans (mul_le_mul_of_nonneg_right hn1 (le_of_lt hclk0))
      (Int.ediv_mul_le _ (ne_of_gt hclk0))
  have hMK : n * mo._clkFq / (10 ^ 9 * 2 ^ (p.toNat + 1)) * (10 ^ 9 * 2 ^ (p.toNat + 1)) ≤
      n * mo._clkFq := Int.ediv_mul_le _ (ne_of_gt hK)
  refine ⟨_, _, rfl, rfl, hget, ?_, ?_, hres, hcached, hX,
    Motor.periodMaxCountNs_eq mo p hclk0 hclk1 hp0 hp1, mul_nonneg hn0 (le_of_lt hclk0),
    lt_of_le_of_lt hncl hX, hMeq, ?_, ?_, hcount⟩
  · rw [hassoc]
    exact hle
  · rw [hassoc]
    have e : (2 : Int) ^ (p.toNat + 1) * 10 ^ 9 = 10 ^ 9 * 2 ^ (p.toNat + 1) := by ring
    rw [e]
    exact hloss
  · rw [← hMeq]
    exact_mod_cast hMle
  · rw [hassoc]
    exact lt_of_le_of_lt (le_trans hMK hncl) hX

/-- C25 (witness): on `resetBus` at 50 MHz, after `pwmDuty(50)`, the period 1001 ns with
prescaler 0 is read back as 1000 ns: one tick is 40 ns, `M = 25`, and 1 ns is lost. -/
theorem pwmPeriod_readback_loss_witness :
    (((demoMotor.execAll [Motor.Op.pwmDuty 50]).pwmPeriod Motor.PeriodType.nanoseconds
      1001 0).2.pwmPeriodGet Motor.PeriodType.nanoseconds).1 = Except.ok (1000, 0) ∧
    ∃ M n' : Int,
      M = 1001 * demoMotor._clkFq / (10 ^ 9 * 2 ^ ((0 : Int).toNat + 1)) ∧
      n' = M * 10 ^ 9 * 2 ^ ((0 : Int).toNat + 1) / demoMotor._clkFq ∧
      (((demoMotor.execAll [Motor.Op.pwmDuty 50]).pwmPeriod Motor.PeriodType.nanoseconds
        1001 0).2.pwmPeriodGet Motor.PeriodType.nanoseconds).1 = Except.ok (n', 0) ∧
      n' ≤ 1001 ∧
      (1001 - n') * demoMotor._clkFq < 2 ^ ((0 : Int).toNat + 1) * 10 ^ 9 + demoMotor._clkFq ∧
      (((demoMotor.execAll [Motor.Op.pwmDuty 50]).pwmPeriod Motor.PeriodType.nanoseconds
          1001 0).1 = Except.ok () ∨
        ((demoMotor.execAll [Motor.Op.pwmDuty 50]).pwmPeriod Motor.PeriodType.nanoseconds
          1001 0).1 = Except.error Exn.runtime_error) ∧
      ((demoMotor.execAll [Motor.Op.pwmDuty 50])._pwmDuty.1 = true →
        ((demoMotor.execAll [Motor.Op.pwmDuty 50]).pwmPeriod Motor.PeriodType.nanoseconds
          1001 0).1 = Except.ok ()) ∧
      (0xFFFF : Int) * 10 ^ 9 * 2 ^ ((0 : Int).toNat + 1) < 2 ^ 63 ∧
      (demoMotor.execAll [Motor.Op.pwmDuty 50]).periodMaxCountNs 0 =
        0xFFFF * 10 ^ 9 * 2 ^ ((0 : Int).toNat + 1) / demoMotor._clkFq ∧
      0 ≤ 1001 * demoMotor._clkFq ∧ 1001 * demoMotor._clkFq < 2 ^ 63 ∧
      ((demoMotor.execAll [Motor.Op.pwmDuty 50]).pwmMaxcntOf 1001 0 : Int) = M ∧
      M ≤ 0xFFFF ∧
      M * 10 ^ 9 * 2 ^ ((0 : Int).toNat + 1) < 2 ^ 63 ∧
      ((demoMotor.execAll [Motor.Op.pwmDuty 50]).pwmPeriod Motor.PeriodType.nanoseconds
        1001 0).2.countNsOf
        ((demoMotor.execAll [Motor.Op.pwmDuty 50]).pwmMaxcntOf 1001 0) (0 : Int).toNat = n' :=
  ⟨by decide,
   pwmPeriod_readback_loss (fun a => if a = 8 then 0x0FFFF000 else 0) []
     Motor.ClkFqType.Hz 50000000 0 demoMotor [Motor.Op.pwmDuty 50] 0 1001
     (congrArg Prod.fst demoMotor_constructed) (by decide) (by decide) (by decide)
     (by decide) (by decide) (by decide)⟩

/-! ## C26: insertion into a declared field -/

/-- Every declared field lies inside the 32-bit word and its mask is the shifted run of
`Width` ones. -/
theorem declaredFields_shape (b : Bit) (hb : b ∈ declaredFields) :
    b.Pos + b.Width ≤ 32 ∧ b.Mask = ((2 ^ b.Width - 1) <<< b.Pos) % 2 ^ 32 := by
  revert b
  decide

/-- Inserting into a field that lies inside the word leaves the bits outside the mask as they
were, for every inserted value. -/
theorem insertValue_frame (w v pos mask i : Nat) (hw : w < 2 ^ 32)
    (hi : mask.testBit i = false) :
    (insertValue w v pos mask).testBit i = w.testBit i := by
  rw [testBit_insertValue, hi]
  by_cases h32 : i < 32
  · simp [h32]
  · have : w.testBit i = false := testBit_eq_false_of_lt_two_pow hw (by omega)
    simp [this]

/-- Picking up a field after an insertion returns the inserted value reduced to the width of
the field. -/
theorem pickupValue_insertValue_mod (w v pos width mask : Nat) (hpw : pos + width ≤ 32)
    (hm : mask = ((2 ^ width - 1) <<< pos) % 2 ^ 32) :
    pickupValue (insertValue w v pos mask) pos mask = v % 2 ^ width := by
  apply Nat.eq_of_testBit_eq
  intro i
  rw [testBit_pickupValue, testBit_insertValue, hm, testBit_fieldMask _ _ _ hpw,
    Nat.testBit_mod_two_pow]
  by_cases hi : i < width
  · have : pos + i < 32 := by omega
    simp [hi, this]
  · simp [hi]

/-- C26: for each of the eleven declared fields `(Pos, Width, Mask)`, every 32-bit word `w` and
every value `v`: `insertValue(w, v, Pos, Mask)` agrees with `w` on every bit outside `Mask`,
and `pickupValue` of the result at `(Pos, Mask)` is `v` reduced modulo `2^Width` (the excess
high bits of `v` are discarded), hence `v` itself when `v < 2^Width`. -/
theorem insertValue_declared_field (b : Bit) (hb : b ∈ declaredFields) (w v : Nat)
    (hw : w < 2 ^ 32) :
    (∀ i : Nat, b.Mask.testBit i = false →
      (insertValue w v b.Pos b.Mask).testBit i = w.testBit i) ∧
    pickupValue (insertValue w v b.Pos b.Mask) b.Pos b.Mask = v % 2 ^ b.Width ∧
    (v < 2 ^ b.Width → pickupValue (insertValue w v b.Pos b.Mask) b.Pos b.Mask = v) := by
  obtain ⟨hpw, hm⟩ := declaredFields_shape b hb
  have hpick := pickupValue_insertValue_mod w v b.Pos b.Width b.Mask hpw hm
  refine ⟨fun i hi => insertValue_frame w v b.Pos b.Mask i hw hi, hpick, fun hv => ?_⟩
  rw [hpick, Nat.mod_eq_of_lt hv]

/-- C26 (witness): the PWM_PRSC field of Ctrl (position 6, width 6) in the Ctrl reset word:
inserting 0x45, which does not fit, stores its low six bits 5 and leaves the other bits of
the word as they were; inserting 37, which fits, stores 37. -/
theorem insertValue_declared_field_witness :
    insertValue 0x0FFFF000 0x45 6 0xFC0 = 0x0FFFF140 ∧
    ((∀ i : Nat, (0xFC0 : Nat).testBit i = false →
        (insertValue 0x0FFFF000 0x45 6 0xFC0).testBit i = (0x0FFFF000 : Nat).testBit i) ∧
      pickupValue (insertValue 0x0FFFF000 0x45 6 0xFC0) 6 0xFC0 = 0x45 % 2 ^ 6 ∧
      (0x45 < 2 ^ 6 → pickupValue (insertValue 0x0FFFF000 0x45 6 0xFC0) 6 0xFC0 = 0x45)) ∧
    pickupValue (insertValue 0x0FFFF000 37 6 0xFC0) 6 0xFC0 = 37 :=
  ⟨by decide,
   insertValue_declared_field ⟨6, 6, 0xFC0⟩ (by decide) 0x0FFFF000 0x45 (by decide),
   (insertValue_declared_field ⟨6, 6, 0xFC0⟩ (by decide) 0x0FFFF000 37 (by decide)).2.2
     (by decide)⟩

end bldcm
